import Mathlib

/-!
# Frame pipeline coordinator and pixel-format converter

A shallow embedding of `FrameHandler` (vapoursynth_filter/src/frame_handler.cpp) and of
`Format::CopyFromInput` / `Format::CopyToOutput` (avisynth_filter/src/format.cpp).

Conventions of the embedding:

* C++ `int`, `int64_t` and `REFERENCE_TIME` values are unbounded integers (`Int`); the one
  narrowing conversion of the source, `static_cast<int>`, is `toInt32`.
* `std::map<int, T>` is a list of key/value pairs kept in increasing key order; the map
  operations used by the source (`emplace`, `find`, `erase`, `lower_bound`, `begin`,
  `crbegin`) are the functions of the `OrdMap` namespace.
* Every member function runs atomically; a call that would block on a condition variable is
  reported as blocked and leaves the state untouched.
* Results of calls into the host pipeline and the script engine are inputs of the model.
* A buffer is a function from byte offsets to bytes and a pointer is an offset into it; the
  three planes of an engine frame are buffers of their own.
* The definitions come first, the properties after them.
-/

namespace SynthFilter

/-! ## Ordered maps (`std::map<int, T>`) -/

namespace OrdMap

/-- Lookup by key, as `map.find(k)`: the stored value or nothing (`end()`). -/
def find {α : Type} (k : Int) : List (Int × α) → Option α
  | [] => none
  | (k', v) :: rest => if k' = k then some v else find k rest

/-- Insertion as `map.emplace(k, v)`: the pair is put at its place in key order; when the key is
already present the map is left as it is. -/
def emplace {α : Type} (k : Int) (v : α) : List (Int × α) → List (Int × α)
  | [] => [(k, v)]
  | (k', v') :: rest =>
    if k < k' then (k, v) :: (k', v') :: rest
    else if k = k' then (k', v') :: rest
    else (k', v') :: emplace k v rest

/-- Removal as `map.erase(k)` (equally `map.erase(find(k))`). -/
def erase {α : Type} (k : Int) : List (Int × α) → List (Int × α)
  | [] => []
  | (k', v) :: rest => if k' = k then rest else (k', v) :: erase k rest

/-- The entry `map.lower_bound(k)` points to: the first entry whose key is not below `k`. -/
def lower_bound {α : Type} (k : Int) : List (Int × α) → Option (Int × α)
  | [] => none
  | (k', v) :: rest => if k ≤ k' then some (k', v) else lower_bound k rest

/-- Replace the value stored under `k` (assignment through `find(k)->second`). -/
def modify {α : Type} (k : Int) (f : α → α) : List (Int × α) → List (Int × α)
  | [] => []
  | (k', v) :: rest => if k' = k then (k', f v) :: rest else (k', v) :: modify k f rest

/-- The keys of the map, in order. -/
def keys {α : Type} (m : List (Int × α)) : List Int := m.map Prod.fst

end OrdMap

/-! ## Data model -/

/-- Constants of `constants.h` and the readings of the environment and of the main frame server
that the handler consults (all outside the translated sources, hence parameters). -/
structure Environment where
  NUM_SRC_FRAMES_PER_PROCESSING : Int
  extraSourceBuffer : Int
  sourceAvgFrameDuration : Int
  scriptAvgFrameDuration : Int
  UNITS : Int
  FRAME_RATE_SCALE_FACTOR : Int
  deriving DecidableEq

/-- An engine frame as far as the handler looks into it: an identifier of the pixel payload
and the two duration properties. -/
structure VSFrameRef where
  payload : Nat
  durationNum : Option Int
  durationDen : Option Int
  deriving DecidableEq

/-- HDR side data attached to a sample (an uninterpreted blob). -/
abbrev HDRSideData := Nat

/-- Entry of `_sourceFrames`. -/
structure SourceFrameInfo where
  frame : VSFrameRef
  startTime : Int
  hdrSideData : HDRSideData
  deriving DecidableEq

/-- Entry of `_outputSamples`; `frame = none` is the null frame pointer. -/
structure OutputSampleData where
  sourceFrameNb : Int
  hdrSideData : HDRSideData
  frame : Option VSFrameRef
  deriving DecidableEq

/-- The member variables of `FrameHandler`. -/
structure FrameHandler where
  sourceFrames : List (Int × SourceFrameInfo)
  outputSamples : List (Int × OutputSampleData)
  nextSourceFrameNb : Int
  nextOutputFrameNb : Int
  nextOutputSourceFrameNb : Int
  nextDeliveryFrameNb : Int
  nextOutputFrameStartTime : Int
  notifyChangedOutputMediaType : Bool
  frameRateCheckpointInputSampleNb : Int
  frameRateCheckpointInputSampleStartTime : Int
  currentInputFrameRate : Int
  frameRateCheckpointOutputFrameNb : Int
  frameRateCheckpointOutputFrameStartTime : Int
  currentOutputFrameRate : Int
  isFlushing : Bool
  isStopping : Bool
  isWorkerLatched : Bool
  deriving DecidableEq

/-- The input sample as seen through `IMediaSample`: `time = none` is `GetTime` answering
`VFW_E_SAMPLE_TIME_NOT_SET`, otherwise the start and stop time it wrote; `pointer = none` is a
failing `GetPointer`. -/
structure MediaSample where
  time : Option (Int × Int)
  pointer : Option Nat
  sideData : HDRSideData
  deriving DecidableEq

inductive HRESULT where
  | S_OK
  | S_FALSE
  deriving DecidableEq

/-! ## Arithmetic helpers -/

/-- The helper `llMulDiv(a, b, c, d)` of the DirectShow base classes: `(a * b + d) / c` over a
wide intermediate product, the quotient truncated toward zero. Its saturated result for
`c = 0` and for a quotient beyond 64 bits is not represented. -/
def llMulDiv (a b c d : Int) : Int := Int.tdiv (a * b + d) c

/-- The conversion `static_cast<int>` of a 64-bit value: reduction into the 32-bit two's
complement range. -/
def toInt32 (x : Int) : Int := (x + 2147483648) % 4294967296 - 2147483648

/-- The helper `vs_normalizeRational` of VapourSynth: divide both numbers by their greatest
common divisor, unless the denominator is zero. -/
def vs_normalizeRational (num den : Int) : Int × Int :=
  if den = 0 then (num, den)
  else (Int.tdiv num (Int.gcd num den), Int.tdiv den (Int.gcd num den))

/-! ## Frame-rate checkpoints -/

/-- `FrameHandler::RefreshFrameRatesTemplate`; the three reference parameters are returned as
the triple (checkpointSampleNb, checkpointStartTime, currentFrameRate). -/
def RefreshFrameRatesTemplate (env : Environment) (sampleNb startTime : Int)
    (checkpointSampleNb checkpointStartTime currentFrameRate : Int) : Int × Int × Int :=
  let reachCheckpoint0 : Bool := decide (checkpointStartTime = 0)
  let elapsedRefTime := startTime - checkpointStartTime
  let currentFrameRate1 :=
    if elapsedRefTime ≥ env.UNITS then
      toInt32 (llMulDiv ((sampleNb - checkpointSampleNb) * env.FRAME_RATE_SCALE_FACTOR)
        env.UNITS elapsedRefTime 0)
    else currentFrameRate
  let reachCheckpoint : Bool := if elapsedRefTime ≥ env.UNITS then true else reachCheckpoint0
  if reachCheckpoint then (sampleNb, startTime, currentFrameRate1)
  else (checkpointSampleNb, checkpointStartTime, currentFrameRate1)

/-- `FrameHandler::RefreshInputFrameRates`. -/
def RefreshInputFrameRates (env : Environment) (h : FrameHandler) (frameNb startTime : Int) :
    FrameHandler :=
  let r := RefreshFrameRatesTemplate env frameNb startTime h.frameRateCheckpointInputSampleNb
    h.frameRateCheckpointInputSampleStartTime h.currentInputFrameRate
  { h with
    frameRateCheckpointInputSampleNb := r.1
    frameRateCheckpointInputSampleStartTime := r.2.1
    currentInputFrameRate := r.2.2 }

/-- `FrameHandler::RefreshOutputFrameRates`. -/
def RefreshOutputFrameRates (env : Environment) (h : FrameHandler) (frameNb startTime : Int) :
    FrameHandler :=
  let r := RefreshFrameRatesTemplate env frameNb startTime h.frameRateCheckpointOutputFrameNb
    h.frameRateCheckpointOutputFrameStartTime h.currentOutputFrameRate
  { h with
    frameRateCheckpointOutputFrameNb := r.1
    frameRateCheckpointOutputFrameStartTime := r.2.1
    currentOutputFrameRate := r.2.2 }

/-! ## Reset -/

/-- `FrameHandler::ResetInput`. -/
def ResetInput (h : FrameHandler) : FrameHandler :=
  { h with
    nextSourceFrameNb := 0
    nextOutputFrameNb := 0
    nextOutputSourceFrameNb := 0
    notifyChangedOutputMediaType := false
    frameRateCheckpointInputSampleNb := 0
    currentInputFrameRate := 0
    frameRateCheckpointOutputFrameNb := 0
    currentOutputFrameRate := 0 }

/-- `FrameHandler::ResetOutput`. -/
def ResetOutput (h : FrameHandler) : FrameHandler :=
  { h with nextDeliveryFrameNb := 0 }

/-- The handler after construction and `Start()`: the constructor runs `ResetInput`, `Start`
clears `_isStopping` and the new worker thread runs `ResetOutput` and clears its latch. The
members that neither of them assigns (both tables, the three time stamps, `_isFlushing`) have
their initial values: empty, zero and false. -/
def resetState : FrameHandler :=
  { sourceFrames := []
    outputSamples := []
    nextSourceFrameNb := 0
    nextOutputFrameNb := 0
    nextOutputSourceFrameNb := 0
    nextDeliveryFrameNb := 0
    nextOutputFrameStartTime := 0
    notifyChangedOutputMediaType := false
    frameRateCheckpointInputSampleNb := 0
    frameRateCheckpointInputSampleStartTime := 0
    currentInputFrameRate := 0
    frameRateCheckpointOutputFrameNb := 0
    frameRateCheckpointOutputFrameStartTime := 0
    currentOutputFrameRate := 0
    isFlushing := false
    isStopping := false
    isWorkerLatched := false }

/-! ## Ingestion -/

/-- The predicate of the wait at the head of `AddInputSample`: the call goes on when it is
true and stays blocked while it is false. -/
def addInputSampleWait (env : Environment) (h : FrameHandler) : Bool :=
  if h.isFlushing then true
  else if (h.sourceFrames.length : Int) < env.NUM_SRC_FRAMES_PER_PROCESSING then true
  else decide (h.nextSourceFrameNb ≤
    h.nextOutputSourceFrameNb + env.NUM_SRC_FRAMES_PER_PROCESSING + env.extraSourceBuffer)

/-- The start time `AddInputSample` works with: the one `GetTime` reports, or, for a sample
without a start time, `_nextSourceFrameNb * GetSourceAvgFrameDuration()`. -/
def inputSampleStartTime (env : Environment) (h : FrameHandler) (sample : MediaSample) : Int :=
  match sample.time with
  | some t => t.1
  | none => h.nextSourceFrameNb * env.sourceAvgFrameDuration

/-- The stop time `AddInputSample` works with: initialised to 0 and overwritten by `GetTime`. -/
def inputSampleStopTime (sample : MediaSample) : Int :=
  match sample.time with
  | some t => t.2
  | none => 0

/-- The start time of the last emplaced source frame, 0 for an empty table
(`_sourceFrames.empty() ? 0 : _sourceFrames.crbegin()->second.startTime`). -/
def lastSampleStartTime (h : FrameHandler) : Int :=
  match h.sourceFrames.getLast? with
  | none => 0
  | some e => e.2.startTime

/-- The frame stored for an input sample: `Format::CreateFrame` of the sample buffer with the
duration properties set when the stop time is positive. -/
def createSourceFrame (env : Environment) (buffer : Nat) (startTime stopTime : Int) :
    VSFrameRef :=
  if stopTime > 0 then
    let r := vs_normalizeRational (stopTime - startTime) env.UNITS
    { payload := buffer, durationNum := some r.1, durationDen := some r.2 }
  else
    { payload := buffer, durationNum := none, durationDen := none }

/-- The request loop of `AddInputSample`:
`while (_nextOutputFrameNb <= maxRequestOutputFrameNb)` emplace a slot for
`_nextOutputFrameNb` that refers to `_nextSourceFrameNb`, call `getFrameAsync` for it, and
increment. The first argument bounds the number of iterations; the second component of the
result lists the indices handed to `getFrameAsync`, in order. -/
def requestLoop : Nat → FrameHandler → Int → HDRSideData → FrameHandler × List Int
  | 0, h, _, _ => (h, [])
  | fuel + 1, h, maxRequestOutputFrameNb, hdr =>
    if h.nextOutputFrameNb ≤ maxRequestOutputFrameNb then
      let h1 : FrameHandler :=
        { h with
          outputSamples := OrdMap.emplace h.nextOutputFrameNb
            { sourceFrameNb := h.nextSourceFrameNb, hdrSideData := hdr, frame := none }
            h.outputSamples
          nextOutputFrameNb := h.nextOutputFrameNb + 1 }
      let r := requestLoop fuel h1 maxRequestOutputFrameNb hdr
      (r.1, h.nextOutputFrameNb :: r.2)
    else (h, [])

/-- What a call of `AddInputSample` does: it is still blocked in its wait, or it returned. -/
inductive AddInputSampleResult where
  | blocked
  | returned (hr : HRESULT) (handler : FrameHandler) (requests : List Int)
  deriving DecidableEq

/-- The block of `AddInputSample` under `if (_nextSourceFrameNb == 0)`: the first frame of a
session anchors the two frame-rate checkpoints and the output start time. -/
def anchorFirstFrame (h : FrameHandler) (startTime : Int) : FrameHandler :=
  if h.nextSourceFrameNb = 0 then
    { h with
      frameRateCheckpointInputSampleStartTime := startTime
      nextOutputFrameStartTime := startTime
      frameRateCheckpointOutputFrameStartTime := startTime }
  else h

/-- The part of `AddInputSample` after `GetPointer` succeeded: the frame is created and emplaced
under `_nextSourceFrameNb`, the request loop runs up to
`llMulDiv(_nextSourceFrameNb, sourceAvgFrameDuration, scriptAvgFrameDuration, 0)`, and
`_nextSourceFrameNb` is incremented. The loop gets exactly as many iterations as it can use. -/
def storeAndRequest (env : Environment) (h : FrameHandler) (sample : MediaSample) (buffer : Nat)
    (startTime stopTime : Int) : FrameHandler × List Int :=
  let frame := createSourceFrame env buffer startTime stopTime
  let h3 : FrameHandler :=
    { h with
      sourceFrames := OrdMap.emplace h.nextSourceFrameNb
        { frame := frame, startTime := startTime, hdrSideData := sample.sideData }
        h.sourceFrames }
  let maxRequestOutputFrameNb := llMulDiv h3.nextSourceFrameNb
    env.sourceAvgFrameDuration env.scriptAvgFrameDuration 0
  let r := requestLoop (maxRequestOutputFrameNb + 1 - h3.nextOutputFrameNb).toNat h3
    maxRequestOutputFrameNb sample.sideData
  ({ r.1 with nextSourceFrameNb := r.1.nextSourceFrameNb + 1 }, r.2)

/-- `FrameHandler::AddInputSample` on the path where neither `_filter._changeOutputMediaType`
nor `_filter._reloadScript` is set (so `ChangeOutputFormat` is not entered). -/
def AddInputSample (env : Environment) (h : FrameHandler) (sample : MediaSample) :
    AddInputSampleResult :=
  if !addInputSampleWait env h then .blocked
  else if h.isFlushing || h.isStopping then .returned .S_FALSE h []
  else
    let startTime := inputSampleStartTime env h sample
    let stopTime := inputSampleStopTime sample
    if startTime ≤ lastSampleStartTime h then .returned .S_FALSE h []
    else
      let h1 := anchorFirstFrame h startTime
      let h2 := RefreshInputFrameRates env h1 h1.nextSourceFrameNb startTime
      match sample.pointer with
      | none => .returned .S_FALSE h2 []
      | some buffer =>
        let r := storeAndRequest env h2 sample buffer startTime stopTime
        .returned .S_OK r.1 r.2

/-- What a call of `GetSourceFrame` does. -/
inductive GetSourceFrameResult where
  | blocked
  | drain
  | frame (f : VSFrameRef)
  deriving DecidableEq

/-- `FrameHandler::GetSourceFrame`: the drain frame while flushing, else the frame at
`lower_bound(frameNb)`, blocked while there is none. -/
def GetSourceFrame (h : FrameHandler) (frameNb : Int) : GetSourceFrameResult :=
  if h.isFlushing then .drain
  else
    match OrdMap.lower_bound frameNb h.sourceFrames with
    | none => .blocked
    | some e => .frame e.2.frame

/-! ## Flush -/

/-- `FrameHandler::BeginFlush`: waits while a flush is active, then raises the flag
(`none`: still waiting). -/
def BeginFlush (h : FrameHandler) : Option FrameHandler :=
  if h.isFlushing then none else some { h with isFlushing := true }

/-- The predicate of the wait in `EndFlush`: every buffered slot holds a frame. -/
def allSlotsHaveFrame (h : FrameHandler) : Bool :=
  h.outputSamples.all (fun e => e.2.frame.isSome)

/-- `FrameHandler::EndFlush` called from a thread other than the worker: waits for the worker
latch and for every buffered slot to hold a frame (`none`: still waiting), then clears both
tables, runs `ResetInput` and lowers the flushing flag. The `interim` hook acts on the script
engine only. -/
def EndFlush (h : FrameHandler) : Option FrameHandler :=
  if !h.isWorkerLatched then none
  else if !allSlotsHaveFrame h then none
  else
    some { ResetInput { h with sourceFrames := [], outputSamples := [] } with
           isFlushing := false }

/-- `FrameHandler::Start`: clears `_isStopping` and starts the worker thread, whose prologue
runs `ResetOutput` and clears the latch. -/
def Start (h : FrameHandler) : FrameHandler :=
  { ResetOutput { h with isStopping := false } with isWorkerLatched := false }

/-! ## Completion callback -/

/-- `FrameHandler::VpsGetFrameCallback` for output index `n` with frame `f` (`none`: null).
The result is `none` when the assertion `iter != _outputSamples.end()` fails. -/
def VpsGetFrameCallback (h : FrameHandler) (f : Option VSFrameRef) (n : Int) :
    Option FrameHandler :=
  match f with
  | none => some h
  | some fr =>
    if h.isFlushing then
      some { h with outputSamples := OrdMap.erase n h.outputSamples }
    else
      match OrdMap.find n h.outputSamples with
      | none => none
      | some _ =>
        some { h with
               outputSamples :=
                 OrdMap.modify n (fun d => { d with frame := some fr }) h.outputSamples }

/-! ## Delivery -/

/-- Results of the calls into the host pipeline made by `PrepareOutputSample`. -/
structure DeliveryCalls where
  getDeliveryBufferOk : Bool
  newMediaType : Bool
  setTimeOk : Bool
  setDiscontinuityOk : Bool
  getPointerOk : Bool
  deriving DecidableEq

/-- The output sample as `PrepareOutputSample` leaves it on success. -/
structure OutputMediaSample where
  startTime : Int
  stopTime : Int
  mediaTypeSet : Bool
  discontinuity : Bool
  frame : VSFrameRef
  hdrSideData : HDRSideData
  deriving DecidableEq

/-- `FrameHandler::PrepareOutputSample` for output index `frameNb` and slot contents `data`
with frame `fr`: the Boolean result, the handler afterwards and the prepared sample. -/
def PrepareOutputSample (env : Environment) (calls : DeliveryCalls) (h : FrameHandler)
    (frameNb : Int) (data : OutputSampleData) (fr : VSFrameRef) :
    Bool × FrameHandler × Option OutputMediaSample :=
  match fr.durationNum, fr.durationDen with
  | some frameDurationNum, some frameDurationDen =>
    let frameDuration := llMulDiv frameDurationNum env.UNITS frameDurationDen 0
    let stopTime := h.nextOutputFrameStartTime + frameDuration
    if !calls.getDeliveryBufferOk then (false, h, none)
    else
      let h1 : FrameHandler :=
        if calls.newMediaType then { h with notifyChangedOutputMediaType := true } else h
      let mediaTypeSet := h1.notifyChangedOutputMediaType
      let h2 : FrameHandler := { h1 with notifyChangedOutputMediaType := false }
      if !calls.setTimeOk then (false, h2, none)
      else if frameNb = 0 && !calls.setDiscontinuityOk then (false, h2, none)
      else if !calls.getPointerOk then (false, h2, none)
      else
        let h3 := RefreshOutputFrameRates env h2 frameNb h2.nextOutputFrameStartTime
        (true, { h3 with nextOutputFrameStartTime := stopTime },
          some { startTime := h.nextOutputFrameStartTime
                 stopTime := stopTime
                 mediaTypeSet := mediaTypeSet
                 discontinuity := decide (frameNb = 0)
                 frame := fr
                 hdrSideData := data.hdrSideData })
  | _, _ => (false, h, none)

/-- The loop of `FrameHandler::GarbageCollect` on the table: while the first entry has a key
`<= srcFrameNb`, erase it. -/
def garbageCollectLoop (srcFrameNb : Int) :
    List (Int × SourceFrameInfo) → List (Int × SourceFrameInfo)
  | [] => []
  | e :: rest => if e.1 ≤ srcFrameNb then garbageCollectLoop srcFrameNb rest else e :: rest

/-- `FrameHandler::GarbageCollect`. -/
def GarbageCollect (h : FrameHandler) (srcFrameNb : Int) : FrameHandler :=
  { h with sourceFrames := garbageCollectLoop srcFrameNb h.sourceFrames }

/-- What one pass of the worker through its loop does. -/
inductive WorkerResult where
  | blocked
  | latched (handler : FrameHandler)
  | resumed (handler : FrameHandler)
  | exited (handler : FrameHandler)
  | processed (handler : FrameHandler) (outputFrameNb sourceFrameNb : Int)
      (delivered : Option OutputMediaSample)
  deriving DecidableEq

/-- One pass of the loop of `FrameHandler::WorkerProc`, split at its two waits.
A latched worker waits for the flushing flag to clear, then leaves the loop when stopping and
else runs `ResetOutput` and clears the latch. A running worker latches when it sees the
flushing flag; otherwise it waits for the slot of `_nextDeliveryFrameNb` to hold a frame, sets
`_nextOutputSourceFrameNb`, prepares and delivers the sample, erases the slot, collects
garbage up to `_nextOutputSourceFrameNb - 1` and increments `_nextDeliveryFrameNb`. -/
def WorkerProc (env : Environment) (calls : DeliveryCalls) (h : FrameHandler) : WorkerResult :=
  if h.isWorkerLatched then
    if h.isFlushing then .blocked
    else if h.isStopping then .exited { h with isWorkerLatched := true }
    else .resumed { ResetOutput h with isWorkerLatched := false }
  else if h.isFlushing then .latched { h with isWorkerLatched := true }
  else
    match OrdMap.find h.nextDeliveryFrameNb h.outputSamples with
    | none => .blocked
    | some data =>
      match data.frame with
      | none => .blocked
      | some fr =>
        let h1 : FrameHandler := { h with nextOutputSourceFrameNb := data.sourceFrameNb }
        let r := PrepareOutputSample env calls h1 h.nextDeliveryFrameNb data fr
        let h2 : FrameHandler :=
          { r.2.1 with outputSamples := OrdMap.erase h.nextDeliveryFrameNb r.2.1.outputSamples }
        let h3 := GarbageCollect h2 (h2.nextOutputSourceFrameNb - 1)
        .processed { h3 with nextDeliveryFrameNb := h3.nextDeliveryFrameNb + 1 }
          h.nextDeliveryFrameNb data.sourceFrameNb (if r.1 then r.2.2 else none)

/-! ## Schedules -/

/-- The calls that drive the handler. -/
inductive Event where
  | addInputSample (sample : MediaSample)
  | vpsGetFrameCallback (f : Option VSFrameRef) (n : Int)
  | worker (calls : DeliveryCalls)
  | beginFlush
  | endFlush
  deriving DecidableEq

/-- What a call lets the outside see. -/
inductive Obs where
  | rejected
  | accepted (sourceFrameNb startTime : Int) (requests : List Int)
  | processed (outputFrameNb sourceFrameNb : Int) (delivered : Option OutputMediaSample)
  deriving DecidableEq

/-- One call on the handler: the state afterwards and what was observed. A call that is
blocked leaves the state as it is; `none` is the failed assertion of the callback. -/
def step (env : Environment) (h : FrameHandler) : Event → Option (FrameHandler × List Obs)
  | .addInputSample sample =>
    match AddInputSample env h sample with
    | .blocked => some (h, [])
    | .returned .S_FALSE h1 _ => some (h1, [.rejected])
    | .returned .S_OK h1 requests =>
      some (h1, [.accepted h.nextSourceFrameNb (inputSampleStartTime env h sample) requests])
  | .vpsGetFrameCallback f n =>
    match VpsGetFrameCallback h f n with
    | none => none
    | some h1 => some (h1, [])
  | .worker calls =>
    match WorkerProc env calls h with
    | .blocked => some (h, [])
    | .latched h1 => some (h1, [])
    | .resumed h1 => some (h1, [])
    | .exited h1 => some (h1, [])
    | .processed h1 k s d => some (h1, [.processed k s d])
  | .beginFlush =>
    match BeginFlush h with
    | none => some (h, [])
    | some h1 => some (h1, [])
  | .endFlush =>
    match EndFlush h with
    | none => some (h, [])
    | some h1 => some (h1, [])

/-- A sequence of calls, with the observations in order. -/
def run (env : Environment) : FrameHandler → List Event → Option (FrameHandler × List Obs)
  | h, [] => some (h, [])
  | h, e :: es =>
    match step env h e with
    | none => none
    | some (h1, o1) =>
      match run env h1 es with
      | none => none
      | some (h2, o2) => some (h2, o1 ++ o2)

/-- Whether the call is one of the two flush calls. -/
def Event.isFlush : Event → Bool
  | .beginFlush => true
  | .endFlush => true
  | _ => false

/-! ## Logs, invariants and the quantities the properties are stated with -/

/-- The integers `lo, lo + 1, ..., hi - 1` in order. -/
def intRange (lo hi : Int) : List Int :=
  (List.range (hi - lo).toNat).map (fun (i : Nat) => lo + (i : Int))

/-- The slots the request loop creates for the indices `ns`, all referring to source `src`. -/
def newSlots (src : Int) (hdr : HDRSideData) (ns : List Int) : List (Int × OutputSampleData) :=
  ns.map (fun n => (n, { sourceFrameNb := src, hdrSideData := hdr, frame := none }))

/-- The two tables, the four cursors and the flags agree. -/
structure SameCore (h h' : FrameHandler) : Prop where
  sourceFrames : h'.sourceFrames = h.sourceFrames
  outputSamples : h'.outputSamples = h.outputSamples
  nextSourceFrameNb : h'.nextSourceFrameNb = h.nextSourceFrameNb
  nextOutputFrameNb : h'.nextOutputFrameNb = h.nextOutputFrameNb
  nextOutputSourceFrameNb : h'.nextOutputSourceFrameNb = h.nextOutputSourceFrameNb
  nextDeliveryFrameNb : h'.nextDeliveryFrameNb = h.nextDeliveryFrameNb
  isFlushing : h'.isFlushing = h.isFlushing
  isStopping : h'.isStopping = h.isStopping
  isWorkerLatched : h'.isWorkerLatched = h.isWorkerLatched

/-- The invariant of the states reached without a flush. -/
structure Inv (h : FrameHandler) : Prop where
  notFlushing : h.isFlushing = false
  notLatched : h.isWorkerLatched = false
  srcKeys : OrdMap.keys h.sourceFrames = intRange h.nextOutputSourceFrameNb h.nextSourceFrameNb
  srcLo : 0 ≤ h.nextOutputSourceFrameNb
  srcHi : h.nextOutputSourceFrameNb ≤ h.nextSourceFrameNb
  srcNonempty : 0 < h.nextSourceFrameNb → h.nextOutputSourceFrameNb < h.nextSourceFrameNb
  outKeys : OrdMap.keys h.outputSamples = intRange h.nextDeliveryFrameNb h.nextOutputFrameNb
  outLo : 0 ≤ h.nextDeliveryFrameNb
  outHi : h.nextDeliveryFrameNb ≤ h.nextOutputFrameNb
  slotSrc : ∀ e ∈ h.outputSamples,
    h.nextOutputSourceFrameNb ≤ e.2.sourceFrameNb ∧ e.2.sourceFrameNb < h.nextSourceFrameNb
  slotMono : h.outputSamples.Pairwise (fun a b => a.2.sourceFrameNb ≤ b.2.sourceFrameNb)
  times : h.sourceFrames.Pairwise (fun a b => a.2.startTime < b.2.startTime)

/-- The accepted submissions of a log: source index and start time, in order. -/
def acceptedOf : List Obs → List (Int × Int)
  | [] => []
  | .accepted k t _ :: rest => (k, t) :: acceptedOf rest
  | _ :: rest => acceptedOf rest

/-- The output indices handed to `getFrameAsync`, in order. -/
def requestsOf : List Obs → List Int
  | [] => []
  | .accepted _ _ reqs :: rest => reqs ++ requestsOf rest
  | _ :: rest => requestsOf rest

/-- The output indices the worker handed to `PrepareOutputSample`, in order. -/
def processedOf : List Obs → List Int
  | [] => []
  | .processed k _ _ :: rest => k :: processedOf rest
  | _ :: rest => processedOf rest

/-- How the log of a schedule relates to the state it leads to. -/
structure LogInv (h : FrameHandler) (log : List Obs) : Prop where
  accIdx : (acceptedOf log).map Prod.fst = intRange 0 h.nextSourceFrameNb
  accTimes : (acceptedOf log).Pairwise (fun a b => a.2 < b.2)
  accLast : ∀ a ∈ acceptedOf log, a.2 ≤ lastSampleStartTime h
  requests : requestsOf log = intRange 0 h.nextOutputFrameNb
  processed : processedOf log = intRange 0 h.nextDeliveryFrameNb

/-- Sample environment: equal source and script durations, three frames of working set. -/
def envW : Environment :=
  { NUM_SRC_FRAMES_PER_PROCESSING := 3, extraSourceBuffer := 0, sourceAvgFrameDuration := 1,
    scriptAvgFrameDuration := 1, UNITS := 10000000, FRAME_RATE_SCALE_FACTOR := 1000 }

/-- A sample with start time `t` and a readable buffer. -/
def sampleAt (t : Int) : MediaSample :=
  { time := some (t, t + 1), pointer := some 0, sideData := 0 }

/-- A completed output frame of duration 1/30. -/
def frameW : VSFrameRef := { payload := 0, durationNum := some 1, durationDen := some 30 }

/-- Every call into the host pipeline succeeds, no new media type. -/
def callsOk : DeliveryCalls :=
  { getDeliveryBufferOk := true, newMediaType := false, setTimeOk := true,
    setDiscontinuityOk := true, getPointerOk := true }

/-- Two frames, one delivery, then a frame whose start time goes backward. -/
def scheduleC1 : List Event :=
  [.addInputSample (sampleAt 10), .addInputSample (sampleAt 20),
   .vpsGetFrameCallback (some frameW) 0, .worker callsOk, .addInputSample (sampleAt 15)]

/-- Three frames, completions of outputs 1 and 0, one delivery. -/
def scheduleC4 : List Event :=
  [.addInputSample (sampleAt 10), .addInputSample (sampleAt 20), .addInputSample (sampleAt 30),
   .vpsGetFrameCallback (some frameW) 1, .vpsGetFrameCallback (some frameW) 0, .worker callsOk]

/-- Three frames, completions of outputs 0 and 1, two deliveries. -/
def scheduleC6 : List Event :=
  [.addInputSample (sampleAt 10), .addInputSample (sampleAt 20), .addInputSample (sampleAt 30),
   .vpsGetFrameCallback (some frameW) 0, .vpsGetFrameCallback (some frameW) 1,
   .worker callsOk, .worker callsOk]

/-- The number of output indices requested once `N` frames were accepted, as the request loop
leaves it: none before the first frame, then one more than
`llMulDiv(N - 1, sourceAvgFrameDuration, scriptAvgFrameDuration, 0)`. -/
def dispatchCount (env : Environment) (N : Int) : Int :=
  if N ≤ 0 then 0
  else llMulDiv (N - 1) env.sourceAvgFrameDuration env.scriptAvgFrameDuration 0 + 1

/-- The count the specification states for `N` accepted frames,
`ceil(N * inputAvgDuration / outputAvgDuration)`, for a positive output duration. -/
def specDispatchCount (env : Environment) (N : Int) : Int :=
  -((-(N * env.sourceAvgFrameDuration)) / env.scriptAvgFrameDuration)

/-- Sample environment: the source duration is twice the script duration. -/
def env21 : Environment :=
  { NUM_SRC_FRAMES_PER_PROCESSING := 3, extraSourceBuffer := 0, sourceAvgFrameDuration := 2,
    scriptAvgFrameDuration := 1, UNITS := 10000000, FRAME_RATE_SCALE_FACTOR := 1000 }

/-- Three accepted frames. -/
def scheduleC2 : List Event :=
  [.addInputSample (sampleAt 10), .addInputSample (sampleAt 20), .addInputSample (sampleAt 30)]

/-- With equal durations the next output index is the next source index, and every accepted
submission of the log requested its own index and nothing else. -/
def OneToOne (h : FrameHandler) (log : List Obs) : Prop :=
  h.nextOutputFrameNb = h.nextSourceFrameNb ∧
  ∀ k t reqs, Obs.accepted k t reqs ∈ log → reqs = [k]

/-- Four accepted frames with a delivery in between. -/
def scheduleC3 : List Event :=
  [.addInputSample (sampleAt 10), .addInputSample (sampleAt 20),
   .vpsGetFrameCallback (some frameW) 0, .worker callsOk,
   .addInputSample (sampleAt 30), .addInputSample (sampleAt 40)]

/-- The source indices buffered in `before` and no longer buffered in `after`. -/
def removedSources (before after : FrameHandler) : List Int :=
  (OrdMap.keys before.sourceFrames).filter
    (fun k => !(OrdMap.keys after.sourceFrames).contains k)

/-- The set the specification states for a delivery derived from source index `S`: the
buffered source indices `<= S` that no slot still in the table after the delivery refers to. -/
def specRemovedSources (before after : FrameHandler) (S : Int) : List Int :=
  (OrdMap.keys before.sourceFrames).filter
    (fun k => decide (k ≤ S) && !(after.outputSamples.any (fun e => e.2.sourceFrameNb == k)))

/-- Three frames, completions of outputs 0 and 1, one delivery; output 1 is ready next. -/
def scheduleC7 : List Event :=
  [.addInputSample (sampleAt 10), .addInputSample (sampleAt 20), .addInputSample (sampleAt 30),
   .vpsGetFrameCallback (some frameW) 0, .vpsGetFrameCallback (some frameW) 1, .worker callsOk]

/-- Two frames and the completion of output 0; output 0 is ready next. -/
def scheduleC7cex : List Event :=
  [.addInputSample (sampleAt 10), .addInputSample (sampleAt 20),
   .vpsGetFrameCallback (some frameW) 0]

/-- `BeginFlush` followed by `EndFlush`, with the worker latching in between and resuming
after: `none` when one of the four steps is still blocked. -/
def flushPair (env : Environment) (c1 c2 : DeliveryCalls) (h : FrameHandler) :
    Option FrameHandler :=
  match BeginFlush h with
  | none => none
  | some h1 =>
    match WorkerProc env c1 h1 with
    | .latched h2 =>
      match EndFlush h2 with
      | none => none
      | some h3 =>
        match WorkerProc env c2 h3 with
        | .resumed h4 => some h4
        | _ => none
    | _ => none

/-- A state in the middle of a session whose only buffered slot holds its frame. -/
def flushStateW : FrameHandler :=
  { resetState with
    sourceFrames := [(3, { frame := frameW, startTime := 40, hdrSideData := 0 })]
    outputSamples := [(5, { sourceFrameNb := 3, hdrSideData := 0, frame := some frameW })]
    nextSourceFrameNb := 4
    nextOutputFrameNb := 6
    nextOutputSourceFrameNb := 3
    nextDeliveryFrameNb := 5
    nextOutputFrameStartTime := 77 }

/-- A sample with start time `t` whose `GetPointer` fails. -/
def sampleNoPointer (t : Int) : MediaSample :=
  { time := some (t, t + 1), pointer := none, sideData := 0 }

/-- The state after the frame `sampleAt 10` was accepted as source frame 0. -/
def oneFrameStateW : FrameHandler :=
  match AddInputSample envW resetState (sampleAt 10) with
  | .returned _ h _ => h
  | .blocked => resetState

/-- The rate the specification states for a sample `elapsed` time units after the checkpoint:
the truncated quotient `(index - checkpointIndex) * FRAME_RATE_SCALE_FACTOR * UNITS / elapsed`. -/
def specFrameRate (env : Environment) (index checkpointIndex elapsed : Int) : Int :=
  Int.tdiv ((index - checkpointIndex) * env.FRAME_RATE_SCALE_FACTOR * env.UNITS) elapsed

/-- Two frames are accepted, a flush begins and the worker latches; the completion of
output 0 reports a failure, the one of output 1 carries a frame; then `EndFlush` is called. -/
def scheduleC13 : List Event :=
  [.addInputSample (sampleAt 10), .addInputSample (sampleAt 20), .beginFlush, .worker callsOk,
   .vpsGetFrameCallback none 0, .vpsGetFrameCallback (some frameW) 1, .endFlush]

/-- A handler buffering the source frames 0, 2 and 5. -/
def lookupStateW : FrameHandler :=
  { resetState with
    sourceFrames :=
      [(0, { frame := { payload := 0, durationNum := none, durationDen := none },
             startTime := 10, hdrSideData := 0 }),
       (2, { frame := { payload := 2, durationNum := none, durationDen := none },
             startTime := 20, hdrSideData := 0 }),
       (5, { frame := { payload := 5, durationNum := none, durationDen := none },
             startTime := 30, hdrSideData := 0 })]
    nextSourceFrameNb := 6 }

/-- The blocking condition the specification states for `AddInputSample`: a flush is pending,
or fewer than `NUM_SRC_FRAMES_PER_PROCESSING` source frames are buffered, or the gap between
the next source index and the last delivered source index exceeds the headroom. -/
def specAddInputSampleBlocks (env : Environment) (h : FrameHandler) : Bool :=
  h.isFlushing ||
  decide ((h.sourceFrames.length : Int) < env.NUM_SRC_FRAMES_PER_PROCESSING) ||
  decide (h.nextSourceFrameNb - h.nextOutputSourceFrameNb >
    env.NUM_SRC_FRAMES_PER_PROCESSING + env.extraSourceBuffer)

/-- A running handler whose slot 5 is ready and derives from source 3, with the sources 1, 3
and 4 buffered and slot 6 pending; the frame of slot 5 carries no duration. -/
def workerStateW : FrameHandler :=
  { resetState with
    sourceFrames := [(1, { frame := frameW, startTime := 20, hdrSideData := 0 }),
                     (3, { frame := frameW, startTime := 40, hdrSideData := 0 }),
                     (4, { frame := frameW, startTime := 50, hdrSideData := 0 })]
    outputSamples :=
      [(5, { sourceFrameNb := 3, hdrSideData := 0,
             frame := some { payload := 0, durationNum := none, durationDen := none } }),
       (6, { sourceFrameNb := 4, hdrSideData := 0, frame := none })]
    nextSourceFrameNb := 5
    nextOutputFrameNb := 7
    nextOutputSourceFrameNb := 1
    nextDeliveryFrameNb := 5
    nextOutputFrameStartTime := 77 }

/-- The first output index a buffered slot can have outside a flush: the next delivery index
of a running worker, and 0 while the worker is latched, since it runs `ResetOutput` before it
delivers again. -/
def deliveryBase (h : FrameHandler) : Int :=
  if h.isWorkerLatched then 0 else h.nextDeliveryFrameNb

/-- The invariant of the states reached by arbitrary schedules, flushes included: the source
table holds exactly the indices from the last delivered one up to the next one, their number
is bounded by the working set plus the extra buffer plus one, and outside a flush the slot
table is the contiguous range above `deliveryBase`. -/
structure FlushInv (env : Environment) (h : FrameHandler) : Prop where
  srcKeys : OrdMap.keys h.sourceFrames = intRange h.nextOutputSourceFrameNb h.nextSourceFrameNb
  srcLo : 0 ≤ h.nextOutputSourceFrameNb
  srcHi : h.nextOutputSourceFrameNb ≤ h.nextSourceFrameNb
  srcNonempty : 0 < h.nextSourceFrameNb → h.nextOutputSourceFrameNb < h.nextSourceFrameNb
  slotSrc : ∀ e ∈ h.outputSamples,
    h.nextOutputSourceFrameNb ≤ e.2.sourceFrameNb ∧ e.2.sourceFrameNb < h.nextSourceFrameNb
  times : h.sourceFrames.Pairwise (fun a b => a.2.startTime < b.2.startTime)
  bound : h.nextSourceFrameNb - h.nextOutputSourceFrameNb ≤
    env.NUM_SRC_FRAMES_PER_PROCESSING + env.extraSourceBuffer + 1
  outKeys : h.isFlushing = false →
    OrdMap.keys h.outputSamples = intRange (deliveryBase h) h.nextOutputFrameNb
  outLo : h.isFlushing = false → 0 ≤ deliveryBase h
  outHi : h.isFlushing = false → deliveryBase h ≤ h.nextOutputFrameNb
  slotMono : h.isFlushing = false →
    h.outputSamples.Pairwise (fun a b => a.2.sourceFrameNb ≤ b.2.sourceFrameNb)

/-- Four frames fill the buffer, a fifth stays blocked; after a delivery a flush runs with the
worker latching, both open completions arriving and the worker resuming; then a new session
starts. -/
def scheduleC16 : List Event :=
  [.addInputSample (sampleAt 10), .addInputSample (sampleAt 20), .addInputSample (sampleAt 30),
   .addInputSample (sampleAt 40), .addInputSample (sampleAt 50),
   .vpsGetFrameCallback (some frameW) 0, .vpsGetFrameCallback (some frameW) 1,
   .worker callsOk, .worker callsOk, .addInputSample (sampleAt 50),
   .beginFlush, .addInputSample (sampleAt 60), .worker callsOk,
   .vpsGetFrameCallback (some frameW) 2, .vpsGetFrameCallback (some frameW) 3,
   .vpsGetFrameCallback (some frameW) 4, .endFlush,
   .addInputSample (sampleAt 5), .worker callsOk, .addInputSample (sampleAt 6)]

/-- The samples that were prepared and delivered downstream, each with its output index, in
order. -/
def deliveredOf : List Obs → List (Int × OutputMediaSample)
  | [] => []
  | .processed k _ (some s) :: rest => (k, s) :: deliveredOf rest
  | _ :: rest => deliveredOf rest

/-- The duration `PrepareOutputSample` computes for a frame that carries both duration
properties: `llMulDiv(_DurationNum, UNITS, _DurationDen, 0)`. -/
def frameDuration (env : Environment) (fr : VSFrameRef) : Int :=
  match fr.durationNum, fr.durationDen with
  | some frameDurationNum, some frameDurationDen =>
    llMulDiv frameDurationNum env.UNITS frameDurationDen 0
  | _, _ => 0

/-- The samples follow one another from time `t`: each starts where the one before stopped,
the first at `t`, and stops its frame duration later. -/
def chainedFrom (env : Environment) : Int → List (Int × OutputMediaSample) → Prop
  | _, [] => True
  | t, e :: rest =>
    e.2.startTime = t ∧ e.2.stopTime = t + frameDuration env e.2.frame ∧
      chainedFrom env e.2.stopTime rest

/-- How the delivered samples of a log relate to the presentation cursor: nothing is delivered
before a frame was accepted, and from then on the samples are chained from the start time of
the first accepted frame and the cursor stands at the end of the chain. -/
def TimeInv (env : Environment) (h : FrameHandler) (log : List Obs) : Prop :=
  (acceptedOf log = [] → deliveredOf log = []) ∧
  ∀ a ∈ (acceptedOf log).head?,
    chainedFrom env a.2 (deliveredOf log) ∧
    h.nextOutputFrameStartTime =
      a.2 + ((deliveredOf log).map (fun e => frameDuration env e.2.frame)).sum

/-- Every delivered sample carries a frame with both duration properties, and its
discontinuity flag is set exactly when its output index is 0. -/
def SampleInv (log : List Obs) : Prop :=
  ∀ e ∈ deliveredOf log,
    e.2.frame.durationNum.isSome = true ∧ e.2.frame.durationDen.isSome = true ∧
    e.2.discontinuity = decide (e.1 = 0)

/-- A completed output frame without duration properties. -/
def frameNoDuration : VSFrameRef := { payload := 0, durationNum := none, durationDen := none }

/-- A completed output frame of duration 1/25. -/
def frame25 : VSFrameRef := { payload := 0, durationNum := some 1, durationDen := some 25 }

/-- Three frames; output 0 completes with duration 1/30, output 1 without duration
properties, output 2 with duration 1/25; the worker passes over all three. -/
def scheduleC18 : List Event :=
  [.addInputSample (sampleAt 10), .addInputSample (sampleAt 20), .addInputSample (sampleAt 30),
   .vpsGetFrameCallback (some frameW) 0, .vpsGetFrameCallback (some frameNoDuration) 1,
   .vpsGetFrameCallback (some frame25) 2, .worker callsOk, .worker callsOk, .worker callsOk]

/-- Two frames; output 0 completes without duration properties, output 1 with them; the
worker passes over both. -/
def scheduleC19 : List Event :=
  [.addInputSample (sampleAt 10), .addInputSample (sampleAt 20),
   .vpsGetFrameCallback (some frameNoDuration) 0, .vpsGetFrameCallback (some frameW) 1,
   .worker callsOk, .worker callsOk]

/-- Whether the call submits a sample that carries a start time. -/
def Event.isTimedSample : Event → Bool
  | .addInputSample sample => sample.time.isSome
  | _ => false

/-- Whether the call is a submission to `AddInputSample`. -/
def Event.isSubmission : Event → Bool
  | .addInputSample _ => true
  | _ => false

/-- A sample without a start time (`GetTime` reports `VFW_E_SAMPLE_TIME_NOT_SET`). -/
def sampleUntimed : MediaSample := { time := none, pointer := some 0, sideData := 0 }

/-- Untimed samples only, with a completion-free worker pass and a flush in between. -/
def scheduleC23 : List Event :=
  [.addInputSample sampleUntimed, .addInputSample sampleUntimed, .worker callsOk,
   .beginFlush, .addInputSample sampleUntimed, .worker callsOk, .endFlush, .worker callsOk,
   .addInputSample sampleUntimed]

/-- Sample environment: the source duration is half the script duration. -/
def env12 : Environment :=
  { NUM_SRC_FRAMES_PER_PROCESSING := 3, extraSourceBuffer := 0, sourceAvgFrameDuration := 1,
    scriptAvgFrameDuration := 2, UNITS := 10000000, FRAME_RATE_SCALE_FACTOR := 1000 }

/-- How the accepted submissions of a log relate to the cursors: the next output index is
`dispatchCount` of the next source index, and the submission with source index `k` requested
the output indices from `dispatchCount k` up to, and excluding, `dispatchCount (k + 1)`. -/
def DispatchInv (env : Environment) (h : FrameHandler) (log : List Obs) : Prop :=
  h.nextOutputFrameNb = dispatchCount env h.nextSourceFrameNb ∧
  ∀ k t reqs, Obs.accepted k t reqs ∈ log →
    0 ≤ k ∧ reqs = intRange (dispatchCount env k) (dispatchCount env (k + 1))

/-- What a completion records: a call of the callback with frame `fr` for output index `n`
attaches `fr` to `n`; every other call leaves the attachments as they are. -/
def attach (g : Int → Option VSFrameRef) : Event → Int → Option VSFrameRef
  | .vpsGetFrameCallback (some fr) n => fun k => if k = n then some fr else g k
  | _ => g

/-- The frame the completion callback attached to each output index along a schedule, `none`
for an index the callback has not completed. -/
def completedFrame (evs : List Event) : Int → Option VSFrameRef :=
  evs.foldl attach (fun _ => none)

/-- How the attachments of the callback relate to the slot table and to the samples delivered
so far: a slot holds what was attached to its index, nothing is attached to an index that was
not requested yet, and each delivered sample carries what was attached to its index. -/
structure AttachInv (h : FrameHandler) (g : Int → Option VSFrameRef) (log : List Obs) :
    Prop where
  slots : ∀ e ∈ h.outputSamples, e.2.frame = g e.1
  fresh : ∀ n, h.nextOutputFrameNb ≤ n → g n = none
  delivered : ∀ e ∈ deliveredOf log, e.1 < h.nextDeliveryFrameNb ∧ g e.1 = some e.2.frame

/-- A completed output frame of duration 1/30 with contents `p`. -/
def frameP (p : Nat) : VSFrameRef :=
  { payload := p, durationNum := some 1, durationDen := some 30 }

/-- Three frames whose outputs complete in the order 2, 0, 1 with the contents 102, 100, 101,
the worker running in between. -/
def scheduleC5 : List Event :=
  [.addInputSample (sampleAt 10), .addInputSample (sampleAt 20), .addInputSample (sampleAt 30),
   .vpsGetFrameCallback (some (frameP 102)) 2, .worker callsOk,
   .vpsGetFrameCallback (some (frameP 100)) 0, .worker callsOk, .worker callsOk,
   .vpsGetFrameCallback (some (frameP 101)) 1, .worker callsOk, .worker callsOk, .worker callsOk]

end SynthFilter

/-!
# The pixel-format converter (avisynth_filter/src/format.cpp)
-/

namespace AvsFilter

/-! ## Memory and block copies -/

abbrev BYTE := Fin 256

/-- The bytes of one allocation, addressed by their offset from its base pointer. -/
abbrev Memory := Int → BYTE

/-- One row of a block copy: for `x = 0, ..., cols - 1` in turn, the byte at `srcAddr x` of
`src` is stored at `dstAddr x` of `dst`. -/
def copyRow (dst src : Memory) (dstAddr srcAddr : Nat → Int) : Nat → Memory
  | 0 => dst
  | x + 1 => Function.update (copyRow dst src dstAddr srcAddr x) (dstAddr x) (src (srcAddr x))

/-- A block copy: the rows `y = 0, ..., rows - 1` in turn, each as `copyRow`. -/
def copyRows (dst src : Memory) (dstAddr srcAddr : Nat → Nat → Int) (cols : Nat) : Nat → Memory
  | 0 => dst
  | y + 1 =>
    copyRow (copyRows dst src dstAddr srcAddr cols y) src (dstAddr y) (srcAddr y) cols

/-- `IScriptEnvironment::BitBlt` of AviSynth: `height` rows of `row_size` bytes are copied
from `srcp` to `dstp`, the row pointers advancing by the two pitches; a negative `height` or
`row_size` is an error (`none`). Pointers are a memory together with an offset. -/
def BitBlt (dst : Memory) (dstp dst_pitch : Int) (src : Memory) (srcp src_pitch : Int)
    (row_size height : Int) : Option Memory :=
  if height < 0 ∨ row_size < 0 then none
  else
    some (copyRows dst src (fun y x => dstp + y * dst_pitch + x)
      (fun y x => srcp + y * src_pitch + x) row_size.toNat height.toNat)

/-- Modelled from the spec: the template `Format::Deinterleave<Component>` of format.h, which
is not among the sources. Section 4.6 has it turn a packed chroma row into two planes: of each
row of `rowSize` bytes, the components at even positions go to `dst1` and those at odd
positions to `dst2`, a component being `componentSize` bytes; both planes use `dstStride`. -/
def Deinterleave (componentSize : Nat) (src : Memory) (srcp srcStride : Int)
    (dst1 dst2 : Memory) (dstStride : Int) (rowSize height : Int) : Memory × Memory :=
  let cols := componentSize * (rowSize.toNat / (2 * componentSize))
  (copyRows dst1 src (fun y x => y * dstStride + x)
      (fun y x => srcp + y * srcStride
        + (2 * componentSize * (x / componentSize) + x % componentSize : Nat))
      cols height.toNat,
   copyRows dst2 src (fun y x => y * dstStride + x)
      (fun y x => srcp + y * srcStride
        + (2 * componentSize * (x / componentSize) + componentSize + x % componentSize : Nat))
      cols height.toNat)

/-- Modelled from the spec: the template `Format::Interleave<Component>` of format.h, which is
not among the sources. Section 4.6 has it turn two planes into a packed chroma row: of each
row, the components of `src1` (`rowSize` bytes) go to the even positions of the row of `dst`
and those of `src2` to the odd positions; both planes use `srcStride`. -/
def Interleave (componentSize : Nat) (src1 src2 : Memory) (srcStride : Int)
    (dst : Memory) (dstp dstStride : Int) (rowSize height : Int) : Memory :=
  let cols := componentSize * (rowSize.toNat / componentSize)
  let d1 := copyRows dst src1
    (fun y x => dstp + y * dstStride
      + (2 * componentSize * (x / componentSize) + x % componentSize : Nat))
    (fun y x => y * srcStride + x) cols height.toNat
  copyRows d1 src2
    (fun y x => dstp + y * dstStride
      + (2 * componentSize * (x / componentSize) + componentSize + x % componentSize : Nat))
    (fun y x => y * srcStride + x) cols height.toNat

/-! ## The format catalog -/

/-- The AviSynth colour spaces the catalog uses (`VideoInfo::CS_...`). -/
inductive AvsType where
  | CS_YV12
  | CS_YUV420P16
  | CS_YUY2
  | CS_BGR24
  | CS_BGR32
  deriving DecidableEq

/-- Whether the bit `VideoInfo::CS_INTERLEAVED` is set in the colour space. -/
def AvsType.interleaved : AvsType → Bool
  | .CS_YV12 => false
  | .CS_YUV420P16 => false
  | .CS_YUY2 => true
  | .CS_BGR24 => true
  | .CS_BGR32 => true

/-- `VideoInfo::ComponentSize()`: the bytes of one component of the colour space. -/
def AvsType.ComponentSize : AvsType → Int
  | .CS_YV12 => 1
  | .CS_YUV420P16 => 2
  | .CS_YUY2 => 1
  | .CS_BGR24 => 1
  | .CS_BGR32 => 1

inductive MediaSubtype where
  | MEDIASUBTYPE_NV12
  | MEDIASUBTYPE_YV12
  | MEDIASUBTYPE_I420
  | MEDIASUBTYPE_IYUV
  | MEDIASUBTYPE_P010
  | MEDIASUBTYPE_P016
  | MEDIASUBTYPE_YUY2
  | MEDIASUBTYPE_UYVY
  | MEDIASUBTYPE_RGB24
  | MEDIASUBTYPE_RGB32
  deriving DecidableEq

/-- The keys of `Format::FORMATS`. -/
inductive FormatName where
  | NV12
  | YV12
  | I420
  | IYUV
  | P010
  | P016
  | YUY2
  | UYUY
  | RGB24
  | RGB32
  deriving DecidableEq

/-- `Format::Definition`. -/
structure Definition where
  mediaSubtype : MediaSubtype
  avsType : AvsType
  bitCount : Int
  componentsPerPixel : Int
  deriving DecidableEq

/-- `Format::FORMATS`, entry by entry. -/
def FORMATS : FormatName → Definition
  | .NV12 => { mediaSubtype := .MEDIASUBTYPE_NV12, avsType := .CS_YV12, bitCount := 12, componentsPerPixel := 1 }
  | .YV12 => { mediaSubtype := .MEDIASUBTYPE_YV12, avsType := .CS_YV12, bitCount := 12, componentsPerPixel := 1 }
  | .I420 => { mediaSubtype := .MEDIASUBTYPE_I420, avsType := .CS_YV12, bitCount := 12, componentsPerPixel := 1 }
  | .IYUV => { mediaSubtype := .MEDIASUBTYPE_IYUV, avsType := .CS_YV12, bitCount := 12, componentsPerPixel := 1 }
  | .P010 => { mediaSubtype := .MEDIASUBTYPE_P010, avsType := .CS_YUV420P16, bitCount := 24, componentsPerPixel := 1 }
  | .P016 => { mediaSubtype := .MEDIASUBTYPE_P016, avsType := .CS_YUV420P16, bitCount := 24, componentsPerPixel := 1 }
  | .YUY2 => { mediaSubtype := .MEDIASUBTYPE_YUY2, avsType := .CS_YUY2, bitCount := 16, componentsPerPixel := 2 }
  | .UYUY => { mediaSubtype := .MEDIASUBTYPE_UYVY, avsType := .CS_YUY2, bitCount := 16, componentsPerPixel := 2 }
  | .RGB24 => { mediaSubtype := .MEDIASUBTYPE_RGB24, avsType := .CS_BGR24, bitCount := 24, componentsPerPixel := 3 }
  | .RGB32 => { mediaSubtype := .MEDIASUBTYPE_RGB32, avsType := .CS_BGR32, bitCount := 24, componentsPerPixel := 4 }

/-- The value `BI_RGB` of `biCompression`. -/
def BI_RGB : Int := 0

/-- The fields of `BITMAPINFOHEADER` the converter reads. -/
structure BITMAPINFOHEADER where
  biWidth : Int
  biHeight : Int
  biCompression : Int
  deriving DecidableEq

/-- The field of `VideoInfo` the converter reads (through `ComponentSize()`). -/
structure VideoInfo where
  pixel_type : AvsType
  deriving DecidableEq

/-- `Format::VideoFormat`, as far as the converter reads it. -/
structure VideoFormat where
  name : FormatName
  videoInfo : VideoInfo
  bmi : BITMAPINFOHEADER
  deriving DecidableEq

/-- The three plane pointers of an engine frame (`dstSlices` / `srcSlices`), each the base of
a memory of its own. -/
structure Slices where
  Y : Memory
  U : Memory
  V : Memory

/-- The three pitches of an engine frame (`dstStrides` / `srcStrides`). -/
structure Strides where
  Y : Int
  U : Int
  V : Int
  deriving DecidableEq

/-- The component width the templates are instantiated with:
`ComponentSize() == 1 ? uint8_t : uint16_t`. -/
def templateComponentSize (format : VideoFormat) : Nat :=
  if format.videoInfo.pixel_type.ComponentSize = 1 then 1 else 2

/-- Whether the subtype is one of the three with separate chroma planes. -/
def separateChroma (s : MediaSubtype) : Bool :=
  s = .MEDIASUBTYPE_IYUV || s = .MEDIASUBTYPE_I420 || s = .MEDIASUBTYPE_YV12

/-- The row size in bytes that both converters compute from the format:
`biWidth * ComponentSize() * componentsPerPixel`, as an exact integer. `hostStride32` is the
value the machine stores in the 32-bit `const int`; the two agree when the product is a
value of `int`. -/
def hostStride (format : VideoFormat) : Int :=
  format.bmi.biWidth * format.videoInfo.pixel_type.ComponentSize
    * (FORMATS format.name).componentsPerPixel

/-- The test `biCompression == BI_RGB && biHeight < 0` of both converters. -/
def topDown (format : VideoFormat) : Bool :=
  format.bmi.biCompression = BI_RGB && format.bmi.biHeight < 0

/-- The part of `Format::CopyFromInput` after the first `BitBlt`, for the planes other than the
primary one; `dstSlices` already holds the primary plane. -/
def CopyFromInputChroma (format : VideoFormat) (srcBuffer : Memory) (dstSlices : Slices)
    (dstStrides : Strides) (srcStride rowSize height srcDefaultPlaneSize : Int) :
    Option Slices :=
  let defn := FORMATS format.name
  if defn.avsType.interleaved then some dstSlices
  else if separateChroma defn.mediaSubtype then
    let srcPlane1 := srcDefaultPlaneSize
    let srcPlane2 := srcPlane1 + Int.tdiv srcDefaultPlaneSize 4
    let srcU := if defn.mediaSubtype = .MEDIASUBTYPE_YV12 then srcPlane2 else srcPlane1
    let srcV := if defn.mediaSubtype = .MEDIASUBTYPE_YV12 then srcPlane1 else srcPlane2
    match BitBlt dstSlices.U 0 dstStrides.U srcBuffer srcU (Int.tdiv srcStride 2)
        (Int.tdiv rowSize 2) (Int.tdiv height 2) with
    | none => none
    | some dstU =>
      match BitBlt dstSlices.V 0 dstStrides.V srcBuffer srcV (Int.tdiv srcStride 2)
          (Int.tdiv rowSize 2) (Int.tdiv height 2) with
      | none => none
      | some dstV => some { Y := dstSlices.Y, U := dstU, V := dstV }
  else
    let srcUVStart := srcDefaultPlaneSize
    let r := Deinterleave (templateComponentSize format) srcBuffer srcUVStart srcStride
      dstSlices.U dstSlices.V dstStrides.U rowSize (Int.tdiv height 2)
    some { Y := dstSlices.Y, U := r.1, V := r.2 }

/-- `Format::CopyFromInput`: the frame planes after the copy, `none` when a `BitBlt` fails.
The `int` quantities are taken as exact integers, which is what the machine computes as long
as none of them leaves the range of `int`; `CopyFromInput32` reduces them to 32 bits. -/
def CopyFromInput (format : VideoFormat) (srcBuffer : Memory) (dstSlices : Slices)
    (dstStrides : Strides) (dstRowSize dstHeight : Int) : Option Slices :=
  let srcStride := hostStride format
  let rowSize := min srcStride dstRowSize
  let height := min |format.bmi.biHeight| dstHeight
  let srcDefaultPlaneSize := srcStride * height
  let srcDefaultPlane : Int := if topDown format then srcDefaultPlaneSize - srcStride else 0
  let srcDefaultPlaneStride : Int := if topDown format then -srcStride else srcStride
  match BitBlt dstSlices.Y 0 dstStrides.Y srcBuffer srcDefaultPlane srcDefaultPlaneStride
      rowSize height with
  | none => none
  | some dstY =>
    CopyFromInputChroma format srcBuffer { dstSlices with Y := dstY } dstStrides srcStride
      rowSize height srcDefaultPlaneSize

/-- The part of `Format::CopyToOutput` after the first `BitBlt`, for the planes other than the
primary one; `dstBuffer` already holds the primary plane. -/
def CopyToOutputChroma (format : VideoFormat) (srcSlices : Slices) (srcStrides : Strides)
    (dstBuffer : Memory) (dstStride rowSize height dstDefaultPlaneSize : Int) :
    Option Memory :=
  let defn := FORMATS format.name
  if defn.avsType.interleaved then some dstBuffer
  else if separateChroma defn.mediaSubtype then
    let dstPlane1 := dstDefaultPlaneSize
    let dstPlane2 := dstPlane1 + Int.tdiv dstDefaultPlaneSize 4
    let dstU := if defn.mediaSubtype = .MEDIASUBTYPE_YV12 then dstPlane2 else dstPlane1
    let dstV := if defn.mediaSubtype = .MEDIASUBTYPE_YV12 then dstPlane1 else dstPlane2
    match BitBlt dstBuffer dstU (Int.tdiv dstStride 2) srcSlices.U 0 srcStrides.U
        (Int.tdiv rowSize 2) (Int.tdiv height 2) with
    | none => none
    | some d1 =>
      BitBlt d1 dstV (Int.tdiv dstStride 2) srcSlices.V 0 srcStrides.V
        (Int.tdiv rowSize 2) (Int.tdiv height 2)
  else
    let dstUVStart := dstDefaultPlaneSize
    some (Interleave (templateComponentSize format) srcSlices.U srcSlices.V srcStrides.U
      dstBuffer dstUVStart dstStride (Int.tdiv rowSize 2) (Int.tdiv height 2))

/-- `Format::CopyToOutput`: the host buffer after the copy, `none` when a `BitBlt` fails.
The `int` quantities are taken as exact integers, which is what the machine computes as long
as none of them leaves the range of `int`; `CopyToOutput32` reduces them to 32 bits. -/
def CopyToOutput (format : VideoFormat) (srcSlices : Slices) (srcStrides : Strides)
    (dstBuffer : Memory) (srcRowSize srcHeight : Int) : Option Memory :=
  let dstStride := hostStride format
  let rowSize := min dstStride srcRowSize
  let height := min |format.bmi.biHeight| srcHeight
  let dstDefaultPlaneSize := dstStride * height
  let dstDefaultPlane : Int := if topDown format then dstDefaultPlaneSize - dstStride else 0
  let dstDefaultPlaneStride : Int := if topDown format then -dstStride else dstStride
  match BitBlt dstBuffer dstDefaultPlane dstDefaultPlaneStride srcSlices.Y 0 srcStrides.Y
      rowSize height with
  | none => none
  | some d0 =>
    CopyToOutputChroma format srcSlices srcStrides d0 dstStride rowSize height
      dstDefaultPlaneSize

/-- The rows `0 .. h - 1` of a buffer of row size `stride` in reversed order; bytes outside
these rows stay where they are. -/
def reverseRows (stride h : Int) (B : Memory) : Memory :=
  fun a =>
    if 0 ≤ a ∧ a < stride * h then B ((h - 1 - a / stride) * stride + a % stride) else B a

/-- The format with its declared height replaced. -/
def VideoFormat.withHeight (format : VideoFormat) (h : Int) : VideoFormat :=
  { format with bmi := { format.bmi with biHeight := h } }

/-- The offset in the host buffer of byte `x` of row `y` of the primary plane, for a copy of
`height` rows: counted from the last row downward for a top-down bitmap. -/
def primaryOffset (format : VideoFormat) (height y x : Int) : Int :=
  if topDown format then
    hostStride format * height - hostStride format + y * (-hostStride format) + x
  else 0 + y * hostStride format + x

/-- The host-buffer offsets inside the declared extents of the planes of a format: row `y`,
byte `x` of the primary plane (`|biHeight|` rows of `hostStride` bytes); for the formats with
separate chroma planes, of the two planes of half as many rows of half the row size that
follow; for the formats with interleaved chroma, of the plane of half as many rows that
follows, as far as whole pairs of components reach (the whole row when the width is even). -/
def inDeclaredExtent (format : VideoFormat) (a : Int) : Prop :=
  (∃ y x : Int, 0 ≤ y ∧ y < |format.bmi.biHeight| ∧ 0 ≤ x ∧ x < hostStride format ∧
      a = y * hostStride format + x) ∨
  ((FORMATS format.name).avsType.interleaved = false ∧
    separateChroma (FORMATS format.name).mediaSubtype = true ∧
    ∃ y x : Int, 0 ≤ y ∧ y < |format.bmi.biHeight| / 2 ∧ 0 ≤ x ∧ x < hostStride format / 2 ∧
      (a = hostStride format * |format.bmi.biHeight| + y * (hostStride format / 2) + x ∨
       a = hostStride format * |format.bmi.biHeight|
         + hostStride format * |format.bmi.biHeight| / 4 + y * (hostStride format / 2) + x)) ∨
  ((FORMATS format.name).avsType.interleaved = false ∧
    separateChroma (FORMATS format.name).mediaSubtype = false ∧
    ∃ y x : Int, 0 ≤ y ∧ y < |format.bmi.biHeight| / 2 ∧ 0 ≤ x ∧
      x < 2 * templateComponentSize format
        * (hostStride format / (2 * templateComponentSize format)) ∧
      a = hostStride format * |format.bmi.biHeight| + y * hostStride format + x)

/-- A host buffer whose byte at offset `a` is `a + 1` (modulo 256). -/
def bufW : Memory := fun a => ⟨(a.toNat + 1) % 256, Nat.mod_lt _ (by decide)⟩

/-- A buffer of zero bytes. -/
def zeroMem : Memory := fun _ => 0

/-- A frame of zero bytes. -/
def zeroSlices : Slices := { Y := zeroMem, U := zeroMem, V := zeroMem }

/-- RGB24, one pixel wide (three bytes a row), uncompressed; the height is set by
`withHeight`. -/
def rgbW : VideoFormat :=
  { name := .RGB24, videoInfo := { pixel_type := .CS_BGR24 },
    bmi := { biWidth := 1, biHeight := 2, biCompression := BI_RGB } }

/-- YV12, four by four pixels. -/
def yv12W : VideoFormat :=
  { name := .YV12, videoInfo := { pixel_type := .CS_YV12 },
    bmi := { biWidth := 4, biHeight := 4, biCompression := 842094169 } }

/-- NV12, four by four pixels. -/
def nv12W : VideoFormat :=
  { name := .NV12, videoInfo := { pixel_type := .CS_YV12 },
    bmi := { biWidth := 4, biHeight := 4, biCompression := 842094158 } }

/-- The pitches of a frame with three planes. -/
def stridesW : Strides := { Y := 8, U := 4, V := 4 }

/-- The pitches of a frame with a single plane. -/
def stridesRgbW : Strides := { Y := 4, U := 0, V := 0 }

/-- A frame whose first plane holds the bytes 1, 2, 3, ... -/
def frameRgbW : Slices := { Y := bufW, U := zeroMem, V := zeroMem }

/-- The image size the header declares for the host buffer: `stride * |biHeight|` for the
packed formats and `stride * |biHeight| * 3 / 2` for the 4:2:0 formats. -/
def declaredImageSize (format : VideoFormat) : Int :=
  if (FORMATS format.name).avsType.interleaved then hostStride format * |format.bmi.biHeight|
  else hostStride format * |format.bmi.biHeight| * 3 / 2

/-- The offset `srcU` / `dstU` of the U plane of a format with separate chroma planes, for a
copy of `height` rows: the second plane after the primary one for YV12, else the first. -/
def chromaOffsetU (format : VideoFormat) (height : Int) : Int :=
  if (FORMATS format.name).mediaSubtype = .MEDIASUBTYPE_YV12 then
    hostStride format * height + Int.tdiv (hostStride format * height) 4
  else hostStride format * height

/-- The offset `srcV` / `dstV` of the V plane of a format with separate chroma planes, for a
copy of `height` rows: the first plane after the primary one for YV12, else the second. -/
def chromaOffsetV (format : VideoFormat) (height : Int) : Int :=
  if (FORMATS format.name).mediaSubtype = .MEDIASUBTYPE_YV12 then hostStride format * height
  else hostStride format * height + Int.tdiv (hostStride format * height) 4

/-- The offset `srcPlane1` / `dstPlane1` of the first chroma plane in the host buffer, for a
copy of `height` rows: right after the primary plane of `stride * height` bytes. -/
def firstChromaPlane (format : VideoFormat) (height : Int) : Int :=
  hostStride format * height

/-- The offset `srcPlane2` / `dstPlane2` of the second chroma plane in the host buffer: a
quarter of the primary plane after the first one. -/
def secondChromaPlane (format : VideoFormat) (height : Int) : Int :=
  hostStride format * height + Int.tdiv (hostStride format * height) 4

/-- The format under another name of the catalog. -/
def VideoFormat.withName (format : VideoFormat) (n : FormatName) : VideoFormat :=
  { format with name := n }

/-- The frame with its second and third plane exchanged. -/
def Slices.swapUV (fr : Slices) : Slices := { Y := fr.Y, U := fr.V, V := fr.U }

/-- The pitches with those of the second and third plane exchanged. -/
def Strides.swapUV (p : Strides) : Strides := { Y := p.Y, U := p.V, V := p.U }

/-- I420, four by four pixels. -/
def i420W : VideoFormat :=
  { name := .I420, videoInfo := { pixel_type := .CS_YV12 },
    bmi := { biWidth := 4, biHeight := 4, biCompression := 808596553 } }

/-- A frame whose planes hold distinct constant bytes. -/
def frameYuvW : Slices := { Y := fun _ => 7, U := fun _ => 8, V := fun _ => 9 }

/-- Whether an integer is a value of the 32-bit type `int`. -/
def fitsInt32 (x : Int) : Prop := -2147483648 ≤ x ∧ x < 2147483648

/-- The row size as the machine computes it: `biWidth * ComponentSize() * componentsPerPixel`
evaluated from the left in 32-bit `int` arithmetic and stored in a `const int`. -/
def hostStride32 (format : VideoFormat) : Int :=
  SynthFilter.toInt32
    (SynthFilter.toInt32 (format.bmi.biWidth * format.videoInfo.pixel_type.ComponentSize)
      * (FORMATS format.name).componentsPerPixel)

/-- `Format::CopyFromInput` with its `int` quantities reduced to 32 bits as the machine
computes them: `srcStride`, `abs(biHeight)`, `srcDefaultPlaneSize = srcStride * height` and
`-srcStride`. Offsets from the buffer pointer are pointer arithmetic and are not reduced.
`CopyFromInput` is the same copy over the exact integers; the two agree when the stride,
`|biHeight|` and `srcStride * height` are values of `int`. -/
def CopyFromInput32 (format : VideoFormat) (srcBuffer : Memory) (dstSlices : Slices)
    (dstStrides : Strides) (dstRowSize dstHeight : Int) : Option Slices :=
  let srcStride := hostStride32 format
  let rowSize := min srcStride dstRowSize
  let height := min (SynthFilter.toInt32 |format.bmi.biHeight|) dstHeight
  let srcDefaultPlaneSize := SynthFilter.toInt32 (srcStride * height)
  let srcDefaultPlane : Int := if topDown format then srcDefaultPlaneSize - srcStride else 0
  let srcDefaultPlaneStride : Int :=
    if topDown format then SynthFilter.toInt32 (-srcStride) else srcStride
  match BitBlt dstSlices.Y 0 dstStrides.Y srcBuffer srcDefaultPlane srcDefaultPlaneStride
      rowSize height with
  | none => none
  | some dstY =>
    CopyFromInputChroma format srcBuffer { dstSlices with Y := dstY } dstStrides srcStride
      rowSize height srcDefaultPlaneSize

/-- `Format::CopyToOutput` with its `int` quantities reduced to 32 bits as the machine
computes them: `dstStride`, `abs(biHeight)`, `dstDefaultPlaneSize = dstStride * height` and
`-dstStride`. `CopyToOutput` is the same copy over the exact integers. -/
def CopyToOutput32 (format : VideoFormat) (srcSlices : Slices) (srcStrides : Strides)
    (dstBuffer : Memory) (srcRowSize srcHeight : Int) : Option Memory :=
  let dstStride := hostStride32 format
  let rowSize := min dstStride srcRowSize
  let height := min (SynthFilter.toInt32 |format.bmi.biHeight|) srcHeight
  let dstDefaultPlaneSize := SynthFilter.toInt32 (dstStride * height)
  let dstDefaultPlane : Int := if topDown format then dstDefaultPlaneSize - dstStride else 0
  let dstDefaultPlaneStride : Int :=
    if topDown format then SynthFilter.toInt32 (-dstStride) else dstStride
  match BitBlt dstBuffer dstDefaultPlane dstDefaultPlaneStride srcSlices.Y 0 srcStrides.Y
      rowSize height with
  | none => none
  | some d0 =>
    CopyToOutputChroma format srcSlices srcStrides d0 dstStride rowSize height
      dstDefaultPlaneSize

/-- YV12 of 2^30 by 2 pixels: the row size 2^30 is a value of `int`, the plane size 2^31 is
not. -/
def yv12Wide : VideoFormat :=
  { name := .YV12, videoInfo := { pixel_type := .CS_YV12 },
    bmi := { biWidth := 1073741824, biHeight := 2, biCompression := 842094169 } }

/-- RGB32 of 2^30 by 1 pixels: the row size 2^32 is not a value of `int`. -/
def rgb32Wide : VideoFormat :=
  { name := .RGB32, videoInfo := { pixel_type := .CS_BGR32 },
    bmi := { biWidth := 1073741824, biHeight := 1, biCompression := BI_RGB } }

/-- RGB24, one pixel wide, top-down with `biHeight` the least `int`. -/
def rgbLeast : VideoFormat :=
  { name := .RGB24, videoInfo := { pixel_type := .CS_BGR24 },
    bmi := { biWidth := 1, biHeight := -2147483648, biCompression := BI_RGB } }

/-- A memory that holds 5 below offset 0 and 0 from there on. -/
def bufBelow : Memory := fun a => if a < 0 then 5 else 0

end AvsFilter

/-!
# Properties of the frame handler
-/

namespace SynthFilter

theorem intRange_of_le {lo hi : Int} (h : hi ≤ lo) : intRange lo hi = [] := by
  unfold intRange
  have : (hi - lo).toNat = 0 := by omega
  rw [this]; rfl

theorem mem_intRange {lo hi k : Int} : k ∈ intRange lo hi ↔ lo ≤ k ∧ k < hi := by
  unfold intRange
  simp only [List.mem_map, List.mem_range]
  constructor
  · rintro ⟨i, hi', rfl⟩
    omega
  · rintro ⟨h1, h2⟩
    refine ⟨(k - lo).toNat, by omega, by omega⟩

theorem intRange_succ_right {lo hi : Int} (h : lo ≤ hi) :
    intRange lo (hi + 1) = intRange lo hi ++ [hi] := by
  unfold intRange
  have : (hi + 1 - lo).toNat = (hi - lo).toNat + 1 := by omega
  rw [this, List.range_succ, List.map_append]
  simp
  omega

theorem intRange_succ_left {lo hi : Int} (h : lo < hi) :
    intRange lo hi = lo :: intRange (lo + 1) hi := by
  unfold intRange
  have : (hi - lo).toNat = (hi - (lo + 1)).toNat + 1 := by omega
  rw [this, List.range_succ_eq_map]
  simp [List.map_map, Function.comp_def]
  intro a _
  omega

theorem intRange_pairwise (lo hi : Int) : (intRange lo hi).Pairwise (· < ·) := by
  unfold intRange
  rw [List.pairwise_map]
  exact (List.pairwise_lt_range _).imp (by intro a b h; omega)

theorem intRange_length (lo hi : Int) : (intRange lo hi).length = (hi - lo).toNat := by
  simp [intRange]

namespace OrdMap

theorem emplace_last {α : Type} (k : Int) (v : α) (m : List (Int × α))
    (h : ∀ e ∈ m, e.1 < k) : emplace k v m = m ++ [(k, v)] := by
  induction m with
  | nil => rfl
  | cons e rest ih =>
    obtain ⟨k', v'⟩ := e
    have h1 : k' < k := h (k', v') (List.mem_cons_self _ _)
    have h2 : ¬ k < k' := by omega
    have h3 : ¬ k = k' := by omega
    simp only [emplace, h2, h3, if_false, List.cons_append]
    rw [ih (fun e he => h e (List.mem_cons_of_mem _ he))]

theorem keys_modify {α : Type} (k : Int) (f : α → α) (m : List (Int × α)) :
    keys (modify k f m) = keys m := by
  induction m with
  | nil => rfl
  | cons e rest ih =>
    obtain ⟨k', v'⟩ := e
    by_cases hk : k' = k
    · simp [modify, hk, keys]
    · simp only [modify, hk, if_false, keys, List.map_cons] at ih ⊢
      rw [ih]

theorem find_isSome_iff {α : Type} (k : Int) (m : List (Int × α)) :
    (find k m).isSome ↔ k ∈ keys m := by
  induction m with
  | nil => simp [find, keys]
  | cons e rest ih =>
    obtain ⟨k', v'⟩ := e
    by_cases hk : k' = k
    · simp [find, hk, keys]
    · have hk2 : ¬ k = k' := fun h => hk h.symm
      simp only [find, hk, if_false, keys, List.map_cons, List.mem_cons, hk2, false_or] at ih ⊢
      exact ih

theorem find_mem {α : Type} {k : Int} {m : List (Int × α)} {v : α} (h : find k m = some v) :
    (k, v) ∈ m := by
  induction m with
  | nil => simp [find] at h
  | cons e rest ih =>
    obtain ⟨k', v'⟩ := e
    by_cases hk : k' = k
    · simp only [find, hk, if_true, Option.some.injEq] at h
      subst h; subst hk
      exact List.mem_cons_self _ _
    · simp only [find, hk, if_false] at h
      exact List.mem_cons_of_mem _ (ih h)

/-- In a map without repeated keys, erasing a key removes exactly the entries with that key. -/
theorem erase_eq_filter {α : Type} (k : Int) (m : List (Int × α))
    (hs : (keys m).Pairwise (· < ·)) :
    erase k m = m.filter (fun e => decide (e.1 ≠ k)) := by
  induction m with
  | nil => rfl
  | cons e rest ih =>
    obtain ⟨k', v'⟩ := e
    simp only [keys, List.map_cons, List.pairwise_cons] at hs
    by_cases hk : k' = k
    · subst hk
      simp only [erase, if_true, ne_eq, not_true_eq_false, decide_False, Bool.false_eq_true,
        not_false_eq_true, List.filter_cons_of_neg]
      symm
      rw [List.filter_eq_self]
      intro e he
      have := hs.1 e.1 (List.mem_map_of_mem _ he)
      simp; omega
    · simp only [erase, hk, if_false, ne_eq, not_false_eq_true, decide_True, List.filter_cons_of_pos]
      rw [ih hs.2]

theorem modify_mem {α : Type} {k : Int} {f : α → α} {m : List (Int × α)} {e : Int × α}
    (h : e ∈ modify k f m) : ∃ e0 ∈ m, e.1 = e0.1 ∧ (e.2 = e0.2 ∨ e.2 = f e0.2) := by
  induction m with
  | nil => simp [modify] at h
  | cons e1 rest ih =>
    obtain ⟨k', v'⟩ := e1
    by_cases hk : k' = k
    · simp only [modify, hk, if_true, List.mem_cons] at h
      rcases h with h | h
      · exact ⟨(k', v'), List.mem_cons_self _ _, by simp [h, hk], Or.inr (by simp [h])⟩
      · exact ⟨e, List.mem_cons_of_mem _ h, rfl, Or.inl rfl⟩
    · simp only [modify, hk, if_false, List.mem_cons] at h
      rcases h with h | h
      · exact ⟨(k', v'), List.mem_cons_self _ _, by simp [h], Or.inl (by simp [h])⟩
      · obtain ⟨e0, h0, h1⟩ := ih h
        exact ⟨e0, List.mem_cons_of_mem _ h0, h1⟩

theorem modify_pairwise {α : Type} {k : Int} {f : α → α} {m : List (Int × α)}
    (R : α → α → Prop) (hf : ∀ a, R a (f a) ∧ R (f a) a)
    (hR : ∀ a b c, R a b → R b c → R a c)
    (h : m.Pairwise (fun a b => R a.2 b.2)) :
    (modify k f m).Pairwise (fun a b => R a.2 b.2) := by
  induction m with
  | nil => simp [modify]
  | cons e1 rest ih =>
    obtain ⟨k', v'⟩ := e1
    rw [List.pairwise_cons] at h
    by_cases hk : k' = k
    · simp only [modify, hk, if_true, List.pairwise_cons]
      exact ⟨fun b hb => hR _ _ _ (hf v').2 (h.1 b hb), h.2⟩
    · simp only [modify, hk, if_false, List.pairwise_cons]
      refine ⟨?_, ih h.2⟩
      intro b hb
      obtain ⟨e0, h0, -, h2⟩ := modify_mem hb
      rcases h2 with h2 | h2
      · rw [h2]; exact h.1 e0 h0
      · rw [h2]; exact hR _ _ _ (h.1 e0 h0) (hf _).1

end OrdMap

theorem garbageCollectLoop_eq_filter (n : Int) (m : List (Int × SourceFrameInfo))
    (hs : (OrdMap.keys m).Pairwise (· < ·)) :
    garbageCollectLoop n m = m.filter (fun e => decide (n < e.1)) := by
  induction m with
  | nil => rfl
  | cons e rest ih =>
    simp only [OrdMap.keys, List.map_cons, List.pairwise_cons] at hs
    by_cases hk : e.1 ≤ n
    · have : ¬ n < e.1 := by omega
      simp only [garbageCollectLoop, hk, if_true, this, decide_False, Bool.false_eq_true,
        not_false_eq_true, List.filter_cons_of_neg]
      exact ih hs.2
    · have h1 : n < e.1 := by omega
      simp only [garbageCollectLoop, hk, if_false, h1, decide_True, List.filter_cons_of_pos]
      congr 1
      symm
      rw [List.filter_eq_self]
      intro e' he'
      have := hs.1 e'.1 (List.mem_map_of_mem _ he')
      simp; omega

theorem sorted_ext {l1 l2 : List Int} (h1 : l1.Pairwise (· < ·)) (h2 : l2.Pairwise (· < ·))
    (h : ∀ k, k ∈ l1 ↔ k ∈ l2) : l1 = l2 := by
  refine @List.eq_of_perm_of_sorted Int (· < ·) _ l1 l2 ?_ h1 h2
  exact (List.perm_ext_iff_of_nodup (h1.imp (fun h => ne_of_lt h))
    (h2.imp (fun h => ne_of_lt h))).2 h

theorem keys_filter_intRange {α : Type} (m : List (Int × α)) (lo hi n : Int)
    (hk : OrdMap.keys m = intRange lo hi) (hn : lo ≤ n) :
    OrdMap.keys (m.filter (fun e => decide (n ≤ e.1))) = intRange n hi := by
  have h1 : OrdMap.keys (m.filter (fun e => decide (n ≤ e.1)))
      = (OrdMap.keys m).filter (fun k => decide (n ≤ k)) := by
    unfold OrdMap.keys
    rw [List.filter_map]
    rfl
  rw [h1, hk]
  apply sorted_ext ((intRange_pairwise lo hi).filter _) (intRange_pairwise n hi)
  intro k
  simp only [List.mem_filter, mem_intRange, decide_eq_true_eq]
  omega

theorem le_getLast_of_pairwise {α : Type} (f : α → Int) (l : List α)
    (hp : l.Pairwise (fun a b => f a < f b)) :
    ∀ e ∈ l, ∀ x ∈ l.getLast?, f e ≤ f x := by
  intro e he x hx
  have hx' : l.getLast? = some x := hx
  have hl : l = l.dropLast ++ [x] := by
    have := List.dropLast_append_getLast? x hx
    exact this.symm
  rw [hl] at he hp
  rw [List.pairwise_append] at hp
  rcases List.mem_append.1 he with h | h
  · exact le_of_lt (hp.2.2 e h x (List.mem_singleton_self x))
  · rw [List.mem_singleton.1 h]

theorem getLast?_filter_of_mem {α : Type} (p : α → Bool) (l : List α) (x : α)
    (hx : l.getLast? = some x) (hpx : p x = true) : (l.filter p).getLast? = some x := by
  have hl : l = l.dropLast ++ [x] := (List.dropLast_append_getLast? x hx).symm
  rw [hl, List.filter_append]
  simp [hpx]

theorem lastSampleStartTime_append (h : FrameHandler) (l : List (Int × SourceFrameInfo))
    (e : Int × SourceFrameInfo) (hs : h.sourceFrames = l ++ [e]) :
    lastSampleStartTime h = e.2.startTime := by
  simp [lastSampleStartTime, hs]

theorem requestLoop_spec (fuel : Nat) (h : FrameHandler) (M : Int) (hdr : HDRSideData)
    (hkeys : ∀ e ∈ h.outputSamples, e.1 < h.nextOutputFrameNb)
    (hfuel : (M + 1 - h.nextOutputFrameNb).toNat ≤ fuel) :
    requestLoop fuel h M hdr =
      ({ h with
         outputSamples := h.outputSamples ++
           newSlots h.nextSourceFrameNb hdr
             (intRange h.nextOutputFrameNb (max h.nextOutputFrameNb (M + 1)))
         nextOutputFrameNb := max h.nextOutputFrameNb (M + 1) },
       intRange h.nextOutputFrameNb (max h.nextOutputFrameNb (M + 1))) := by
  induction fuel generalizing h with
  | zero =>
    have h1 : M + 1 ≤ h.nextOutputFrameNb := by omega
    simp [requestLoop, max_eq_left h1, intRange_of_le (le_refl _), newSlots]
  | succ fuel ih =>
    by_cases hc : h.nextOutputFrameNb ≤ M
    · simp only [requestLoop, hc, if_true]
      rw [ih]
      · have hm : max (h.nextOutputFrameNb + 1) (M + 1) = M + 1 := max_eq_right (by omega)
        have hm2 : max h.nextOutputFrameNb (M + 1) = M + 1 := max_eq_right (by omega)
        simp only [hm, hm2]
        rw [OrdMap.emplace_last _ _ _ hkeys, intRange_succ_left (show h.nextOutputFrameNb < M + 1 by omega)]
        simp [newSlots]
      · intro e he
        simp only at he ⊢
        rw [OrdMap.emplace_last _ _ _ hkeys] at he
        rcases List.mem_append.1 he with h1 | h1
        · have := hkeys e h1; omega
        · simp at h1; rw [h1]; simp
      · simp only; omega
    · have h1 : M + 1 ≤ h.nextOutputFrameNb := by omega
      simp [requestLoop, hc, max_eq_left h1, intRange_of_le (le_refl _), newSlots]

theorem SameCore.refl (h : FrameHandler) : SameCore h h :=
  ⟨rfl, rfl, rfl, rfl, rfl, rfl, rfl, rfl, rfl⟩

theorem SameCore.trans {a b c : FrameHandler} (h1 : SameCore a b) (h2 : SameCore b c) :
    SameCore a c :=
  ⟨h2.1.trans h1.1, h2.2.trans h1.2, h2.3.trans h1.3, h2.4.trans h1.4, h2.5.trans h1.5,
    h2.6.trans h1.6, h2.7.trans h1.7, h2.8.trans h1.8, h2.9.trans h1.9⟩

theorem RefreshInputFrameRates_sameCore (env : Environment) (h : FrameHandler) (n t : Int) :
    SameCore h (RefreshInputFrameRates env h n t) :=
  ⟨rfl, rfl, rfl, rfl, rfl, rfl, rfl, rfl, rfl⟩

theorem RefreshOutputFrameRates_sameCore (env : Environment) (h : FrameHandler) (n t : Int) :
    SameCore h (RefreshOutputFrameRates env h n t) :=
  ⟨rfl, rfl, rfl, rfl, rfl, rfl, rfl, rfl, rfl⟩

theorem anchorFirstFrame_sameCore (h : FrameHandler) (t : Int) :
    SameCore h (anchorFirstFrame h t) := by
  unfold anchorFirstFrame
  split <;> exact ⟨rfl, rfl, rfl, rfl, rfl, rfl, rfl, rfl, rfl⟩

/-- A call of `AddInputSample` that returns `S_FALSE` requests nothing and leaves the tables,
cursors and flags as they were. -/
theorem AddInputSample_rejected {env : Environment} {h h' : FrameHandler} {sample : MediaSample}
    {reqs : List Int} (hres : AddInputSample env h sample = .returned .S_FALSE h' reqs) :
    reqs = [] ∧ SameCore h h' := by
  unfold AddInputSample at hres
  split at hres
  · cases hres
  · split at hres
    · cases hres; exact ⟨rfl, SameCore.refl _⟩
    · simp only at hres
      split at hres
      · cases hres; exact ⟨rfl, SameCore.refl _⟩
      · split at hres
        · cases hres
          exact ⟨rfl, (anchorFirstFrame_sameCore _ _).trans (RefreshInputFrameRates_sameCore _ _ _ _)⟩
        · cases hres

/-- What the storing part of `AddInputSample` does to the tables and cursors. -/
theorem storeAndRequest_spec (env : Environment) (h : FrameHandler) (sample : MediaSample)
    (buffer : Nat) (startTime stopTime : Int)
    (hkeys : ∀ e ∈ h.outputSamples, e.1 < h.nextOutputFrameNb)
    (hsrc : ∀ e ∈ h.sourceFrames, e.1 < h.nextSourceFrameNb) :
    storeAndRequest env h sample buffer startTime stopTime =
      ({ h with
         sourceFrames := h.sourceFrames ++
           [(h.nextSourceFrameNb,
             { frame := createSourceFrame env buffer startTime stopTime, startTime := startTime,
               hdrSideData := sample.sideData })]
         outputSamples := h.outputSamples ++
           newSlots h.nextSourceFrameNb sample.sideData
             (intRange h.nextOutputFrameNb (max h.nextOutputFrameNb
               (llMulDiv h.nextSourceFrameNb env.sourceAvgFrameDuration
                 env.scriptAvgFrameDuration 0 + 1)))
         nextOutputFrameNb := max h.nextOutputFrameNb
           (llMulDiv h.nextSourceFrameNb env.sourceAvgFrameDuration
             env.scriptAvgFrameDuration 0 + 1)
         nextSourceFrameNb := h.nextSourceFrameNb + 1 },
       intRange h.nextOutputFrameNb (max h.nextOutputFrameNb
         (llMulDiv h.nextSourceFrameNb env.sourceAvgFrameDuration
           env.scriptAvgFrameDuration 0 + 1))) := by
  have key := requestLoop_spec
    (llMulDiv h.nextSourceFrameNb env.sourceAvgFrameDuration env.scriptAvgFrameDuration 0 + 1
      - h.nextOutputFrameNb).toNat
    { h with
      sourceFrames := OrdMap.emplace h.nextSourceFrameNb
        { frame := createSourceFrame env buffer startTime stopTime, startTime := startTime,
          hdrSideData := sample.sideData }
        h.sourceFrames }
    (llMulDiv h.nextSourceFrameNb env.sourceAvgFrameDuration env.scriptAvgFrameDuration 0)
    sample.sideData hkeys (le_refl _)
  simp only at key
  unfold storeAndRequest
  simp only
  rw [key, OrdMap.emplace_last _ _ _ hsrc]

/-- What an accepted call of `AddInputSample` does to the tables and cursors. -/
theorem AddInputSample_accepted {env : Environment} {h h' : FrameHandler} {sample : MediaSample}
    {reqs : List Int} (hres : AddInputSample env h sample = .returned .S_OK h' reqs)
    (hkeys : ∀ e ∈ h.outputSamples, e.1 < h.nextOutputFrameNb)
    (hsrc : ∀ e ∈ h.sourceFrames, e.1 < h.nextSourceFrameNb) :
    addInputSampleWait env h = true ∧ h.isFlushing = false ∧ h.isStopping = false ∧
    lastSampleStartTime h < inputSampleStartTime env h sample ∧
    (∃ fr, h'.sourceFrames = h.sourceFrames ++
      [(h.nextSourceFrameNb,
        { frame := fr, startTime := inputSampleStartTime env h sample,
          hdrSideData := sample.sideData })]) ∧
    reqs = intRange h.nextOutputFrameNb (max h.nextOutputFrameNb
      (llMulDiv h.nextSourceFrameNb env.sourceAvgFrameDuration env.scriptAvgFrameDuration 0 + 1)) ∧
    h'.outputSamples = h.outputSamples ++ newSlots h.nextSourceFrameNb sample.sideData reqs ∧
    h'.nextOutputFrameNb = max h.nextOutputFrameNb
      (llMulDiv h.nextSourceFrameNb env.sourceAvgFrameDuration env.scriptAvgFrameDuration 0 + 1) ∧
    h'.nextSourceFrameNb = h.nextSourceFrameNb + 1 ∧
    h'.nextOutputSourceFrameNb = h.nextOutputSourceFrameNb ∧
    h'.nextDeliveryFrameNb = h.nextDeliveryFrameNb ∧
    h'.isFlushing = h.isFlushing ∧ h'.isStopping = h.isStopping ∧
    h'.isWorkerLatched = h.isWorkerLatched := by
  unfold AddInputSample at hres
  split at hres
  · cases hres
  · rename_i hw
    split at hres
    · cases hres
    · rename_i hfs
      simp only at hres
      split at hres
      · cases hres
      · rename_i hlt
        split at hres
        · cases hres
        · rename_i buffer hptr
          simp only [Bool.not_eq_true, Bool.not_eq_false'] at hw
          simp only [Bool.or_eq_true, not_or, Bool.not_eq_true] at hfs
          have hsc : SameCore h (RefreshInputFrameRates env
              (anchorFirstFrame h (inputSampleStartTime env h sample))
              (anchorFirstFrame h (inputSampleStartTime env h sample)).nextSourceFrameNb
              (inputSampleStartTime env h sample)) :=
            (anchorFirstFrame_sameCore _ _).trans (RefreshInputFrameRates_sameCore _ _ _ _)
          rw [storeAndRequest_spec] at hres
          · injection hres with _ h1 h2
            subst h1; subst h2
            refine ⟨hw, hfs.1, hfs.2, by omega,
              ⟨createSourceFrame env buffer (inputSampleStartTime env h sample)
                (inputSampleStopTime sample), ?_⟩, ?_, ?_, ?_, ?_, ?_, ?_, ?_, ?_, ?_⟩ <;>
            simp only [hsc.sourceFrames, hsc.outputSamples, hsc.nextSourceFrameNb,
              hsc.nextOutputFrameNb, hsc.nextOutputSourceFrameNb, hsc.nextDeliveryFrameNb,
              hsc.isFlushing, hsc.isStopping, hsc.isWorkerLatched]
          · intro e he
            rw [hsc.outputSamples] at he
            rw [hsc.nextOutputFrameNb]
            exact hkeys e he
          · intro e he
            rw [hsc.sourceFrames] at he
            rw [hsc.nextSourceFrameNb]
            exact hsrc e he

theorem PrepareOutputSample_sameCore (env : Environment) (calls : DeliveryCalls)
    (h : FrameHandler) (frameNb : Int) (data : OutputSampleData) (fr : VSFrameRef) :
    SameCore h (PrepareOutputSample env calls h frameNb data fr).2.1 := by
  unfold PrepareOutputSample
  split
  · simp only
    split
    · exact SameCore.refl _
    · split
      · split <;> exact ⟨rfl, rfl, rfl, rfl, rfl, rfl, rfl, rfl, rfl⟩
      · split
        · split <;> exact ⟨rfl, rfl, rfl, rfl, rfl, rfl, rfl, rfl, rfl⟩
        · split
          · split <;> exact ⟨rfl, rfl, rfl, rfl, rfl, rfl, rfl, rfl, rfl⟩
          · split <;> exact ⟨rfl, rfl, rfl, rfl, rfl, rfl, rfl, rfl, rfl⟩
  · exact SameCore.refl _

theorem Inv_resetState : Inv resetState :=
  { notFlushing := rfl
    notLatched := rfl
    srcKeys := by simp [SynthFilter.resetState, OrdMap.keys, intRange]
    srcLo := by simp [SynthFilter.resetState]
    srcHi := by simp [SynthFilter.resetState]
    srcNonempty := by simp [SynthFilter.resetState]
    outKeys := by simp [SynthFilter.resetState, OrdMap.keys, intRange]
    outLo := by simp [SynthFilter.resetState]
    outHi := by simp [SynthFilter.resetState]
    slotSrc := by simp [SynthFilter.resetState]
    slotMono := by simp [SynthFilter.resetState]
    times := by simp [SynthFilter.resetState] }

theorem Inv.of_sameCore {h h' : FrameHandler} (hi : Inv h) (hs : SameCore h h') : Inv h' := by
  obtain ⟨a1, a2, a3, a4, a5, a6, a7, a8, a9⟩ := hs
  obtain ⟨b1, b2, b3, b4, b5, b6, b7, b8, b9, b10, b11, b12⟩ := hi
  constructor <;> simp only [a1, a2, a3, a4, a5, a6, a7, a8, a9] <;> assumption

theorem Inv.outKeys_lt {h : FrameHandler} (hi : Inv h) :
    ∀ e ∈ h.outputSamples, e.1 < h.nextOutputFrameNb := by
  intro e he
  have : e.1 ∈ OrdMap.keys h.outputSamples := List.mem_map_of_mem _ he
  rw [hi.outKeys, mem_intRange] at this
  exact this.2

theorem Inv.srcKeys_lt {h : FrameHandler} (hi : Inv h) :
    ∀ e ∈ h.sourceFrames, e.1 < h.nextSourceFrameNb := by
  intro e he
  have : e.1 ∈ OrdMap.keys h.sourceFrames := List.mem_map_of_mem _ he
  rw [hi.srcKeys, mem_intRange] at this
  exact this.2

theorem Inv.time_le_last {h : FrameHandler} (hi : Inv h) :
    ∀ e ∈ h.sourceFrames, e.2.startTime ≤ lastSampleStartTime h := by
  intro e he
  unfold lastSampleStartTime
  cases hl : h.sourceFrames.getLast? with
  | none =>
    rw [List.getLast?_eq_none_iff] at hl
    rw [hl] at he
    cases he
  | some x =>
    exact le_getLast_of_pairwise (fun e => e.2.startTime) _ hi.times e he x hl

theorem keys_newSlots (src : Int) (hdr : HDRSideData) (ns : List Int) :
    OrdMap.keys (newSlots src hdr ns) = ns := by
  simp [OrdMap.keys, newSlots, List.map_map, Function.comp_def]

theorem intRange_append {a b c : Int} (h1 : a ≤ b) (h2 : b ≤ c) :
    intRange a b ++ intRange b c = intRange a c := by
  apply sorted_ext _ (intRange_pairwise a c)
  · intro k
    simp only [List.mem_append, mem_intRange]
    omega
  · rw [List.pairwise_append]
    refine ⟨intRange_pairwise _ _, intRange_pairwise _ _, ?_⟩
    intro x hx y hy
    rw [mem_intRange] at hx hy
    omega

/-- An accepted call of `AddInputSample` keeps the invariant. -/
theorem Inv.accepted {env : Environment} {h h' : FrameHandler} {sample : MediaSample}
    {reqs : List Int} (hi : Inv h)
    (hres : AddInputSample env h sample = .returned .S_OK h' reqs) : Inv h' := by
  obtain ⟨-, -, -, hlt, ⟨fr, hsf⟩, hreq, hout, hno, hns, hnos, hnd, hfl, -, hwl⟩ :=
    AddInputSample_accepted hres hi.outKeys_lt hi.srcKeys_lt
  have hmax : h.nextOutputFrameNb ≤ h'.nextOutputFrameNb := by rw [hno]; exact le_max_left _ _
  rw [← hno] at hreq
  refine
    { notFlushing := by rw [hfl]; exact hi.notFlushing
      notLatched := by rw [hwl]; exact hi.notLatched
      srcKeys := ?_
      srcLo := by rw [hnos]; exact hi.srcLo
      srcHi := by rw [hnos, hns]; have := hi.srcHi; omega
      srcNonempty := by intro _; rw [hnos, hns]; have := hi.srcHi; omega
      outKeys := ?_
      outLo := by rw [hnd]; exact hi.outLo
      outHi := by rw [hnd]; have := hi.outHi; omega
      slotSrc := ?_
      slotMono := ?_
      times := ?_ }
  · rw [hsf, hnos, hns, intRange_succ_right hi.srcHi, ← hi.srcKeys]
    simp [OrdMap.keys]
  · rw [hout, hnd]
    unfold OrdMap.keys
    rw [List.map_append]
    change OrdMap.keys h.outputSamples ++ OrdMap.keys (newSlots _ _ _) = _
    rw [keys_newSlots, hi.outKeys, hreq]
    exact intRange_append hi.outHi hmax
  · intro e he
    rw [hout] at he
    rw [hnos, hns]
    rcases List.mem_append.1 he with h1 | h1
    · have := hi.slotSrc e h1; omega
    · simp only [newSlots, List.mem_map] at h1
      obtain ⟨n, -, rfl⟩ := h1
      have := hi.srcHi
      simp only
      omega
  · rw [hout, List.pairwise_append]
    refine ⟨hi.slotMono, ?_, ?_⟩
    · simp only [newSlots]
      rw [List.pairwise_map]
      exact List.pairwise_of_forall (fun _ _ => le_refl _)
    · intro a ha b hb
      simp only [newSlots, List.mem_map] at hb
      obtain ⟨n, -, rfl⟩ := hb
      have := hi.slotSrc a ha
      simp only
      omega
  · rw [hsf, List.pairwise_append]
    refine ⟨hi.times, List.pairwise_singleton _ _, ?_⟩
    intro a ha b hb
    rw [List.mem_singleton.1 hb]
    have := hi.time_le_last a ha
    simp only
    omega

/-- Outside a flush the callback leaves the source table, the cursors and the flags as they
were, and keeps the keys and the source indices of the slots. -/
theorem Inv.callback {h h' : FrameHandler} {f : Option VSFrameRef} {n : Int} (hi : Inv h)
    (hres : VpsGetFrameCallback h f n = some h') :
    Inv h' ∧ h'.sourceFrames = h.sourceFrames ∧ h'.nextSourceFrameNb = h.nextSourceFrameNb ∧
      h'.nextOutputFrameNb = h.nextOutputFrameNb ∧
      h'.nextDeliveryFrameNb = h.nextDeliveryFrameNb := by
  unfold VpsGetFrameCallback at hres
  split at hres
  · cases hres
    exact ⟨hi, rfl, rfl, rfl, rfl⟩
  · rename_i fr
    split at hres
    · rename_i hf
      rw [hi.notFlushing] at hf
      cases hf
    split at hres
    · cases hres
    · cases hres
      refine ⟨?_, rfl, rfl, rfl, rfl⟩
      refine
        { notFlushing := hi.notFlushing
          notLatched := hi.notLatched
          srcKeys := hi.srcKeys
          srcLo := hi.srcLo
          srcHi := hi.srcHi
          srcNonempty := hi.srcNonempty
          outKeys := ?_
          outLo := hi.outLo
          outHi := hi.outHi
          slotSrc := ?_
          slotMono := ?_
          times := hi.times }
      · simp only [OrdMap.keys_modify]
        exact hi.outKeys
      · intro e he
        obtain ⟨e0, h0, -, h2⟩ := OrdMap.modify_mem he
        have := hi.slotSrc e0 h0
        rcases h2 with h2 | h2 <;> rw [h2] <;> exact this
      · exact OrdMap.modify_pairwise (fun (a b : OutputSampleData) => a.sourceFrameNb ≤ b.sourceFrameNb)
          (fun a => ⟨le_refl _, le_refl _⟩) (fun a b c h1 h2 => le_trans h1 h2) hi.slotMono

/-- What a worker pass that processes a slot does to the tables and cursors. -/
theorem WorkerProc_processed {env : Environment} {calls : DeliveryCalls} {h h' : FrameHandler}
    {K S : Int} {d : Option OutputMediaSample} (hi : Inv h)
    (hres : WorkerProc env calls h = .processed h' K S d) :
    K = h.nextDeliveryFrameNb ∧
    (∃ data rest, h.outputSamples = (K, data) :: rest ∧ data.sourceFrameNb = S ∧
      data.frame.isSome = true ∧ h'.outputSamples = rest) ∧
    h'.sourceFrames = h.sourceFrames.filter (fun e => decide (S ≤ e.1)) ∧
    h'.nextDeliveryFrameNb = K + 1 ∧ h'.nextOutputSourceFrameNb = S ∧
    h'.nextSourceFrameNb = h.nextSourceFrameNb ∧ h'.nextOutputFrameNb = h.nextOutputFrameNb ∧
    h'.isFlushing = h.isFlushing ∧ h'.isStopping = h.isStopping ∧
    h'.isWorkerLatched = h.isWorkerLatched := by
  unfold WorkerProc at hres
  split at hres
  · rename_i hf
    rw [hi.notLatched] at hf
    cases hf
  split at hres
  · cases hres
  split at hres
  · cases hres
  · rename_i data hfind
    split at hres
    · cases hres
    · rename_i fr hfr
      have hsc := PrepareOutputSample_sameCore env calls
        { h with nextOutputSourceFrameNb := data.sourceFrameNb } h.nextDeliveryFrameNb data fr
      simp only [GarbageCollect] at hres
      injection hres with h1 h2 h3 h4
      subst h1 h2 h3
      -- the slot found is the head of the table
      have hmem := OrdMap.find_mem hfind
      have hk : h.nextDeliveryFrameNb < h.nextOutputFrameNb := by
        have : h.nextDeliveryFrameNb ∈ OrdMap.keys h.outputSamples := List.mem_map_of_mem _ hmem
        rw [hi.outKeys, mem_intRange] at this
        exact this.2
      have hkeys := hi.outKeys
      rw [intRange_succ_left hk] at hkeys
      obtain ⟨e0, rest, hcons⟩ : ∃ e0 rest, h.outputSamples = e0 :: rest := by
        cases hl : h.outputSamples with
        | nil => rw [hl] at hmem; cases hmem
        | cons a l => exact ⟨a, l, rfl⟩
      rw [hcons] at hkeys hfind
      simp only [OrdMap.keys, List.map_cons, List.cons.injEq] at hkeys
      obtain ⟨k0, v0⟩ := e0
      simp only at hkeys
      simp only [OrdMap.find, hkeys.1, if_true, Option.some.injEq] at hfind
      subst hfind
      have hk0 := hkeys.1
      subst hk0
      have herase : OrdMap.erase h.nextDeliveryFrameNb h.outputSamples = rest := by
        rw [hcons]; simp [OrdMap.erase]
      have hsrcSorted : (OrdMap.keys h.sourceFrames).Pairwise (· < ·) := by
        rw [hi.srcKeys]; exact intRange_pairwise _ _
      refine ⟨rfl, ⟨v0, rest, hcons, rfl, by rw [hfr]; rfl, ?_⟩, ?_, ?_, ?_, ?_, ?_, ?_, ?_, ?_⟩
      · simp only [hsc.outputSamples, herase]
      · simp only [hsc.sourceFrames, hsc.nextOutputSourceFrameNb]
        rw [garbageCollectLoop_eq_filter _ _ hsrcSorted]
        congr 1
        funext e
        congr 1
        apply propext
        omega
      · simp only [hsc.nextDeliveryFrameNb]
      · simp only [hsc.nextOutputSourceFrameNb]
      · simp only [hsc.nextSourceFrameNb]
      · simp only [hsc.nextOutputFrameNb]
      · simp only [hsc.isFlushing]
      · simp only [hsc.isStopping]
      · simp only [hsc.isWorkerLatched]

/-- A worker pass that processes a slot keeps the invariant. -/
theorem Inv.processed {env : Environment} {calls : DeliveryCalls} {h h' : FrameHandler}
    {K S : Int} {d : Option OutputMediaSample} (hi : Inv h)
    (hres : WorkerProc env calls h = .processed h' K S d) : Inv h' := by
  obtain ⟨hK, ⟨data, rest, hcons, hS, -, hout⟩, hsf, hnd, hnos, hns, hno, hfl, -, hwl⟩ :=
    WorkerProc_processed hi hres
  have hmem : (K, data) ∈ h.outputSamples := by rw [hcons]; exact List.mem_cons_self _ _
  have hSb := hi.slotSrc _ hmem
  simp only [hS] at hSb
  have hKlt : K < h.nextOutputFrameNb := hi.outKeys_lt _ hmem
  have hmono := hi.slotMono
  rw [hcons, List.pairwise_cons] at hmono
  have hkeys := hi.outKeys
  rw [hcons, ← hK, intRange_succ_left hKlt] at hkeys
  simp only [OrdMap.keys, List.map_cons, List.cons.injEq] at hkeys
  refine
    { notFlushing := by rw [hfl]; exact hi.notFlushing
      notLatched := by rw [hwl]; exact hi.notLatched
      srcKeys := ?_
      srcLo := by rw [hnos]; have := hi.srcLo; omega
      srcHi := by rw [hnos, hns]; omega
      srcNonempty := by intro _; rw [hnos, hns]; omega
      outKeys := ?_
      outLo := by rw [hnd]; have := hi.outLo; omega
      outHi := by rw [hnd, hno]; omega
      slotSrc := ?_
      slotMono := ?_
      times := ?_ }
  · rw [hsf, hnos, hns]
    exact keys_filter_intRange _ _ _ _ hi.srcKeys hSb.1
  · rw [hout, hnd, hno]
    exact hkeys.2
  · intro e he
    rw [hout] at he
    rw [hnos, hns]
    have h1 := hmono.1 e he
    have h2 := hi.slotSrc e (by rw [hcons]; exact List.mem_cons_of_mem _ he)
    simp only [hS] at h1
    omega
  · rw [hout]; exact hmono.2
  · rw [hsf]; exact hi.times.filter _

theorem acceptedOf_append (a b : List Obs) : acceptedOf (a ++ b) = acceptedOf a ++ acceptedOf b := by
  induction a with
  | nil => rfl
  | cons o rest ih => cases o <;> simp [acceptedOf, ih]

theorem requestsOf_append (a b : List Obs) : requestsOf (a ++ b) = requestsOf a ++ requestsOf b := by
  induction a with
  | nil => rfl
  | cons o rest ih => cases o <;> simp [requestsOf, ih]

theorem processedOf_append (a b : List Obs) :
    processedOf (a ++ b) = processedOf a ++ processedOf b := by
  induction a with
  | nil => rfl
  | cons o rest ih => cases o <;> simp [processedOf, ih]

/-- Under the invariant the worker either stays blocked or processes a slot. -/
theorem WorkerProc_cases (env : Environment) (calls : DeliveryCalls) {h : FrameHandler}
    (hi : Inv h) :
    WorkerProc env calls h = .blocked ∨
      ∃ h' K S d, WorkerProc env calls h = .processed h' K S d := by
  unfold WorkerProc
  rw [hi.notLatched, hi.notFlushing]
  simp only [Bool.false_eq_true, if_false]
  split
  · exact Or.inl rfl
  · split
    · exact Or.inl rfl
    · exact Or.inr ⟨_, _, _, _, rfl⟩

/-- The forms a call other than a flush call can take in a state with the invariant. -/
theorem step_cases {env : Environment} {h h' : FrameHandler} {e : Event} {obs : List Obs}
    (hi : Inv h) (he : e.isFlush = false) (hres : step env h e = some (h', obs)) :
    (obs = [] ∧ h'.sourceFrames = h.sourceFrames ∧ h'.nextSourceFrameNb = h.nextSourceFrameNb ∧
        h'.nextOutputFrameNb = h.nextOutputFrameNb ∧
        h'.nextDeliveryFrameNb = h.nextDeliveryFrameNb ∧ Inv h') ∨
    (obs = [.rejected] ∧ SameCore h h') ∨
    (∃ sample reqs, obs = [.accepted h.nextSourceFrameNb (inputSampleStartTime env h sample) reqs] ∧
        AddInputSample env h sample = .returned .S_OK h' reqs) ∨
    (∃ calls K S d, obs = [.processed K S d] ∧
        WorkerProc env calls h = .processed h' K S d) := by
  cases e with
  | addInputSample sample =>
    simp only [step] at hres
    split at hres
    · cases hres
      exact Or.inl ⟨rfl, rfl, rfl, rfl, rfl, hi⟩
    · rename_i h1 reqs hr
      cases hres
      exact Or.inr (Or.inl ⟨rfl, (AddInputSample_rejected hr).2⟩)
    · rename_i h1 reqs hr
      cases hres
      exact Or.inr (Or.inr (Or.inl ⟨sample, reqs, rfl, hr⟩))
  | vpsGetFrameCallback f n =>
    simp only [step] at hres
    split at hres
    · cases hres
    · rename_i h1 hr
      cases hres
      obtain ⟨a, b, c, d, e⟩ := hi.callback hr
      exact Or.inl ⟨rfl, b, c, d, e, a⟩
  | worker calls =>
    simp only [step] at hres
    rcases WorkerProc_cases env calls hi with hw | ⟨h1, K, S, d, hw⟩
    · rw [hw] at hres
      cases hres
      exact Or.inl ⟨rfl, rfl, rfl, rfl, rfl, hi⟩
    · rw [hw] at hres
      cases hres
      exact Or.inr (Or.inr (Or.inr ⟨calls, K, S, d, rfl, hw⟩))
  | beginFlush => cases he
  | endFlush => cases he

theorem step_inv {env : Environment} {h h' : FrameHandler} {e : Event} {obs : List Obs}
    (hi : Inv h) (he : e.isFlush = false) (hres : step env h e = some (h', obs)) : Inv h' := by
  rcases step_cases hi he hres with ⟨-, -, -, -, -, h1⟩ | ⟨-, h1⟩ | ⟨_, _, -, h1⟩ | ⟨_, _, _, _, -, h1⟩
  · exact h1
  · exact hi.of_sameCore h1
  · exact hi.accepted h1
  · exact hi.processed h1

/-- Induction along a schedule without flush calls: a property of state and log that every
call keeps holds at the end of the schedule. -/
theorem run_preserves (env : Environment) (P : FrameHandler → List Obs → Prop)
    (hP : ∀ h log e h' obs, Inv h → P h log → e.isFlush = false →
      step env h e = some (h', obs) → P h' (log ++ obs)) :
    ∀ (evs : List Event) (h : FrameHandler) (log : List Obs) (h' : FrameHandler)
      (obs : List Obs), Inv h → P h log → (∀ e ∈ evs, e.isFlush = false) →
      run env h evs = some (h', obs) → Inv h' ∧ P h' (log ++ obs) := by
  intro evs
  induction evs with
  | nil =>
    intro h log h' obs hi hp _ hres
    simp only [run, Option.some.injEq, Prod.mk.injEq] at hres
    obtain ⟨rfl, rfl⟩ := hres
    simpa using ⟨hi, hp⟩
  | cons e es ih =>
    intro h log h' obs hi hp hev hres
    simp only [run] at hres
    split at hres
    · cases hres
    · rename_i h1 o1 hs
      split at hres
      · cases hres
      · rename_i h2 o2 hr
        cases hres
        have he := hev e (List.mem_cons_self _ _)
        have := ih h1 (log ++ o1) _ o2 (step_inv hi he hs) (hP h log e h1 o1 hi hp he hs)
          (fun e' he' => hev e' (List.mem_cons_of_mem _ he')) hr
        rwa [List.append_assoc] at this

theorem LogInv_resetState : LogInv resetState [] :=
  { accIdx := by simp [acceptedOf, SynthFilter.resetState, intRange]
    accTimes := by simp [acceptedOf]
    accLast := by simp [acceptedOf]
    requests := by simp [requestsOf, SynthFilter.resetState, intRange]
    processed := by simp [processedOf, SynthFilter.resetState, intRange] }

theorem lastSampleStartTime_congr {h h' : FrameHandler} (hs : h'.sourceFrames = h.sourceFrames) :
    lastSampleStartTime h' = lastSampleStartTime h := by
  simp [lastSampleStartTime, hs]

/-- Garbage collection below a buffered index keeps the last entry of the source table. -/
theorem lastSampleStartTime_filter {h h' : FrameHandler} {S : Int} (hi : Inv h)
    (hS : h.nextOutputSourceFrameNb ≤ S ∧ S < h.nextSourceFrameNb)
    (hs : h'.sourceFrames = h.sourceFrames.filter (fun e => decide (S ≤ e.1))) :
    lastSampleStartTime h' = lastSampleStartTime h := by
  have hmemS : S ∈ OrdMap.keys h.sourceFrames := by rw [hi.srcKeys, mem_intRange]; exact hS
  obtain ⟨eS, heS, hk⟩ := List.mem_map.1 hmemS
  cases hl : h.sourceFrames.getLast? with
  | none =>
    rw [List.getLast?_eq_none_iff] at hl
    rw [hl] at heS
    cases heS
  | some x =>
    have hsorted : h.sourceFrames.Pairwise (fun a b => a.1 < b.1) := by
      have := intRange_pairwise h.nextOutputSourceFrameNb h.nextSourceFrameNb
      rw [← hi.srcKeys] at this
      exact List.pairwise_map.1 this
    have hle := le_getLast_of_pairwise (fun e => e.1) _ hsorted eS heS x hl
    simp only [hk] at hle
    have := getLast?_filter_of_mem (fun e => decide (S ≤ e.1)) _ x hl (by simpa using hle)
    simp [lastSampleStartTime, hs, this, hl]

theorem step_logInv (env : Environment) (h : FrameHandler) (log : List Obs) (e : Event)
    (h' : FrameHandler) (obs : List Obs) (hi : Inv h) (hl : LogInv h log)
    (he : e.isFlush = false) (hres : step env h e = some (h', obs)) :
    LogInv h' (log ++ obs) := by
  rcases step_cases hi he hres with ⟨rfl, h1, h2, h3, h4, -⟩ | ⟨rfl, hs⟩ |
    ⟨sample, reqs, rfl, hr⟩ | ⟨calls, K, S, d, rfl, hr⟩
  · rw [List.append_nil]
    exact
      { accIdx := by rw [h2]; exact hl.accIdx
        accTimes := hl.accTimes
        accLast := by rw [lastSampleStartTime_congr h1]; exact hl.accLast
        requests := by rw [h3]; exact hl.requests
        processed := by rw [h4]; exact hl.processed }
  · exact
      { accIdx := by
          rw [acceptedOf_append, hs.nextSourceFrameNb]; simpa [acceptedOf] using hl.accIdx
        accTimes := by rw [acceptedOf_append]; simpa [acceptedOf] using hl.accTimes
        accLast := by
          rw [acceptedOf_append, lastSampleStartTime_congr hs.sourceFrames]
          simpa [acceptedOf] using hl.accLast
        requests := by
          rw [requestsOf_append, hs.nextOutputFrameNb]; simpa [requestsOf] using hl.requests
        processed := by
          rw [processedOf_append, hs.nextDeliveryFrameNb]
          simpa [processedOf] using hl.processed }
  · obtain ⟨-, -, -, hlt, ⟨fr, hsf⟩, hreq, -, hno, hns, -, hnd, -, -, -⟩ :=
      AddInputSample_accepted hr hi.outKeys_lt hi.srcKeys_lt
    have hge : 0 ≤ h.nextSourceFrameNb := le_trans hi.srcLo hi.srcHi
    have hlast : lastSampleStartTime h' = inputSampleStartTime env h sample := by
      rw [lastSampleStartTime_append h' _ _ hsf]
    exact
      { accIdx := by
          rw [acceptedOf_append, hns, intRange_succ_right hge, List.map_append, hl.accIdx]
          simp [acceptedOf]
        accTimes := by
          rw [acceptedOf_append, List.pairwise_append]
          refine ⟨hl.accTimes, by simp [acceptedOf], ?_⟩
          intro a ha b hb
          simp only [acceptedOf, List.mem_singleton] at hb
          rw [hb]
          have := hl.accLast a ha
          simp only
          omega
        accLast := by
          intro a ha
          rw [acceptedOf_append] at ha
          rw [hlast]
          rcases List.mem_append.1 ha with h1 | h1
          · have := hl.accLast a h1; omega
          · simp only [acceptedOf, List.mem_singleton] at h1
            rw [h1]
        requests := by
          rw [requestsOf_append, hl.requests, hno]
          simp only [requestsOf, List.append_nil]
          rw [hreq]
          exact intRange_append (le_trans hi.outLo hi.outHi) (le_max_left _ _)
        processed := by
          rw [processedOf_append, hnd]; simpa [processedOf] using hl.processed }
  · obtain ⟨hK, ⟨data, rest, hcons, hS, -, -⟩, hsf, hnd, -, hns, hno, -, -, -⟩ :=
      WorkerProc_processed hi hr
    have hmem : (K, data) ∈ h.outputSamples := by rw [hcons]; exact List.mem_cons_self _ _
    have hSb := hi.slotSrc _ hmem
    simp only [hS] at hSb
    exact
      { accIdx := by rw [acceptedOf_append, hns]; simpa [acceptedOf] using hl.accIdx
        accTimes := by rw [acceptedOf_append]; simpa [acceptedOf] using hl.accTimes
        accLast := by
          rw [acceptedOf_append, lastSampleStartTime_filter hi hSb hsf]
          simpa [acceptedOf] using hl.accLast
        requests := by rw [requestsOf_append, hno]; simpa [requestsOf] using hl.requests
        processed := by
          rw [processedOf_append, hl.processed, hnd, hK, intRange_succ_right hi.outLo]
          simp [processedOf] }

/-- Every schedule without flush calls from the reset state ends in a state with the
invariant, and its log is in step with the cursors. -/
theorem run_inv {env : Environment} {evs : List Event} {h : FrameHandler} {log : List Obs}
    (hev : ∀ e ∈ evs, e.isFlush = false) (hres : run env resetState evs = some (h, log)) :
    Inv h ∧ LogInv h log := by
  have := run_preserves env LogInv (step_logInv env) evs resetState [] h log Inv_resetState
    LogInv_resetState hev hres
  simpa using this

/-- A submission whose start time does not exceed the start time of the last buffered frame
returns `S_FALSE` with the handler untouched, once it gets past its wait. -/
theorem AddInputSample_backward (env : Environment) (h : FrameHandler) (sample : MediaSample)
    (hw : addInputSampleWait env h = true)
    (hle : inputSampleStartTime env h sample ≤ lastSampleStartTime h) :
    AddInputSample env h sample = .returned .S_FALSE h [] := by
  unfold AddInputSample
  simp only [hw, Bool.not_true, Bool.false_eq_true, if_false, hle, if_true, ite_self]

/-- C1: along every schedule of submissions, completions and worker passes from the reset
state (no flush), the accepted frames carry the source indices 0, 1, 2, ... in order and
strictly increasing start times, and in the state reached every submission whose start time
is not greater than that of the last accepted frame returns `S_FALSE` with the handler (source
table and next source index included) unchanged, as soon as it gets past its wait. -/
theorem accepted_start_times_increase (env : Environment) (evs : List Event)
    (h : FrameHandler) (log : List Obs) (hev : ∀ e ∈ evs, e.isFlush = false)
    (hres : run env resetState evs = some (h, log)) :
    (acceptedOf log).map Prod.fst = intRange 0 h.nextSourceFrameNb ∧
    (acceptedOf log).Pairwise (fun a b => a.1 < b.1 ∧ a.2 < b.2) ∧
    ∀ sample : MediaSample, ∀ last ∈ (acceptedOf log).getLast?,
      inputSampleStartTime env h sample ≤ last.2 → addInputSampleWait env h = true →
      AddInputSample env h sample = .returned .S_FALSE h [] := by
  obtain ⟨hi, hl⟩ := run_inv hev hres
  refine ⟨hl.accIdx, ?_, ?_⟩
  · have h1 : (acceptedOf log).Pairwise (fun a b => a.1 < b.1) := by
      have := intRange_pairwise 0 h.nextSourceFrameNb
      rw [← hl.accIdx] at this
      exact List.pairwise_map.1 this
    exact h1.and hl.accTimes
  · intro sample last hlast hle hw
    have hmem : last ∈ acceptedOf log := List.mem_of_mem_getLast? hlast
    exact AddInputSample_backward env h sample hw (le_trans hle (hl.accLast last hmem))

theorem accepted_start_times_increase_witness :
    ∃ h log, run envW resetState scheduleC1 = some (h, log) ∧
      acceptedOf log = [(0, 10), (1, 20)] ∧
      AddInputSample envW h (sampleAt 20) = .returned .S_FALSE h [] := by
  refine ⟨_, _, rfl, rfl, ?_⟩
  exact (accepted_start_times_increase envW scheduleC1 _ _ (by decide) rfl).2.2
    (sampleAt 20) (1, 20) rfl (by decide) (by decide)

/-- C4: in every state reached from the reset state by submissions, completions and worker
passes (no flush), the indices handed to `getFrameAsync` so far are exactly
0, 1, ..., nextOutputFrameNb - 1 in this order (so strictly increasing, none twice), and the
keys of the slot table are strictly increasing (one slot per index at most), all below
`_nextOutputFrameNb` and not below `_nextDeliveryFrameNb`. -/
theorem output_indices_dense (env : Environment) (evs : List Event) (h : FrameHandler)
    (log : List Obs) (hev : ∀ e ∈ evs, e.isFlush = false)
    (hres : run env resetState evs = some (h, log)) :
    requestsOf log = intRange 0 h.nextOutputFrameNb ∧
    (requestsOf log).Pairwise (· < ·) ∧ (requestsOf log).Nodup ∧
    (OrdMap.keys h.outputSamples).Pairwise (· < ·) ∧ (OrdMap.keys h.outputSamples).Nodup ∧
    ∀ k ∈ OrdMap.keys h.outputSamples, h.nextDeliveryFrameNb ≤ k ∧ k < h.nextOutputFrameNb := by
  obtain ⟨hi, hl⟩ := run_inv hev hres
  have h1 : (requestsOf log).Pairwise (· < ·) := by
    rw [hl.requests]; exact intRange_pairwise _ _
  have h2 : (OrdMap.keys h.outputSamples).Pairwise (· < ·) := by
    rw [hi.outKeys]; exact intRange_pairwise _ _
  refine ⟨hl.requests, h1, h1.imp (fun hab => ne_of_lt hab), h2,
    h2.imp (fun hab => ne_of_lt hab), ?_⟩
  intro k hk
  rw [hi.outKeys, mem_intRange] at hk
  exact hk

theorem output_indices_dense_witness :
    ∃ h log, run envW resetState scheduleC4 = some (h, log) ∧
      requestsOf log = [0, 1, 2] ∧ h.nextOutputFrameNb = 3 ∧ h.nextDeliveryFrameNb = 1 ∧
      OrdMap.keys h.outputSamples = [1, 2] ∧
      requestsOf log = intRange 0 h.nextOutputFrameNb := by
  refine ⟨_, _, rfl, rfl, rfl, rfl, rfl, ?_⟩
  exact (output_indices_dense envW scheduleC4 _ _ (by decide) rfl).1

/-- C6: in every state reached from the reset state by submissions, completions and worker
passes (no flush), every slot of the slot table refers to a source index that is present in
the source table. -/
theorem slots_refer_to_buffered_sources (env : Environment) (evs : List Event)
    (h : FrameHandler) (log : List Obs) (hev : ∀ e ∈ evs, e.isFlush = false)
    (hres : run env resetState evs = some (h, log)) :
    ∀ e ∈ h.outputSamples, (OrdMap.find e.2.sourceFrameNb h.sourceFrames).isSome = true := by
  obtain ⟨hi, -⟩ := run_inv hev hres
  intro e he
  rw [OrdMap.find_isSome_iff, hi.srcKeys, mem_intRange]
  exact hi.slotSrc e he

theorem slots_refer_to_buffered_sources_witness :
    ∃ h log, run envW resetState scheduleC6 = some (h, log) ∧
      OrdMap.keys h.sourceFrames = [1, 2] ∧
      h.outputSamples.map (fun e => (e.1, e.2.sourceFrameNb)) = [(2, 2)] ∧
      ∀ e ∈ h.outputSamples, (OrdMap.find e.2.sourceFrameNb h.sourceFrames).isSome = true := by
  refine ⟨_, _, rfl, rfl, rfl, ?_⟩
  exact slots_refer_to_buffered_sources envW scheduleC6 _ _ (by decide) rfl

theorem llMulDiv_eq_ediv {a b c : Int} (ha : 0 ≤ a) (hb : 0 ≤ b) (hc : 0 ≤ c) :
    llMulDiv a b c 0 = a * b / c := by
  unfold llMulDiv
  rw [add_zero, Int.tdiv_eq_ediv (Int.mul_nonneg ha hb) hc]

theorem llMulDiv_mono (a a' : Int) {b c : Int} (ha : 0 ≤ a) (haa : a ≤ a') (hb : 0 ≤ b) (hc : 0 < c) :
    llMulDiv a b c 0 ≤ llMulDiv a' b c 0 := by
  rw [llMulDiv_eq_ediv ha hb (le_of_lt hc), llMulDiv_eq_ediv (le_trans ha haa) hb (le_of_lt hc)]
  exact Int.ediv_le_ediv hc (Int.mul_le_mul_of_nonneg_right haa hb)

theorem step_dispatchCount (env : Environment) (ha : 0 < env.sourceAvgFrameDuration)
    (hb : 0 < env.scriptAvgFrameDuration) (h : FrameHandler) (_log : List Obs) (e : Event)
    (h' : FrameHandler) (obs : List Obs) (hi : Inv h)
    (hp : h.nextOutputFrameNb = dispatchCount env h.nextSourceFrameNb)
    (he : e.isFlush = false) (hres : step env h e = some (h', obs)) :
    h'.nextOutputFrameNb = dispatchCount env h'.nextSourceFrameNb := by
  rcases step_cases hi he hres with ⟨-, -, h2, h3, -, -⟩ | ⟨-, hs⟩ |
    ⟨sample, reqs, -, hr⟩ | ⟨calls, K, S, d, -, hr⟩
  · rw [h2, h3]; exact hp
  · rw [hs.nextSourceFrameNb, hs.nextOutputFrameNb]; exact hp
  · obtain ⟨-, -, -, -, -, -, -, hno, hns, -, -, -, -, -⟩ :=
      AddInputSample_accepted hr hi.outKeys_lt hi.srcKeys_lt
    have hge : 0 ≤ h.nextSourceFrameNb := le_trans hi.srcLo hi.srcHi
    rw [hno, hns, hp]
    have h1 : dispatchCount env (h.nextSourceFrameNb + 1) =
        llMulDiv h.nextSourceFrameNb env.sourceAvgFrameDuration env.scriptAvgFrameDuration 0
          + 1 := by
      unfold dispatchCount
      rw [if_neg (by omega)]
      congr 2
      omega
    rw [h1]
    apply max_eq_right
    unfold dispatchCount
    split
    · have := llMulDiv_mono 0 h.nextSourceFrameNb (le_refl 0) hge (le_of_lt ha) hb
      have h0 : llMulDiv 0 env.sourceAvgFrameDuration env.scriptAvgFrameDuration 0 = 0 := by
        simp [llMulDiv]
      omega
    · have := llMulDiv_mono (h.nextSourceFrameNb - 1) h.nextSourceFrameNb
        (by omega) (by omega) (le_of_lt ha) hb
      omega
  · obtain ⟨-, -, -, -, -, hns, hno, -, -, -⟩ := WorkerProc_processed hi hr
    rw [hns, hno]; exact hp

theorem acceptedOf_length {h : FrameHandler} {log : List Obs} (hi : Inv h) (hl : LogInv h log) :
    ((acceptedOf log).length : Int) = h.nextSourceFrameNb := by
  have := congrArg List.length hl.accIdx
  rw [List.length_map, intRange_length] at this
  rw [this]
  have hge : 0 ≤ h.nextSourceFrameNb := le_trans hi.srcLo hi.srcHi
  omega

/-- C2, as the code has it: for positive average frame durations, after `N` accepted
submissions from the reset state (with completions and worker passes in between, no flush)
the next output index is 0 when `N = 0` and `floor((N - 1) * source / script) + 1` otherwise,
and the indices handed to `getFrameAsync` are exactly those below it, each once, in order. -/
theorem dispatch_count_after_accepted (env : Environment) (evs : List Event)
    (h : FrameHandler) (log : List Obs) (ha : 0 < env.sourceAvgFrameDuration)
    (hb : 0 < env.scriptAvgFrameDuration) (hev : ∀ e ∈ evs, e.isFlush = false)
    (hres : run env resetState evs = some (h, log)) :
    h.nextOutputFrameNb =
      (if (acceptedOf log).length = 0 then 0
       else (((acceptedOf log).length : Int) - 1) * env.sourceAvgFrameDuration
         / env.scriptAvgFrameDuration + 1) ∧
    requestsOf log = intRange 0 h.nextOutputFrameNb ∧ (requestsOf log).Nodup := by
  obtain ⟨hi, hl⟩ := run_inv hev hres
  have hp := (run_preserves env (fun h _ => h.nextOutputFrameNb = dispatchCount env h.nextSourceFrameNb)
    (step_dispatchCount env ha hb) evs resetState [] h log Inv_resetState
    (by simp [resetState, dispatchCount]) hev hres).2
  have hlen := acceptedOf_length hi hl
  have hge : 0 ≤ h.nextSourceFrameNb := le_trans hi.srcLo hi.srcHi
  refine ⟨?_, hl.requests, ?_⟩
  · simp only at hp
    rw [hp]
    unfold dispatchCount
    by_cases h0 : (acceptedOf log).length = 0
    · have : h.nextSourceFrameNb = 0 := by rw [← hlen, h0]; rfl
      simp [h0, this]
    · have hpos : 0 < h.nextSourceFrameNb := by omega
      rw [if_neg h0, if_neg (by omega), hlen,
        llMulDiv_eq_ediv (by omega) (le_of_lt ha) (le_of_lt hb)]
  · have h1 : (requestsOf log).Pairwise (· < ·) := by
      rw [hl.requests]; exact intRange_pairwise _ _
    exact h1.imp (fun hab => ne_of_lt hab)

theorem dispatch_count_after_accepted_witness :
    ∃ h log, run env21 resetState scheduleC2 = some (h, log) ∧
      (acceptedOf log).length = 3 ∧
      h.nextOutputFrameNb = ((3 : Int) - 1) * 2 / 1 + 1 ∧
      requestsOf log = intRange 0 h.nextOutputFrameNb := by
  refine ⟨_, _, rfl, rfl, ?_, ?_⟩
  · exact (dispatch_count_after_accepted env21 scheduleC2 _ _ (by decide) (by decide)
      (by decide) rfl).1
  · exact (dispatch_count_after_accepted env21 scheduleC2 _ _ (by decide) (by decide)
      (by decide) rfl).2.1

/-- C2 as stated fails on its own example: three accepted frames at twice the script duration
get the five output indices 0..4 requested, not `ceil(3 * 2 / 1) = 6`. -/
theorem dispatch_count_is_not_ceil :
    ∃ h log, run env21 resetState scheduleC2 = some (h, log) ∧
      acceptedOf log = [(0, 10), (1, 20), (2, 30)] ∧
      h.nextOutputFrameNb = 5 ∧ requestsOf log = [0, 1, 2, 3, 4] ∧
      specDispatchCount env21 3 = 6 :=
  ⟨_, _, rfl, rfl, rfl, rfl, rfl⟩

theorem step_oneToOne (env : Environment)
    (hab : env.sourceAvgFrameDuration = env.scriptAvgFrameDuration)
    (hb : 0 < env.scriptAvgFrameDuration) (h : FrameHandler) (log : List Obs) (e : Event)
    (h' : FrameHandler) (obs : List Obs) (hi : Inv h) (hp : OneToOne h log)
    (he : e.isFlush = false) (hres : step env h e = some (h', obs)) :
    OneToOne h' (log ++ obs) := by
  rcases step_cases hi he hres with ⟨rfl, -, h2, h3, -, -⟩ | ⟨rfl, hs⟩ |
    ⟨sample, reqs, rfl, hr⟩ | ⟨calls, K, S, d, rfl, hr⟩
  · rw [List.append_nil]
    exact ⟨by rw [h2, h3]; exact hp.1, hp.2⟩
  · refine ⟨by rw [hs.nextSourceFrameNb, hs.nextOutputFrameNb]; exact hp.1, ?_⟩
    intro k t reqs hm
    rcases List.mem_append.1 hm with h1 | h1
    · exact hp.2 k t reqs h1
    · simp at h1
  · obtain ⟨-, -, -, -, -, hreq, -, hno, hns, -, -, -, -, -⟩ :=
      AddInputSample_accepted hr hi.outKeys_lt hi.srcKeys_lt
    have hmd : llMulDiv h.nextSourceFrameNb env.sourceAvgFrameDuration
        env.scriptAvgFrameDuration 0 = h.nextSourceFrameNb := by
      unfold llMulDiv
      rw [hab, add_zero]
      exact Int.mul_tdiv_cancel _ (ne_of_gt hb)
    rw [hmd, hp.1] at hno hreq
    have hmax : max h.nextSourceFrameNb (h.nextSourceFrameNb + 1) = h.nextSourceFrameNb + 1 :=
      max_eq_right (by omega)
    rw [hmax] at hno hreq
    refine ⟨by rw [hno, hns], ?_⟩
    intro k t reqs' hm
    rcases List.mem_append.1 hm with h1 | h1
    · exact hp.2 k t reqs' h1
    · simp only [List.mem_singleton, Obs.accepted.injEq] at h1
      obtain ⟨rfl, -, rfl⟩ := h1
      rw [hreq, intRange_succ_left (by omega), intRange_of_le (le_refl _)]
  · obtain ⟨-, -, -, -, -, hns, hno, -, -, -⟩ := WorkerProc_processed hi hr
    refine ⟨by rw [hns, hno]; exact hp.1, ?_⟩
    intro k t reqs hm
    rcases List.mem_append.1 hm with h1 | h1
    · exact hp.2 k t reqs h1
    · simp at h1

/-- C3: with equal positive average frame durations, after `N` accepted submissions from the
reset state (with completions and worker passes in between, no flush) exactly the `N` output
indices 0..N-1 were handed to `getFrameAsync`, and the accepted submission that got source
index `k` requested exactly output index `k`. -/
theorem one_to_one_remapping (env : Environment) (evs : List Event) (h : FrameHandler)
    (log : List Obs) (hab : env.sourceAvgFrameDuration = env.scriptAvgFrameDuration)
    (hb : 0 < env.scriptAvgFrameDuration) (hev : ∀ e ∈ evs, e.isFlush = false)
    (hres : run env resetState evs = some (h, log)) :
    h.nextOutputFrameNb = ((acceptedOf log).length : Int) ∧
    requestsOf log = intRange 0 ((acceptedOf log).length : Int) ∧
    (requestsOf log).length = (acceptedOf log).length ∧
    ∀ k t reqs, Obs.accepted k t reqs ∈ log → reqs = [k] := by
  obtain ⟨hi, hl⟩ := run_inv hev hres
  have hp := (run_preserves env OneToOne (step_oneToOne env hab hb) evs resetState [] h log
    Inv_resetState ⟨rfl, by simp⟩ hev hres).2
  rw [List.nil_append] at hp
  have hlen := acceptedOf_length hi hl
  have hreq : requestsOf log = intRange 0 ((acceptedOf log).length : Int) := by
    rw [hl.requests, hp.1, hlen]
  refine ⟨by rw [hp.1, hlen], hreq, ?_, hp.2⟩
  rw [hreq, intRange_length]
  omega

theorem one_to_one_remapping_witness :
    ∃ h log, run envW resetState scheduleC3 = some (h, log) ∧
      acceptedOf log = [(0, 10), (1, 20), (2, 30), (3, 40)] ∧
      requestsOf log = [0, 1, 2, 3] ∧
      h.nextOutputFrameNb = ((acceptedOf log).length : Int) := by
  refine ⟨_, _, rfl, rfl, rfl, ?_⟩
  exact (one_to_one_remapping envW scheduleC3 _ _ rfl (by decide) (by decide) rfl).1

/-- C7, as the code has it: when the worker processes output index `K` derived from source
index `S` in a state reached without a flush, the source table afterwards consists of the
entries with index `>= S`: exactly the buffered indices below `S` are removed, no slot left
in the table refers to a removed index, and `S` itself stays buffered. -/
theorem garbage_collect_removes_below_source (env : Environment) (evs : List Event)
    (h : FrameHandler) (log : List Obs) (calls : DeliveryCalls) (h' : FrameHandler)
    (K S : Int) (d : Option OutputMediaSample) (hev : ∀ e ∈ evs, e.isFlush = false)
    (hres : run env resetState evs = some (h, log))
    (hw : WorkerProc env calls h = .processed h' K S d) :
    h'.sourceFrames = h.sourceFrames.filter (fun e => decide (S ≤ e.1)) ∧
    removedSources h h' = (OrdMap.keys h.sourceFrames).filter (fun k => decide (k < S)) ∧
    (∀ e ∈ h'.outputSamples, S ≤ e.2.sourceFrameNb) ∧
    (OrdMap.find S h'.sourceFrames).isSome = true := by
  obtain ⟨hi, -⟩ := run_inv hev hres
  have hi' := hi.processed hw
  obtain ⟨-, -, hsf, -, hnos, -, -, -, -, -⟩ := WorkerProc_processed hi hw
  have hkeys : OrdMap.keys h'.sourceFrames
      = (OrdMap.keys h.sourceFrames).filter (fun k => decide (S ≤ k)) := by
    rw [hsf]
    unfold OrdMap.keys
    rw [List.filter_map]
    rfl
  refine ⟨hsf, ?_, ?_, ?_⟩
  · unfold removedSources
    apply List.filter_congr
    intro k hk
    rw [hkeys]
    by_cases hkS : k < S
    · have : ¬ S ≤ k := by omega
      simp [hkS, this]
    · have : S ≤ k := by omega
      simp [hkS, this, hk]
  · intro e he
    have := (hi'.slotSrc e he).1
    rw [hnos] at this
    exact this
  · rw [OrdMap.find_isSome_iff, hi'.srcKeys, mem_intRange, hnos]
    have := hi'.srcNonempty
    have h1 := hi'.srcHi
    have h2 := hi'.srcLo
    rw [hnos] at this h1 h2
    refine ⟨le_refl _, ?_⟩
    -- the delivered slot referred to a buffered source, so some frame was accepted
    obtain ⟨-, ⟨data, rest, hcons, hS, -, -⟩, -, -, -, hns, -, -, -, -⟩ :=
      WorkerProc_processed hi hw
    have hmem : (K, data) ∈ h.outputSamples := by rw [hcons]; exact List.mem_cons_self _ _
    have hb := (hi.slotSrc _ hmem).2
    simp only [hS] at hb
    rw [hns]
    exact hb

theorem garbage_collect_removes_below_source_witness :
    ∃ h log h' d, run envW resetState scheduleC7 = some (h, log) ∧
      WorkerProc envW callsOk h = .processed h' 1 1 d ∧
      OrdMap.keys h.sourceFrames = [0, 1, 2] ∧ OrdMap.keys h'.sourceFrames = [1, 2] ∧
      removedSources h h' = (OrdMap.keys h.sourceFrames).filter (fun k => decide (k < 1)) := by
  refine ⟨_, _, _, _, rfl, rfl, rfl, rfl, ?_⟩
  exact (garbage_collect_removes_below_source envW scheduleC7 _ _ callsOk _ 1 1 _
    (by decide) rfl rfl).2.1

/-- C7 as stated fails: with equal durations, after two accepted frames and the completion of
output 0, the worker delivers output 0 derived from source 0; no slot left refers to source 0,
so the stated set is `[0]`, yet nothing is removed from the source table. -/
theorem garbage_collect_keeps_delivered_source :
    ∃ h log h' d, run envW resetState scheduleC7cex = some (h, log) ∧
      WorkerProc envW callsOk h = .processed h' 0 0 d ∧
      OrdMap.keys h.sourceFrames = [0, 1] ∧ OrdMap.keys h'.sourceFrames = [0, 1] ∧
      h'.outputSamples.map (fun e => (e.1, e.2.sourceFrameNb)) = [(1, 1)] ∧
      removedSources h h' = [] ∧ specRemovedSources h h' 0 = [0] :=
  ⟨_, _, _, _, rfl, rfl, rfl, rfl, rfl, rfl, rfl⟩

/-- C8: from every state in which no flush is active, the worker is running, the pipeline is
not stopping and every buffered slot holds a frame, `BeginFlush` followed by `EndFlush` (with
the worker latching in between and running `ResetOutput` after) goes through and leaves both
tables empty and the four cursors at the values of the reset state, all 0; a second flush pair
from there goes through as well and leaves the state as it is. -/
theorem flush_pair_resets (env : Environment) (c1 c2 : DeliveryCalls) (h : FrameHandler)
    (hf : h.isFlushing = false) (hl : h.isWorkerLatched = false) (hs : h.isStopping = false)
    (hall : allSlotsHaveFrame h = true) :
    ∃ h', flushPair env c1 c2 h = some h' ∧
      h'.sourceFrames = [] ∧ h'.outputSamples = [] ∧
      h'.nextSourceFrameNb = 0 ∧ h'.nextOutputFrameNb = 0 ∧
      h'.nextOutputSourceFrameNb = 0 ∧ h'.nextDeliveryFrameNb = 0 ∧
      h'.nextSourceFrameNb = resetState.nextSourceFrameNb ∧
      h'.nextOutputFrameNb = resetState.nextOutputFrameNb ∧
      h'.nextOutputSourceFrameNb = resetState.nextOutputSourceFrameNb ∧
      h'.nextDeliveryFrameNb = resetState.nextDeliveryFrameNb ∧
      flushPair env c1 c2 h' = some h' := by
  refine ⟨{ h with
            sourceFrames := [], outputSamples := [], nextSourceFrameNb := 0,
            nextOutputFrameNb := 0, nextOutputSourceFrameNb := 0, nextDeliveryFrameNb := 0,
            notifyChangedOutputMediaType := false, frameRateCheckpointInputSampleNb := 0,
            currentInputFrameRate := 0, frameRateCheckpointOutputFrameNb := 0,
            currentOutputFrameRate := 0, isFlushing := false, isWorkerLatched := false },
          ?_, rfl, rfl, rfl, rfl, rfl, rfl, rfl, rfl, rfl, rfl, ?_⟩
  · unfold allSlotsHaveFrame at hall
    simp [flushPair, BeginFlush, hf, WorkerProc, hl, EndFlush, allSlotsHaveFrame, hall,
      ResetInput, ResetOutput, hs]
  · simp [flushPair, BeginFlush, WorkerProc, EndFlush, ResetInput, ResetOutput, hs,
      allSlotsHaveFrame]

theorem flush_pair_resets_witness :
    ∃ h', flushPair envW callsOk callsOk flushStateW = some h' ∧
      h'.sourceFrames = [] ∧ h'.outputSamples = [] ∧
      h'.nextSourceFrameNb = 0 ∧ h'.nextOutputFrameNb = 0 ∧
      h'.nextOutputSourceFrameNb = 0 ∧ h'.nextDeliveryFrameNb = 0 ∧
      h'.nextSourceFrameNb = resetState.nextSourceFrameNb ∧
      h'.nextOutputFrameNb = resetState.nextOutputFrameNb ∧
      h'.nextOutputSourceFrameNb = resetState.nextOutputSourceFrameNb ∧
      h'.nextDeliveryFrameNb = resetState.nextDeliveryFrameNb ∧
      flushPair envW callsOk callsOk h' = some h' :=
  flush_pair_resets envW callsOk callsOk flushStateW rfl rfl rfl rfl

/-- A call of `AddInputSample` that returns `S_FALSE` since a flush is in progress, the handler
is stopping, or the start time is not above the one of the last stored frame, leaves the whole
state as it was. -/
theorem AddInputSample_rejected_early {env : Environment} {h h' : FrameHandler}
    {sample : MediaSample} {reqs : List Int}
    (hres : AddInputSample env h sample = .returned .S_FALSE h' reqs)
    (hc : h.isFlushing = true ∨ h.isStopping = true ∨
      inputSampleStartTime env h sample ≤ lastSampleStartTime h) : h' = h := by
  unfold AddInputSample at hres
  split at hres
  · cases hres
  · split at hres
    · cases hres; rfl
    · rename_i hfs
      simp only at hres
      split at hres
      · cases hres; rfl
      · rename_i hlt
        rcases hc with hc | hc | hc
        · simp [hc] at hfs
        · simp [hc] at hfs
        · exact absurd hc hlt

/-- C11 (the code departs from the claim): a sample whose `GetPointer` fails is rejected with
`S_FALSE` after `AddInputSample` has already anchored and refreshed the checkpoints, so the
state after the call differs from the state before it. As the first sample of a session it
moves the presentation cursor and both checkpoint times from 0 to its start time 10; one
second after an accepted frame it moves the input checkpoint from (0, 10, 0) to
(1, 10000010, 1000). The tables and the four cursors stay as they were. -/
theorem rejection_after_GetPointer_failure_mutates :
    (∃ h', AddInputSample envW resetState (sampleNoPointer 10) = .returned .S_FALSE h' [] ∧
      h' ≠ resetState ∧ SameCore resetState h' ∧
      resetState.nextOutputFrameStartTime = 0 ∧ h'.nextOutputFrameStartTime = 10 ∧
      resetState.frameRateCheckpointInputSampleStartTime = 0 ∧
      h'.frameRateCheckpointInputSampleStartTime = 10) ∧
    (∃ h', AddInputSample envW oneFrameStateW (sampleNoPointer 10000010)
        = .returned .S_FALSE h' [] ∧
      h' ≠ oneFrameStateW ∧ SameCore oneFrameStateW h' ∧
      (oneFrameStateW.frameRateCheckpointInputSampleNb,
        oneFrameStateW.frameRateCheckpointInputSampleStartTime,
        oneFrameStateW.currentInputFrameRate) = (0, 10, 0) ∧
      (h'.frameRateCheckpointInputSampleNb, h'.frameRateCheckpointInputSampleStartTime,
        h'.currentInputFrameRate) = (1, 10000010, 1000)) := by
  refine ⟨⟨_, rfl, ?_, ⟨rfl, rfl, rfl, rfl, rfl, rfl, rfl, rfl, rfl⟩, rfl, rfl, rfl, rfl⟩,
    ⟨_, rfl, ?_, ⟨rfl, rfl, rfl, rfl, rfl, rfl, rfl, rfl, rfl⟩, rfl, rfl⟩⟩
  · intro hc
    have := congrArg FrameHandler.nextOutputFrameStartTime hc
    revert this
    decide
  · intro hc
    have := congrArg FrameHandler.currentInputFrameRate hc
    revert this
    decide

/-- The conversion to `int` keeps a value of the `int` range. -/
theorem toInt32_of_range {x : Int} (h1 : -2147483648 ≤ x) (h2 : x < 2147483648) :
    toInt32 x = x := by
  unfold toInt32
  omega

/-- C12 (counterexample): three million frames within one second of the checkpoint (0, 0, 0)
give the quotient 3000000000, and the rate stored is -1294967296. -/
theorem frame_rate_leaves_int_range :
    (10000000 : Int) - 0 ≥ envW.UNITS ∧
    specFrameRate envW 3000000 0 (10000000 - 0) = 3000000000 ∧
    RefreshFrameRatesTemplate envW 3000000 10000000 0 0 0 = (3000000, 10000000, -1294967296) := by
  decide

/-- C12 (amended): with `elapsed = timestamp - checkpointTime`, if `elapsed >= UNITS` the
checkpoint becomes (index, timestamp) and the new rate is the truncated quotient
`(index - checkpointIndex) * FRAME_RATE_SCALE_FACTOR * UNITS / elapsed` converted to a 32-bit
`int`, which is the quotient itself whenever it lies in the `int` range; otherwise the rate is
unchanged and the checkpoint becomes (index, timestamp) if `checkpointTime = 0`, else the whole
triple is unchanged. -/
theorem frame_rate_tracker_update (env : Environment)
    (index timestamp checkpointIndex checkpointTime rate : Int) :
    (timestamp - checkpointTime ≥ env.UNITS →
      RefreshFrameRatesTemplate env index timestamp checkpointIndex checkpointTime rate =
        (index, timestamp,
          toInt32 (specFrameRate env index checkpointIndex (timestamp - checkpointTime)))) ∧
    (timestamp - checkpointTime ≥ env.UNITS →
      -2147483648 ≤ specFrameRate env index checkpointIndex (timestamp - checkpointTime) →
      specFrameRate env index checkpointIndex (timestamp - checkpointTime) < 2147483648 →
      RefreshFrameRatesTemplate env index timestamp checkpointIndex checkpointTime rate =
        (index, timestamp,
          specFrameRate env index checkpointIndex (timestamp - checkpointTime))) ∧
    (timestamp - checkpointTime < env.UNITS → checkpointTime = 0 →
      RefreshFrameRatesTemplate env index timestamp checkpointIndex checkpointTime rate =
        (index, timestamp, rate)) ∧
    (timestamp - checkpointTime < env.UNITS → checkpointTime ≠ 0 →
      RefreshFrameRatesTemplate env index timestamp checkpointIndex checkpointTime rate =
        (checkpointIndex, checkpointTime, rate)) := by
  have hq : llMulDiv ((index - checkpointIndex) * env.FRAME_RATE_SCALE_FACTOR) env.UNITS
      (timestamp - checkpointTime) 0 =
      specFrameRate env index checkpointIndex (timestamp - checkpointTime) := by
    simp [llMulDiv, specFrameRate]
  refine ⟨?_, ?_, ?_, ?_⟩
  · intro he
    simp only [RefreshFrameRatesTemplate, he, if_true, hq]
  · intro he h1 h2
    simp only [RefreshFrameRatesTemplate, he, if_true, hq, toInt32_of_range h1 h2]
  · intro he h0
    have hn : ¬ (timestamp - checkpointTime ≥ env.UNITS) := not_le.mpr he
    simp only [RefreshFrameRatesTemplate, if_neg hn]
    simp [h0]
  · intro he h0
    have hn : ¬ (timestamp - checkpointTime ≥ env.UNITS) := not_le.mpr he
    simp only [RefreshFrameRatesTemplate, if_neg hn]
    simp [h0]

/-- C13 (the code departs from the claim): a completion that reports a failure while the
handler is flushing returns before the flushing branch and leaves its slot in the table. After
both requested indices have completed during the flush, output 1 with a frame and output 0
with a failure, slot 1 is gone and slot 0 is still buffered without a frame, the wait
predicate of `EndFlush` is false and `EndFlush` has not gone through: the handler is still
flushing. -/
theorem failed_completion_during_flush_keeps_slot :
    ∃ h log, run envW resetState scheduleC13 = some (h, log) ∧
      h.isFlushing = true ∧ h.isWorkerLatched = true ∧
      h.outputSamples = [(0, { sourceFrameNb := 0, hdrSideData := 0, frame := none })] ∧
      VpsGetFrameCallback h none 0 = some h ∧
      allSlotsHaveFrame h = false ∧ EndFlush h = none :=
  ⟨_, _, rfl, rfl, rfl, rfl, rfl, rfl, rfl⟩

namespace OrdMap

theorem lower_bound_none {α : Type} (k : Int) (m : List (Int × α)) :
    lower_bound k m = none ↔ ∀ e ∈ m, e.1 < k := by
  induction m with
  | nil => simp [lower_bound]
  | cons a rest ih =>
    obtain ⟨k', v⟩ := a
    simp only [lower_bound, List.mem_cons, forall_eq_or_imp]
    split
    · rename_i hle
      simp only [reduceCtorEq, false_iff, not_and]
      intro hlt
      omega
    · rename_i hle
      rw [ih]
      constructor
      · intro hr
        exact ⟨by omega, hr⟩
      · intro hr
        exact hr.2

theorem lower_bound_some {α : Type} {k : Int} {m : List (Int × α)} {e : Int × α}
    (hs : (keys m).Pairwise (· < ·)) (h : lower_bound k m = some e) :
    e ∈ m ∧ k ≤ e.1 ∧ ∀ e' ∈ m, k ≤ e'.1 → e.1 ≤ e'.1 := by
  induction m with
  | nil => simp [lower_bound] at h
  | cons a rest ih =>
    obtain ⟨k', v⟩ := a
    simp only [keys, List.map_cons, List.pairwise_cons, List.mem_map, forall_exists_index,
      and_imp, forall_apply_eq_imp_iff₂] at hs
    simp only [lower_bound] at h
    split at h
    · rename_i hle
      cases h
      refine ⟨List.mem_cons_self _ _, hle, ?_⟩
      intro e' he' _
      rcases List.mem_cons.mp he' with rfl | hr
      · exact le_refl _
      · exact le_of_lt (hs.1 e' hr)
    · rename_i hle
      obtain ⟨h1, h2, h3⟩ := ih hs.2 h
      refine ⟨List.mem_cons_of_mem _ h1, h2, ?_⟩
      intro e' he' hk
      rcases List.mem_cons.mp he' with rfl | hr
      · exact absurd hk hle
      · exact h3 e' hr hk

theorem lower_bound_of_find {α : Type} {k : Int} {m : List (Int × α)} {v : α}
    (hs : (keys m).Pairwise (· < ·)) (h : find k m = some v) :
    lower_bound k m = some (k, v) := by
  induction m with
  | nil => simp [find] at h
  | cons a rest ih =>
    obtain ⟨k', v'⟩ := a
    simp only [keys, List.map_cons, List.pairwise_cons, List.mem_map, forall_exists_index,
      and_imp, forall_apply_eq_imp_iff₂] at hs
    simp only [find] at h
    simp only [lower_bound]
    split at h
    · rename_i heq
      cases h
      subst heq
      simp
    · rename_i hne
      have hmem := find_mem h
      have hlt := hs.1 _ hmem
      simp only at hlt
      rw [if_neg (by omega)]
      exact ih hs.2 h

end OrdMap

/-- C14: while flushing `GetSourceFrame` gives the drain frame whatever the table holds;
otherwise, when the table holds an index `>= n`, it gives the frame stored under the smallest
buffered index `>= n`, which is the frame at `n` when `n` is buffered, and when no buffered
index is `>= n` the call stays blocked. -/
theorem source_frame_lookup (h : FrameHandler) (n : Int)
    (hs : (OrdMap.keys h.sourceFrames).Pairwise (· < ·)) :
    (h.isFlushing = true → GetSourceFrame h n = .drain) ∧
    (h.isFlushing = false →
      ((∃ e ∈ h.sourceFrames, n ≤ e.1) →
        ∃ e ∈ h.sourceFrames, n ≤ e.1 ∧ (∀ e' ∈ h.sourceFrames, n ≤ e'.1 → e.1 ≤ e'.1) ∧
          GetSourceFrame h n = .frame e.2.frame) ∧
      (∀ v, OrdMap.find n h.sourceFrames = some v → GetSourceFrame h n = .frame v.frame) ∧
      ((∀ e ∈ h.sourceFrames, e.1 < n) → GetSourceFrame h n = .blocked)) := by
  refine ⟨?_, ?_⟩
  · intro hf
    simp [GetSourceFrame, hf]
  · intro hf
    refine ⟨?_, ?_, ?_⟩
    · rintro ⟨e, he, hne⟩
      cases hlb : OrdMap.lower_bound n h.sourceFrames with
      | none =>
        have := (OrdMap.lower_bound_none n h.sourceFrames).mp hlb e he
        omega
      | some e0 =>
        obtain ⟨h1, h2, h3⟩ := OrdMap.lower_bound_some hs hlb
        refine ⟨e0, h1, h2, h3, ?_⟩
        simp [GetSourceFrame, hf, hlb]
    · intro v hv
      simp [GetSourceFrame, hf, OrdMap.lower_bound_of_find hs hv]
    · intro hall
      simp [GetSourceFrame, hf, (OrdMap.lower_bound_none n h.sourceFrames).mpr hall]

theorem source_frame_lookup_witness :
    GetSourceFrame lookupStateW 3 =
        .frame { payload := 5, durationNum := none, durationDen := none } ∧
      GetSourceFrame lookupStateW 2 =
        .frame { payload := 2, durationNum := none, durationDen := none } ∧
      GetSourceFrame lookupStateW 6 = .blocked ∧
      ((∀ e ∈ lookupStateW.sourceFrames, e.1 < 6) → GetSourceFrame lookupStateW 6 = .blocked) :=
  ⟨rfl, rfl, rfl, ((source_frame_lookup lookupStateW 6 (by decide)).2 rfl).2.2⟩

/-- C15 (counterexample): in the reset state no source frame is buffered, fewer than the
working set of 3, and `AddInputSample` does not block: it accepts the frame. The same holds
while a flush is pending, where it returns `S_FALSE` at once. -/
theorem backpressure_not_below_working_set :
    specAddInputSampleBlocks envW resetState = true ∧
    addInputSampleWait envW resetState = true ∧
    (∃ h', AddInputSample envW resetState (sampleAt 10) = .returned .S_OK h' [0]) ∧
    specAddInputSampleBlocks envW { resetState with isFlushing := true } = true ∧
    AddInputSample envW { resetState with isFlushing := true } (sampleAt 10) =
      .returned .S_FALSE { resetState with isFlushing := true } [] :=
  ⟨rfl, rfl, ⟨_, rfl⟩, rfl, rfl⟩

theorem AddInputSample_blocked_iff (env : Environment) (h : FrameHandler)
    (sample : MediaSample) :
    AddInputSample env h sample = .blocked ↔ addInputSampleWait env h = false := by
  unfold AddInputSample
  cases hw : addInputSampleWait env h
  · simp
  · simp only [Bool.not_true, Bool.false_eq_true, if_false, reduceCtorEq, iff_false]
    split
    · simp
    · split
      · simp
      · split <;> simp

/-- C15 (amended): `AddInputSample` blocks (its wait predicate is false) exactly while no
flush is in progress, at least `NUM_SRC_FRAMES_PER_PROCESSING` source frames are buffered, and
the next source index exceeds the last delivered source index by more than
`NUM_SRC_FRAMES_PER_PROCESSING` plus the extra source buffer; in every other state it goes on
without blocking. -/
theorem backpressure_condition (env : Environment) (h : FrameHandler) (sample : MediaSample) :
    (addInputSampleWait env h = false ↔
      (h.isFlushing = false ∧
        env.NUM_SRC_FRAMES_PER_PROCESSING ≤ (h.sourceFrames.length : Int) ∧
        h.nextSourceFrameNb - h.nextOutputSourceFrameNb >
          env.NUM_SRC_FRAMES_PER_PROCESSING + env.extraSourceBuffer)) ∧
    (AddInputSample env h sample = .blocked ↔
      (h.isFlushing = false ∧
        env.NUM_SRC_FRAMES_PER_PROCESSING ≤ (h.sourceFrames.length : Int) ∧
        h.nextSourceFrameNb - h.nextOutputSourceFrameNb >
          env.NUM_SRC_FRAMES_PER_PROCESSING + env.extraSourceBuffer)) := by
  have key : addInputSampleWait env h = false ↔
      (h.isFlushing = false ∧
        env.NUM_SRC_FRAMES_PER_PROCESSING ≤ (h.sourceFrames.length : Int) ∧
        h.nextSourceFrameNb - h.nextOutputSourceFrameNb >
          env.NUM_SRC_FRAMES_PER_PROCESSING + env.extraSourceBuffer) := by
    unfold addInputSampleWait
    cases hf : h.isFlushing
    · simp only [Bool.false_eq_true, if_false, true_and]
      split
      · rename_i hlt
        simp only [reduceCtorEq, false_iff, not_and]
        intro hle
        omega
      · rename_i hlt
        simp only [decide_eq_false_iff_not, not_le]
        constructor
        · intro hgt
          exact ⟨by omega, by omega⟩
        · intro hgt
          omega
    · simp
  exact ⟨key, (AddInputSample_blocked_iff env h sample).trans key⟩

/-- The pass of a running worker, outside a flush, whose slot holds its frame. -/
theorem WorkerProc_ready (env : Environment) (calls : DeliveryCalls) {h : FrameHandler}
    {data : OutputSampleData} {fr : VSFrameRef}
    (hl : h.isWorkerLatched = false) (hf : h.isFlushing = false)
    (hfind : OrdMap.find h.nextDeliveryFrameNb h.outputSamples = some data)
    (hfr : data.frame = some fr) :
    WorkerProc env calls h = .processed
      { GarbageCollect
          { (PrepareOutputSample env calls
              { h with nextOutputSourceFrameNb := data.sourceFrameNb }
              h.nextDeliveryFrameNb data fr).2.1 with
            outputSamples := OrdMap.erase h.nextDeliveryFrameNb
              (PrepareOutputSample env calls
                { h with nextOutputSourceFrameNb := data.sourceFrameNb }
                h.nextDeliveryFrameNb data fr).2.1.outputSamples }
          ((PrepareOutputSample env calls
              { h with nextOutputSourceFrameNb := data.sourceFrameNb }
              h.nextDeliveryFrameNb data fr).2.1.nextOutputSourceFrameNb - 1) with
        nextDeliveryFrameNb :=
          (PrepareOutputSample env calls
              { h with nextOutputSourceFrameNb := data.sourceFrameNb }
              h.nextDeliveryFrameNb data fr).2.1.nextDeliveryFrameNb + 1 }
      h.nextDeliveryFrameNb data.sourceFrameNb
      (if (PrepareOutputSample env calls
              { h with nextOutputSourceFrameNb := data.sourceFrameNb }
              h.nextDeliveryFrameNb data fr).1
        then (PrepareOutputSample env calls
              { h with nextOutputSourceFrameNb := data.sourceFrameNb }
              h.nextDeliveryFrameNb data fr).2.2
        else none) := by
  unfold WorkerProc
  rw [hl, hf]
  simp only [Bool.false_eq_true, if_false, hfind, hfr]
  rfl

/-- C17: for a ready slot (output index `K` at the next delivery index, holding a frame,
derived from source index `S`) one pass of the worker gives the same tables and cursors
whatever the calls of `PrepareOutputSample` return and whether or not the frame carries its
duration: slot `K` is removed and no other slot is touched, the last delivered source index
becomes `S`, exactly the buffered source frames with index `<= S - 1` are removed, the next
delivery index becomes `K + 1`, and the next source and output indices stay. -/
theorem worker_step_failure_independent (env : Environment) (h : FrameHandler) (K S : Int)
    (data : OutputSampleData) (fr : VSFrameRef)
    (hl : h.isWorkerLatched = false) (hf : h.isFlushing = false)
    (hK : h.nextDeliveryFrameNb = K)
    (hfind : OrdMap.find K h.outputSamples = some data) (hfr : data.frame = some fr)
    (hS : data.sourceFrameNb = S)
    (hsrc : (OrdMap.keys h.sourceFrames).Pairwise (· < ·))
    (hout : (OrdMap.keys h.outputSamples).Pairwise (· < ·)) :
    ∀ calls : DeliveryCalls, ∃ h' d, WorkerProc env calls h = .processed h' K S d ∧
      (d = none ↔ (PrepareOutputSample env calls { h with nextOutputSourceFrameNb := S }
        K data fr).1 = false) ∧
      h'.outputSamples = h.outputSamples.filter (fun e => decide (e.1 ≠ K)) ∧
      h'.sourceFrames = h.sourceFrames.filter (fun e => decide (S - 1 < e.1)) ∧
      (∀ e ∈ h.sourceFrames, e ∈ h'.sourceFrames ↔ S ≤ e.1) ∧
      h'.nextOutputSourceFrameNb = S ∧ h'.nextDeliveryFrameNb = K + 1 ∧
      h'.nextSourceFrameNb = h.nextSourceFrameNb ∧
      h'.nextOutputFrameNb = h.nextOutputFrameNb := by
  intro calls
  subst hK hS
  have hsc := PrepareOutputSample_sameCore env calls
    { h with nextOutputSourceFrameNb := data.sourceFrameNb } h.nextDeliveryFrameNb data fr
  have hsf : ({ GarbageCollect
          { (PrepareOutputSample env calls
              { h with nextOutputSourceFrameNb := data.sourceFrameNb }
              h.nextDeliveryFrameNb data fr).2.1 with
            outputSamples := OrdMap.erase h.nextDeliveryFrameNb
              (PrepareOutputSample env calls
                { h with nextOutputSourceFrameNb := data.sourceFrameNb }
                h.nextDeliveryFrameNb data fr).2.1.outputSamples }
          ((PrepareOutputSample env calls
              { h with nextOutputSourceFrameNb := data.sourceFrameNb }
              h.nextDeliveryFrameNb data fr).2.1.nextOutputSourceFrameNb - 1) with
        nextDeliveryFrameNb :=
          (PrepareOutputSample env calls
              { h with nextOutputSourceFrameNb := data.sourceFrameNb }
              h.nextDeliveryFrameNb data fr).2.1.nextDeliveryFrameNb + 1 } :
        FrameHandler).sourceFrames =
      h.sourceFrames.filter (fun e => decide (data.sourceFrameNb - 1 < e.1)) := by
    simp only [GarbageCollect, hsc.sourceFrames, hsc.nextOutputSourceFrameNb]
    exact garbageCollectLoop_eq_filter _ _ hsrc
  refine ⟨_, _, WorkerProc_ready env calls hl hf hfind hfr, ?_, ?_, hsf, ?_, ?_, ?_, ?_, ?_⟩
  · constructor
    · intro hd
      by_contra hne
      have ht : (PrepareOutputSample env calls
          { h with nextOutputSourceFrameNb := data.sourceFrameNb }
          h.nextDeliveryFrameNb data fr).1 = true := by simpa using hne
      rw [ht] at hd
      simp only [if_true] at hd
      revert ht hd
      unfold PrepareOutputSample
      split
      · simp only
        split
        · simp
        · split
          · simp
          · split
            · simp
            · split
              · simp
              · simp
      · simp
    · intro hd
      simp [hd]
  · simp only [GarbageCollect, hsc.outputSamples]
    exact OrdMap.erase_eq_filter _ _ hout
  · intro e he
    rw [hsf]
    simp only [List.mem_filter, he, true_and, decide_eq_true_eq]
    omega
  · simp only [GarbageCollect, hsc.nextOutputSourceFrameNb]
  · simp only [GarbageCollect, hsc.nextDeliveryFrameNb]
  · simp only [GarbageCollect, hsc.nextSourceFrameNb]
  · simp only [GarbageCollect, hsc.nextOutputFrameNb]

theorem worker_step_failure_independent_witness :
    ∃ h' d, WorkerProc envW callsOk workerStateW = .processed h' 5 3 d ∧
      (d = none ↔ (PrepareOutputSample envW callsOk
        { workerStateW with nextOutputSourceFrameNb := 3 } 5
        { sourceFrameNb := 3, hdrSideData := 0,
          frame := some { payload := 0, durationNum := none, durationDen := none } }
        { payload := 0, durationNum := none, durationDen := none }).1 = false) ∧
      h'.outputSamples = workerStateW.outputSamples.filter (fun e => decide (e.1 ≠ 5)) ∧
      h'.sourceFrames = workerStateW.sourceFrames.filter (fun e => decide (3 - 1 < e.1)) ∧
      (∀ e ∈ workerStateW.sourceFrames, e ∈ h'.sourceFrames ↔ 3 ≤ e.1) ∧
      h'.nextOutputSourceFrameNb = 3 ∧ h'.nextDeliveryFrameNb = 5 + 1 ∧
      h'.nextSourceFrameNb = workerStateW.nextSourceFrameNb ∧
      h'.nextOutputFrameNb = workerStateW.nextOutputFrameNb :=
  worker_step_failure_independent envW workerStateW 5 3
    { sourceFrameNb := 3, hdrSideData := 0,
      frame := some { payload := 0, durationNum := none, durationDen := none } }
    { payload := 0, durationNum := none, durationDen := none }
    rfl rfl rfl rfl rfl rfl (by decide) (by decide) callsOk

theorem FlushInv_resetState (env : Environment)
    (hM : 0 ≤ env.NUM_SRC_FRAMES_PER_PROCESSING) (hE : 0 ≤ env.extraSourceBuffer) :
    FlushInv env resetState :=
  { srcKeys := by simp [SynthFilter.resetState, OrdMap.keys, intRange]
    srcLo := by simp [SynthFilter.resetState]
    srcHi := by simp [SynthFilter.resetState]
    srcNonempty := by simp [SynthFilter.resetState]
    slotSrc := by simp [SynthFilter.resetState]
    times := by simp [SynthFilter.resetState]
    bound := by simp only [SynthFilter.resetState]; omega
    outKeys := by simp [SynthFilter.resetState, OrdMap.keys, intRange, deliveryBase]
    outLo := by simp [SynthFilter.resetState, deliveryBase]
    outHi := by simp [SynthFilter.resetState, deliveryBase]
    slotMono := by simp [SynthFilter.resetState] }

theorem FlushInv_of_sameCore {env : Environment} {h h' : FrameHandler} (hi : FlushInv env h)
    (hs : SameCore h h') : FlushInv env h' := by
  obtain ⟨a1, a2, a3, a4, a5, a6, a7, a8, a9⟩ := hs
  obtain ⟨b1, b2, b3, b4, b5, b6, b7, b8, b9, b10, b11⟩ := hi
  constructor <;> simp only [deliveryBase, a1, a2, a3, a4, a5, a6, a7, a8, a9] <;> assumption

/-- Outside a flush and with a running worker the general invariant is the flush-free one. -/
theorem FlushInv.toInv {env : Environment} {h : FrameHandler} (hi : FlushInv env h)
    (hf : h.isFlushing = false) (hl : h.isWorkerLatched = false) : Inv h := by
  have hb : deliveryBase h = h.nextDeliveryFrameNb := by simp [deliveryBase, hl]
  exact
    { notFlushing := hf
      notLatched := hl
      srcKeys := hi.srcKeys
      srcLo := hi.srcLo
      srcHi := hi.srcHi
      srcNonempty := hi.srcNonempty
      outKeys := hb ▸ hi.outKeys hf
      outLo := hb ▸ hi.outLo hf
      outHi := hb ▸ hi.outHi hf
      slotSrc := hi.slotSrc
      slotMono := hi.slotMono hf
      times := hi.times }

theorem FlushInv.ofInv {env : Environment} {h : FrameHandler} (hi : Inv h)
    (hb : h.nextSourceFrameNb - h.nextOutputSourceFrameNb ≤
      env.NUM_SRC_FRAMES_PER_PROCESSING + env.extraSourceBuffer + 1) : FlushInv env h := by
  have hd : deliveryBase h = h.nextDeliveryFrameNb := by simp [deliveryBase, hi.notLatched]
  exact
    { srcKeys := hi.srcKeys
      srcLo := hi.srcLo
      srcHi := hi.srcHi
      srcNonempty := hi.srcNonempty
      slotSrc := hi.slotSrc
      times := hi.times
      bound := hb
      outKeys := fun _ => hd ▸ hi.outKeys
      outLo := fun _ => hd ▸ hi.outLo
      outHi := fun _ => hd ▸ hi.outHi
      slotMono := fun _ => hi.slotMono }

theorem FlushInv.length_eq {env : Environment} {h : FrameHandler} (hi : FlushInv env h) :
    (h.sourceFrames.length : Int) = h.nextSourceFrameNb - h.nextOutputSourceFrameNb := by
  have h1 : (OrdMap.keys h.sourceFrames).length = h.sourceFrames.length := by
    simp [OrdMap.keys]
  rw [← h1, hi.srcKeys, intRange_length]
  have := hi.srcHi
  omega

/-- An accepted call found no flush in progress and its wait predicate true. -/
theorem AddInputSample_ok_pre {env : Environment} {h h' : FrameHandler} {sample : MediaSample}
    {reqs : List Int} (hres : AddInputSample env h sample = .returned .S_OK h' reqs) :
    h.isFlushing = false ∧ addInputSampleWait env h = true := by
  unfold AddInputSample at hres
  split at hres
  · cases hres
  · rename_i hw
    split at hres
    · cases hres
    · rename_i hfs
      refine ⟨?_, by simpa using hw⟩
      cases hf : h.isFlushing
      · rfl
      · simp [hf] at hfs

theorem time_le_lastSampleStartTime {h : FrameHandler}
    (ht : h.sourceFrames.Pairwise (fun a b => a.2.startTime < b.2.startTime)) :
    ∀ e ∈ h.sourceFrames, e.2.startTime ≤ lastSampleStartTime h := by
  intro e he
  unfold lastSampleStartTime
  cases hl : h.sourceFrames.getLast? with
  | none =>
    rw [List.getLast?_eq_none_iff] at hl
    rw [hl] at he
    cases he
  | some x =>
    exact le_getLast_of_pairwise (fun e => e.2.startTime) _ ht e he x hl

/-- An accepted call of `AddInputSample` keeps the general invariant. -/
theorem FlushInv_accepted {env : Environment} {h h' : FrameHandler} {sample : MediaSample}
    {reqs : List Int} (hi : FlushInv env h) (hE : 0 ≤ env.extraSourceBuffer)
    (hres : AddInputSample env h sample = .returned .S_OK h' reqs) : FlushInv env h' := by
  obtain ⟨hnf, hw⟩ := AddInputSample_ok_pre hres
  have hkeys : ∀ e ∈ h.outputSamples, e.1 < h.nextOutputFrameNb := by
    intro e he
    have : e.1 ∈ OrdMap.keys h.outputSamples := List.mem_map_of_mem _ he
    rw [hi.outKeys hnf, mem_intRange] at this
    exact this.2
  have hsrc : ∀ e ∈ h.sourceFrames, e.1 < h.nextSourceFrameNb := by
    intro e he
    have : e.1 ∈ OrdMap.keys h.sourceFrames := List.mem_map_of_mem _ he
    rw [hi.srcKeys, mem_intRange] at this
    exact this.2
  obtain ⟨-, -, -, hlt, ⟨fr, hsf⟩, hreq, hout, hno, hns, hnos, hnd, hfl, -, hwl⟩ :=
    AddInputSample_accepted hres hkeys hsrc
  have hmax : h.nextOutputFrameNb ≤ h'.nextOutputFrameNb := by rw [hno]; exact le_max_left _ _
  rw [← hno] at hreq
  have hbase : deliveryBase h' = deliveryBase h := by simp only [deliveryBase, hwl, hnd]
  have hlen := hi.length_eq
  have hbound : h.nextSourceFrameNb + 1 - h.nextOutputSourceFrameNb ≤
      env.NUM_SRC_FRAMES_PER_PROCESSING + env.extraSourceBuffer + 1 := by
    unfold addInputSampleWait at hw
    rw [hnf] at hw
    simp only [Bool.false_eq_true, if_false] at hw
    split at hw
    · omega
    · simp only [decide_eq_true_eq] at hw
      omega
  refine
    { srcKeys := ?_
      srcLo := by rw [hnos]; exact hi.srcLo
      srcHi := by rw [hnos, hns]; have := hi.srcHi; omega
      srcNonempty := by intro _; rw [hnos, hns]; have := hi.srcHi; omega
      slotSrc := ?_
      times := ?_
      bound := by rw [hnos, hns]; exact hbound
      outKeys := ?_
      outLo := by intro _; rw [hbase]; exact hi.outLo hnf
      outHi := by intro _; rw [hbase]; have := hi.outHi hnf; omega
      slotMono := ?_ }
  · rw [hsf, hnos, hns, intRange_succ_right hi.srcHi, ← hi.srcKeys]
    simp [OrdMap.keys]
  · intro e he
    rw [hout] at he
    rw [hnos, hns]
    rcases List.mem_append.1 he with h1 | h1
    · have := hi.slotSrc e h1; omega
    · simp only [newSlots, List.mem_map] at h1
      obtain ⟨n, -, rfl⟩ := h1
      have := hi.srcHi
      simp only
      omega
  · rw [hsf, List.pairwise_append]
    refine ⟨hi.times, List.pairwise_singleton _ _, ?_⟩
    intro a ha b hb
    rw [List.mem_singleton.1 hb]
    have := time_le_lastSampleStartTime hi.times a ha
    simp only
    omega
  · intro _
    rw [hout, hbase]
    unfold OrdMap.keys
    rw [List.map_append]
    change OrdMap.keys h.outputSamples ++ OrdMap.keys (newSlots _ _ _) = _
    rw [keys_newSlots, hi.outKeys hnf, hreq]
    exact intRange_append (hi.outHi hnf) hmax
  · intro _
    rw [hout, List.pairwise_append]
    refine ⟨hi.slotMono hnf, ?_, ?_⟩
    · simp only [newSlots]
      rw [List.pairwise_map]
      exact List.pairwise_of_forall (fun _ _ => le_refl _)
    · intro a ha b hb
      simp only [newSlots, List.mem_map] at hb
      obtain ⟨n, -, rfl⟩ := hb
      have := hi.slotSrc a ha
      simp only
      omega

namespace OrdMap

theorem erase_subset {α : Type} {k : Int} {m : List (Int × α)} {e : Int × α}
    (h : e ∈ erase k m) : e ∈ m := by
  induction m with
  | nil => simp [erase] at h
  | cons a rest ih =>
    obtain ⟨k', v⟩ := a
    simp only [erase] at h
    split at h
    · exact List.mem_cons_of_mem _ h
    · rcases List.mem_cons.mp h with rfl | hr
      · exact List.mem_cons_self _ _
      · exact List.mem_cons_of_mem _ (ih hr)

end OrdMap

/-- The completion callback keeps the general invariant, in and outside a flush. -/
theorem FlushInv_callback {env : Environment} {h h' : FrameHandler} {f : Option VSFrameRef}
    {n : Int} (hi : FlushInv env h) (hres : VpsGetFrameCallback h f n = some h') :
    FlushInv env h' := by
  unfold VpsGetFrameCallback at hres
  split at hres
  · cases hres
    exact hi
  · rename_i fr
    split at hres
    · rename_i hf
      cases hres
      exact
        { srcKeys := hi.srcKeys
          srcLo := hi.srcLo
          srcHi := hi.srcHi
          srcNonempty := hi.srcNonempty
          slotSrc := fun e he => hi.slotSrc e (OrdMap.erase_subset he)
          times := hi.times
          bound := hi.bound
          outKeys := fun hc => by rw [show h.isFlushing = false from hc] at hf; cases hf
          outLo := fun hc => by rw [show h.isFlushing = false from hc] at hf; cases hf
          outHi := fun hc => by rw [show h.isFlushing = false from hc] at hf; cases hf
          slotMono := fun hc => by rw [show h.isFlushing = false from hc] at hf; cases hf }
    · rename_i hf
      have hnf : h.isFlushing = false := by simpa using hf
      split at hres
      · cases hres
      · cases hres
        exact
          { srcKeys := hi.srcKeys
            srcLo := hi.srcLo
            srcHi := hi.srcHi
            srcNonempty := hi.srcNonempty
            slotSrc := by
              intro e he
              obtain ⟨e0, h0, -, h2⟩ := OrdMap.modify_mem he
              have := hi.slotSrc e0 h0
              rcases h2 with h2 | h2 <;> rw [h2] <;> exact this
            times := hi.times
            bound := hi.bound
            outKeys := fun _ => by
              simp only [OrdMap.keys_modify]
              exact hi.outKeys hnf
            outLo := fun _ => hi.outLo hnf
            outHi := fun _ => hi.outHi hnf
            slotMono := fun _ =>
              OrdMap.modify_pairwise
                (fun (a b : OutputSampleData) => a.sourceFrameNb ≤ b.sourceFrameNb)
                (fun a => ⟨le_refl _, le_refl _⟩) (fun a b c h1 h2 => le_trans h1 h2)
                (hi.slotMono hnf) }

/-- A pass of the worker keeps the general invariant: it processes a slot, latches, resumes
with `ResetOutput`, or stays where it is. -/
theorem FlushInv.worker {env : Environment} {calls : DeliveryCalls} {h h' : FrameHandler}
    {obs : List Obs} (hi : FlushInv env h)
    (hres : step env h (.worker calls) = some (h', obs)) : FlushInv env h' := by
  simp only [step] at hres
  cases hl : h.isWorkerLatched
  · cases hf : h.isFlushing
    · have hinv := hi.toInv hf hl
      rcases WorkerProc_cases env calls hinv with hw | ⟨h1, K, S, d, hw⟩
      · rw [hw] at hres
        cases hres
        exact hi
      · rw [hw] at hres
        cases hres
        obtain ⟨-, ⟨data, rest, hcons, hS, -, -⟩, -, -, hnos, hns, -, -, -, -⟩ :=
          WorkerProc_processed hinv hw
        have hmem : (K, data) ∈ h.outputSamples := by rw [hcons]; exact List.mem_cons_self _ _
        have hSb := hi.slotSrc _ hmem
        simp only [hS] at hSb
        refine FlushInv.ofInv (hinv.processed hw) ?_
        rw [hns, hnos]
        have := hi.bound
        omega
    · have hw : WorkerProc env calls h = .latched { h with isWorkerLatched := true } := by
        unfold WorkerProc
        simp [hl, hf]
      rw [hw] at hres
      cases hres
      exact
        { srcKeys := hi.srcKeys
          srcLo := hi.srcLo
          srcHi := hi.srcHi
          srcNonempty := hi.srcNonempty
          slotSrc := hi.slotSrc
          times := hi.times
          bound := hi.bound
          outKeys := fun hc => by rw [show h.isFlushing = false from hc] at hf; cases hf
          outLo := fun hc => by rw [show h.isFlushing = false from hc] at hf; cases hf
          outHi := fun hc => by rw [show h.isFlushing = false from hc] at hf; cases hf
          slotMono := fun hc => by rw [show h.isFlushing = false from hc] at hf; cases hf }
  · have hb : deliveryBase h = 0 := by simp [deliveryBase, hl]
    cases hf : h.isFlushing
    · cases hs : h.isStopping
      · have hw : WorkerProc env calls h =
            .resumed { ResetOutput h with isWorkerLatched := false } := by
          unfold WorkerProc
          simp [hl, hf, hs]
        rw [hw] at hres
        cases hres
        exact
          { srcKeys := hi.srcKeys
            srcLo := hi.srcLo
            srcHi := hi.srcHi
            srcNonempty := hi.srcNonempty
            slotSrc := hi.slotSrc
            times := hi.times
            bound := hi.bound
            outKeys := fun _ => by
              have := hi.outKeys hf
              rw [hb] at this
              exact this
            outLo := fun _ => le_refl _
            outHi := fun _ => by
              have := hi.outHi hf
              rw [hb] at this
              exact this
            slotMono := fun _ => hi.slotMono hf }
      · have hw : WorkerProc env calls h = .exited { h with isWorkerLatched := true } := by
          unfold WorkerProc
          simp [hl, hf, hs]
        rw [hw] at hres
        cases hres
        exact
          { srcKeys := hi.srcKeys
            srcLo := hi.srcLo
            srcHi := hi.srcHi
            srcNonempty := hi.srcNonempty
            slotSrc := hi.slotSrc
            times := hi.times
            bound := hi.bound
            outKeys := fun _ => by
              have := hi.outKeys hf
              rw [hb] at this
              exact this
            outLo := fun _ => le_refl _
            outHi := fun _ => by
              have := hi.outHi hf
              rw [hb] at this
              exact this
            slotMono := fun _ => hi.slotMono hf }
    · have hw : WorkerProc env calls h = .blocked := by
        unfold WorkerProc
        simp [hl, hf]
      rw [hw] at hres
      cases hres
      exact hi

/-- Every call keeps the general invariant. -/
theorem step_flushInv {env : Environment} {h h' : FrameHandler} {e : Event} {obs : List Obs}
    (hM : 0 ≤ env.NUM_SRC_FRAMES_PER_PROCESSING) (hE : 0 ≤ env.extraSourceBuffer)
    (hi : FlushInv env h) (hres : step env h e = some (h', obs)) : FlushInv env h' := by
  cases e with
  | addInputSample sample =>
    simp only [step] at hres
    split at hres
    · cases hres
      exact hi
    · rename_i h1 reqs hr
      cases hres
      exact FlushInv_of_sameCore hi (AddInputSample_rejected hr).2
    · rename_i h1 reqs hr
      cases hres
      exact FlushInv_accepted hi hE hr
  | vpsGetFrameCallback f n =>
    simp only [step] at hres
    split at hres
    · cases hres
    · rename_i h1 hr
      cases hres
      exact FlushInv_callback hi hr
  | worker calls => exact hi.worker hres
  | beginFlush =>
    simp only [step, BeginFlush] at hres
    split at hres
    · cases hres
      exact hi
    · rename_i h1 hb
      cases hres
      split at hb
      · cases hb
      · cases hb
        exact
          { srcKeys := hi.srcKeys
            srcLo := hi.srcLo
            srcHi := hi.srcHi
            srcNonempty := hi.srcNonempty
            slotSrc := hi.slotSrc
            times := hi.times
            bound := hi.bound
            outKeys := fun hc => by cases hc
            outLo := fun hc => by cases hc
            outHi := fun hc => by cases hc
            slotMono := fun hc => by cases hc }
  | endFlush =>
    simp only [step, EndFlush] at hres
    split at hres
    · cases hres
      exact hi
    · rename_i h1 hb
      cases hres
      split at hb
      · cases hb
      · rename_i hl
        have hl2 : h.isWorkerLatched = true := by simpa using hl
        split at hb
        · cases hb
        · cases hb
          exact
            { srcKeys := by simp [ResetInput, OrdMap.keys, intRange]
              srcLo := by simp [ResetInput]
              srcHi := by simp [ResetInput]
              srcNonempty := by simp [ResetInput]
              slotSrc := by simp [ResetInput]
              times := by simp [ResetInput]
              bound := by simp only [ResetInput]; omega
              outKeys := fun _ => by simp [ResetInput, OrdMap.keys, intRange, deliveryBase, hl2]
              outLo := fun _ => by simp [ResetInput, deliveryBase, hl2]
              outHi := fun _ => by simp [ResetInput, deliveryBase, hl2]
              slotMono := fun _ => by simp [ResetInput] }

/-- Every schedule keeps the general invariant. -/
theorem run_flushInv {env : Environment} (hM : 0 ≤ env.NUM_SRC_FRAMES_PER_PROCESSING)
    (hE : 0 ≤ env.extraSourceBuffer) :
    ∀ (evs : List Event) (h h' : FrameHandler) (log : List Obs), FlushInv env h →
      run env h evs = some (h', log) → FlushInv env h' := by
  intro evs
  induction evs with
  | nil =>
    intro h h' log hi hres
    simp only [run, Option.some.injEq, Prod.mk.injEq] at hres
    obtain ⟨rfl, -⟩ := hres
    exact hi
  | cons e es ih =>
    intro h h' log hi hres
    simp only [run] at hres
    split at hres
    · cases hres
    · rename_i h1 o1 hs
      split at hres
      · cases hres
      · rename_i h2 o2 hr
        cases hres
        exact ih h1 _ _ (step_flushInv hM hE hi hs) hr

/-- C16: with `M = NUM_SRC_FRAMES_PER_PROCESSING >= 0` and the extra source buffer `E >= 0`,
in every state reached from the reset state by any sequence of submissions, completions,
worker passes and flush calls, at most `M + E + 1` source frames are buffered and every
buffered source index lies from the last delivered source index up to, and excluding, the next
source index. -/
theorem backpressure_bounds_memory (env : Environment) (evs : List Event) (h : FrameHandler)
    (log : List Obs) (hM : 0 ≤ env.NUM_SRC_FRAMES_PER_PROCESSING)
    (hE : 0 ≤ env.extraSourceBuffer) (hres : run env resetState evs = some (h, log)) :
    (h.sourceFrames.length : Int) ≤
        env.NUM_SRC_FRAMES_PER_PROCESSING + env.extraSourceBuffer + 1 ∧
      ∀ k ∈ OrdMap.keys h.sourceFrames,
        h.nextOutputSourceFrameNb ≤ k ∧ k < h.nextSourceFrameNb := by
  have hi := run_flushInv hM hE evs resetState h log (FlushInv_resetState env hM hE) hres
  refine ⟨?_, ?_⟩
  · rw [hi.length_eq]
    exact hi.bound
  · intro k hk
    rw [hi.srcKeys, mem_intRange] at hk
    exact hk

theorem backpressure_bounds_memory_witness :
    ∃ h log, run envW resetState scheduleC16 = some (h, log) ∧
      OrdMap.keys h.sourceFrames = [0, 1] ∧
      ((h.sourceFrames.length : Int) ≤
          envW.NUM_SRC_FRAMES_PER_PROCESSING + envW.extraSourceBuffer + 1 ∧
        ∀ k ∈ OrdMap.keys h.sourceFrames,
          h.nextOutputSourceFrameNb ≤ k ∧ k < h.nextSourceFrameNb) :=
  ⟨_, _, rfl, rfl,
    backpressure_bounds_memory envW scheduleC16 _ _ (by decide) (by decide) rfl⟩

theorem deliveredOf_append (a b : List Obs) :
    deliveredOf (a ++ b) = deliveredOf a ++ deliveredOf b := by
  induction a with
  | nil => rfl
  | cons x rest ih =>
    cases x with
    | rejected => simpa [deliveredOf] using ih
    | accepted k t r => simpa [deliveredOf] using ih
    | processed k s d =>
      cases d with
      | none => simpa [deliveredOf] using ih
      | some smp => simp [deliveredOf, ih]

theorem chainedFrom_append (env : Environment) (t : Int) (l : List (Int × OutputMediaSample))
    (e : Int × OutputMediaSample) :
    chainedFrom env t (l ++ [e]) ↔
      chainedFrom env t l ∧
      e.2.startTime = t + (l.map (fun e => frameDuration env e.2.frame)).sum ∧
      e.2.stopTime = e.2.startTime + frameDuration env e.2.frame := by
  induction l generalizing t with
  | nil =>
    simp only [List.nil_append, chainedFrom, List.map_nil, List.sum_nil, add_zero, and_true,
      true_and]
    constructor
    · rintro ⟨h1, h2⟩
      exact ⟨h1, by rw [h1]; exact h2⟩
    · rintro ⟨h1, h2⟩
      exact ⟨h1, by rw [← h1]; exact h2⟩
  | cons x rest ih =>
    have hstep : chainedFrom env t ((x :: rest) ++ [e]) ↔
        x.2.startTime = t ∧ x.2.stopTime = t + frameDuration env x.2.frame ∧
          chainedFrom env x.2.stopTime (rest ++ [e]) := Iff.rfl
    rw [hstep, ih]
    simp only [chainedFrom, List.map_cons, List.sum_cons]
    constructor
    · rintro ⟨h1, h2, h3, h4, h5⟩
      exact ⟨⟨h1, h2, h3⟩, by rw [h4, h2]; ring, h5⟩
    · rintro ⟨⟨h1, h2, h3⟩, h4, h5⟩
      exact ⟨h1, h2, h3, by rw [h4, h2]; ring, h5⟩

theorem chainedFrom_each {env : Environment} {t : Int} {l : List (Int × OutputMediaSample)}
    (hc : chainedFrom env t l) :
    ∀ e ∈ l, e.2.stopTime = e.2.startTime + frameDuration env e.2.frame := by
  induction l generalizing t with
  | nil => simp
  | cons x rest ih =>
    obtain ⟨h1, h2, h3⟩ := hc
    intro e he
    rcases List.mem_cons.mp he with rfl | hr
    · rw [h1]; exact h2
    · exact ih h3 e hr

theorem chainedFrom_chain {env : Environment} {t : Int} {l : List (Int × OutputMediaSample)}
    (hc : chainedFrom env t l) :
    l.Chain' (fun a b => b.2.startTime = a.2.stopTime) := by
  induction l generalizing t with
  | nil => exact List.chain'_nil
  | cons x rest ih =>
    obtain ⟨-, -, h3⟩ := hc
    cases rest with
    | nil => exact List.chain'_singleton _
    | cons y rest2 =>
      rw [List.chain'_cons]
      exact ⟨h3.1, ih h3⟩

theorem chainedFrom_head {env : Environment} {t : Int} {l : List (Int × OutputMediaSample)}
    (hc : chainedFrom env t l) : ∀ e ∈ l.head?, e.2.startTime = t := by
  cases l with
  | nil => simp
  | cons x rest =>
    intro e he
    simp only [List.head?_cons, Option.mem_def, Option.some.injEq] at he
    subst he
    exact hc.1

theorem chainedFrom_last {env : Environment} {t : Int} {l : List (Int × OutputMediaSample)}
    (hc : chainedFrom env t l) :
    ∀ e ∈ l.getLast?,
      e.2.stopTime = t + (l.map (fun e => frameDuration env e.2.frame)).sum := by
  induction l generalizing t with
  | nil => simp
  | cons x rest ih =>
    obtain ⟨h1, h2, h3⟩ := hc
    intro e he
    cases rest with
    | nil =>
      simp only [List.getLast?_singleton, Option.mem_def, Option.some.injEq] at he
      subst he
      simp [h2]
    | cons y rest2 =>
      rw [List.getLast?_cons_cons] at he
      have := ih h3 e he
      rw [this, h2]
      simp only [List.map_cons, List.sum_cons]
      ring

theorem chainedFrom_increasing {env : Environment} {t : Int}
    {l : List (Int × OutputMediaSample)} (hc : chainedFrom env t l)
    (hpos : ∀ e ∈ l, 0 < frameDuration env e.2.frame) :
    (∀ e ∈ l, t ≤ e.2.startTime) ∧ l.Pairwise (fun a b => a.2.startTime < b.2.startTime) := by
  induction l generalizing t with
  | nil => simp
  | cons x rest ih =>
    obtain ⟨h1, h2, h3⟩ := hc
    have hx := hpos x (List.mem_cons_self _ _)
    obtain ⟨i1, i2⟩ := ih h3 (fun e he => hpos e (List.mem_cons_of_mem _ he))
    refine ⟨?_, ?_⟩
    · intro e he
      rcases List.mem_cons.mp he with rfl | hr
      · exact le_of_eq h1.symm
      · have := i1 e hr
        omega
    · rw [List.pairwise_cons]
      refine ⟨?_, i2⟩
      intro e he
      have := i1 e he
      omega

theorem requestLoop_cursor (fuel : Nat) (h : FrameHandler) (M : Int) (hdr : HDRSideData) :
    (requestLoop fuel h M hdr).1.nextOutputFrameStartTime = h.nextOutputFrameStartTime := by
  induction fuel generalizing h with
  | zero => rfl
  | succ fuel ih =>
    simp only [requestLoop]
    split
    · simp only
      rw [ih]
    · rfl

/-- What `AddInputSample` does to the presentation cursor: only the first frame of a session
sets it, to its start time. -/
theorem AddInputSample_cursor {env : Environment} {h h' : FrameHandler} {sample : MediaSample}
    {hr : HRESULT} {reqs : List Int}
    (hres : AddInputSample env h sample = .returned hr h' reqs) :
    (h.nextSourceFrameNb ≠ 0 → h'.nextOutputFrameStartTime = h.nextOutputFrameStartTime) ∧
    (hr = .S_OK → h.nextSourceFrameNb = 0 →
      h'.nextOutputFrameStartTime = inputSampleStartTime env h sample) := by
  have ha : ∀ t, (h.nextSourceFrameNb ≠ 0 →
        (anchorFirstFrame h t).nextOutputFrameStartTime = h.nextOutputFrameStartTime) ∧
      (h.nextSourceFrameNb = 0 → (anchorFirstFrame h t).nextOutputFrameStartTime = t) := by
    intro t
    unfold anchorFirstFrame
    constructor
    · intro hn
      rw [if_neg hn]
    · intro hn
      rw [if_pos hn]
  unfold AddInputSample at hres
  split at hres
  · cases hres
  · split at hres
    · cases hres
      exact ⟨fun _ => rfl, fun hc => by cases hc⟩
    · simp only at hres
      split at hres
      · cases hres
        exact ⟨fun _ => rfl, fun hc => by cases hc⟩
      · split at hres
        · cases hres
          exact ⟨fun hn => (ha _).1 hn, fun hc => by cases hc⟩
        · cases hres
          refine ⟨fun hn => ?_, fun _ hn => ?_⟩
          · simp only [storeAndRequest, requestLoop_cursor]
            exact (ha _).1 hn
          · simp only [storeAndRequest, requestLoop_cursor]
            exact (ha _).2 hn

/-- What `PrepareOutputSample` does to the presentation cursor and which sample it leaves. -/
theorem PrepareOutputSample_result (env : Environment) (calls : DeliveryCalls)
    (h : FrameHandler) (frameNb : Int) (data : OutputSampleData) (fr : VSFrameRef) :
    ((PrepareOutputSample env calls h frameNb data fr).1 = false →
      (PrepareOutputSample env calls h frameNb data fr).2.1.nextOutputFrameStartTime =
        h.nextOutputFrameStartTime) ∧
    ((PrepareOutputSample env calls h frameNb data fr).1 = true →
      ∃ s, (PrepareOutputSample env calls h frameNb data fr).2.2 = some s ∧
        s.startTime = h.nextOutputFrameStartTime ∧
        s.stopTime = h.nextOutputFrameStartTime + frameDuration env fr ∧
        s.frame = fr ∧ s.discontinuity = decide (frameNb = 0) ∧
        fr.durationNum.isSome = true ∧ fr.durationDen.isSome = true ∧
        (PrepareOutputSample env calls h frameNb data fr).2.1.nextOutputFrameStartTime =
          s.stopTime) := by
  unfold PrepareOutputSample frameDuration
  split
  · rename_i n d hn hd
    simp only [hn, hd]
    split
    · simp
    · split
      · split <;> simp
      · split
        · split <;> simp
        · split
          · split <;> simp
          · split <;> simp [RefreshOutputFrameRates]
  · simp

/-- What a worker pass that processes a slot does to the presentation cursor, and what the
sample it delivers looks like. -/
theorem WorkerProc_processed_time {env : Environment} {calls : DeliveryCalls}
    {h h' : FrameHandler} {K S : Int} {d : Option OutputMediaSample}
    (hres : WorkerProc env calls h = .processed h' K S d) :
    (d = none → h'.nextOutputFrameStartTime = h.nextOutputFrameStartTime) ∧
    (∀ s, d = some s → s.startTime = h.nextOutputFrameStartTime ∧
      s.stopTime = s.startTime + frameDuration env s.frame ∧
      s.frame.durationNum.isSome = true ∧ s.frame.durationDen.isSome = true ∧
      s.discontinuity = decide (K = 0) ∧ h'.nextOutputFrameStartTime = s.stopTime) := by
  unfold WorkerProc at hres
  split at hres
  · split at hres
    · cases hres
    · split at hres <;> cases hres
  split at hres
  · cases hres
  split at hres
  · cases hres
  · rename_i data hfind
    split at hres
    · cases hres
    · rename_i fr hfr
      have hp := PrepareOutputSample_result env calls
        { h with nextOutputSourceFrameNb := data.sourceFrameNb } h.nextDeliveryFrameNb data fr
      simp only [GarbageCollect] at hres
      injection hres with h1 h2 h3 h4
      subst h1 h2 h3
      cases hb : (PrepareOutputSample env calls
        { h with nextOutputSourceFrameNb := data.sourceFrameNb }
        h.nextDeliveryFrameNb data fr).1
      · rw [hb] at h4
        simp only [Bool.false_eq_true, if_false] at h4
        subst h4
        exact ⟨fun _ => hp.1 hb, fun s hs => by cases hs⟩
      · obtain ⟨s, hs, p1, p2, p3, p4, p5, p6, p7⟩ := hp.2 hb
        rw [hb, hs] at h4
        simp only [if_true] at h4
        subst h4
        refine ⟨fun hc => (by cases hc), ?_⟩
        intro s' hs'
        cases hs'
        refine ⟨p1, ?_, ?_, ?_, p4, p7⟩
        · rw [p2, p1, p3]
        · rw [p3]; exact p5
        · rw [p3]; exact p6

theorem accepted_nil_iff {h : FrameHandler} {log : List Obs} (hi : Inv h)
    (hl : LogInv h log) : acceptedOf log = [] ↔ h.nextSourceFrameNb = 0 := by
  have := acceptedOf_length hi hl
  constructor
  · intro hn
    rw [hn] at this
    simpa using this.symm
  · intro hn
    rw [hn] at this
    exact List.length_eq_zero.mp (by exact_mod_cast this)

theorem TimeInv_resetState (env : Environment) : TimeInv env resetState [] :=
  ⟨fun _ => rfl, by simp [acceptedOf]⟩

/-- The relation between the delivered samples and the presentation cursor is kept by every
call other than a flush call. -/
theorem step_timeInv (env : Environment) (h : FrameHandler) (log : List Obs) (e : Event)
    (h' : FrameHandler) (obs : List Obs) (hi : Inv h)
    (hp : LogInv h log ∧ TimeInv env h log ∧ SampleInv log)
    (he : e.isFlush = false) (hres : step env h e = some (h', obs)) :
    LogInv h' (log ++ obs) ∧ TimeInv env h' (log ++ obs) ∧ SampleInv (log ++ obs) := by
  obtain ⟨hl, ⟨ht1, ht2⟩, hsm⟩ := hp
  refine ⟨step_logInv env h log e h' obs hi hl he hres, ?_⟩
  have hnil := accepted_nil_iff hi hl
  -- a call that adds nothing to the log and keeps the cursor
  have quiet : ∀ h1 : FrameHandler,
      h1.nextOutputFrameStartTime = h.nextOutputFrameStartTime →
      TimeInv env h1 (log ++ []) ∧ SampleInv (log ++ []) := by
    intro h1 hc
    rw [List.append_nil]
    exact ⟨⟨ht1, fun a ha => by rw [hc]; exact ht2 a ha⟩, hsm⟩
  cases e with
  | addInputSample sample =>
    simp only [step] at hres
    split at hres
    · cases hres
      exact quiet _ rfl
    · rename_i h1 reqs hr
      cases hres
      have hc := (AddInputSample_cursor hr).1
      have ha : acceptedOf (log ++ [Obs.rejected]) = acceptedOf log := by
        simp [acceptedOf_append, acceptedOf]
      have hd : deliveredOf (log ++ [Obs.rejected]) = deliveredOf log := by
        simp [deliveredOf_append, deliveredOf]
      refine ⟨⟨?_, ?_⟩, ?_⟩
      · rw [ha, hd]; exact ht1
      · rw [ha, hd]
        intro a hmem
        have hne : h.nextSourceFrameNb ≠ 0 := by
          intro h0
          rw [hnil.mpr h0] at hmem
          cases hmem
        rw [hc hne]
        exact ht2 a hmem
      · unfold SampleInv
        rw [hd]
        exact hsm
    · rename_i h1 reqs hr
      cases hres
      have hc := AddInputSample_cursor hr
      have ha : acceptedOf (log ++
          [Obs.accepted h.nextSourceFrameNb (inputSampleStartTime env h sample) reqs]) =
          acceptedOf log ++ [(h.nextSourceFrameNb, inputSampleStartTime env h sample)] := by
        simp [acceptedOf_append, acceptedOf]
      have hd : deliveredOf (log ++
          [Obs.accepted h.nextSourceFrameNb (inputSampleStartTime env h sample) reqs]) =
          deliveredOf log := by
        simp [deliveredOf_append, deliveredOf]
      refine ⟨⟨?_, ?_⟩, ?_⟩
      · rw [ha]
        intro hcon
        simp at hcon
      · rw [ha, hd]
        intro a hmem
        by_cases h0 : h.nextSourceFrameNb = 0
        · have hn := hnil.mpr h0
          rw [hn] at hmem
          simp only [List.nil_append, List.head?_cons, Option.mem_def, Option.some.injEq] at hmem
          subst hmem
          rw [ht1 hn, hc.2 rfl h0]
          simp [chainedFrom]
        · have hne : acceptedOf log ≠ [] := fun hn => h0 (hnil.mp hn)
          rw [List.head?_append_of_ne_nil _ hne] at hmem
          rw [hc.1 h0]
          exact ht2 a hmem
      · unfold SampleInv
        rw [hd]
        exact hsm
  | vpsGetFrameCallback f n =>
    simp only [step] at hres
    split at hres
    · cases hres
    · rename_i h1 hr
      cases hres
      apply quiet
      unfold VpsGetFrameCallback at hr
      split at hr
      · cases hr; rfl
      · split at hr
        · cases hr; rfl
        · split at hr
          · cases hr
          · cases hr; rfl
  | worker calls =>
    simp only [step] at hres
    rcases WorkerProc_cases env calls hi with hw | ⟨h1, K, S, d, hw⟩
    · rw [hw] at hres
      cases hres
      exact quiet _ rfl
    · rw [hw] at hres
      cases hres
      obtain ⟨t1, t2⟩ := WorkerProc_processed_time hw
      have ha : acceptedOf (log ++ [Obs.processed K S d]) = acceptedOf log := by
        simp [acceptedOf_append, acceptedOf]
      cases d with
      | none =>
        have hd : deliveredOf (log ++ [Obs.processed K S none]) = deliveredOf log := by
          simp [deliveredOf_append, deliveredOf]
        refine ⟨⟨?_, ?_⟩, ?_⟩
        · rw [ha, hd]; exact ht1
        · rw [ha, hd, t1 rfl]; exact ht2
        · unfold SampleInv
          rw [hd]
          exact hsm
      | some s =>
        obtain ⟨s1, s2, s3, s4, s5, s6⟩ := t2 s rfl
        have hd : deliveredOf (log ++ [Obs.processed K S (some s)]) =
            deliveredOf log ++ [(K, s)] := by
          simp [deliveredOf_append, deliveredOf]
        -- a slot exists, so a frame was accepted
        obtain ⟨-, ⟨data, rest, hcons, hS, -, -⟩, -⟩ := WorkerProc_processed hi hw
        have hmem : (K, data) ∈ h.outputSamples := by rw [hcons]; exact List.mem_cons_self _ _
        have hSb := hi.slotSrc _ hmem
        have hne : acceptedOf log ≠ [] := by
          intro hn
          have := hnil.mp hn
          have := hi.srcLo
          omega
        refine ⟨⟨?_, ?_⟩, ?_⟩
        · rw [ha]
          intro hn
          exact absurd hn hne
        · rw [ha, hd]
          intro a hmem
          obtain ⟨c1, c2⟩ := ht2 a hmem
          refine ⟨?_, ?_⟩
          · rw [chainedFrom_append]
            exact ⟨c1, by rw [s1, c2], s2⟩
          · rw [s6, s2, s1, c2]
            simp only [List.map_append, List.map_cons, List.map_nil, List.sum_append,
              List.sum_cons, List.sum_nil, add_zero]
            ring
        · unfold SampleInv
          rw [hd]
          intro e he
          rcases List.mem_append.mp he with h1 | h1
          · exact hsm e h1
          · rw [List.mem_singleton.mp h1]
            exact ⟨s3, s4, s5⟩
  | beginFlush => cases he
  | endFlush => cases he

/-- Every schedule without flush calls from the reset state keeps the delivered samples
chained to the presentation cursor. -/
theorem run_timeInv {env : Environment} {evs : List Event} {h : FrameHandler} {log : List Obs}
    (hev : ∀ e ∈ evs, e.isFlush = false) (hres : run env resetState evs = some (h, log)) :
    Inv h ∧ LogInv h log ∧ TimeInv env h log ∧ SampleInv log := by
  have := run_preserves env (fun h log => LogInv h log ∧ TimeInv env h log ∧ SampleInv log)
    (step_timeInv env) evs resetState [] h log Inv_resetState
    ⟨LogInv_resetState, TimeInv_resetState env, by simp [SampleInv, deliveredOf]⟩ hev hres
  simpa using this

/-- C18: in a session without a flush, samples are delivered only after a frame was accepted
and the first delivered sample starts at the start time of the first accepted frame; every
delivered sample carries both duration properties and stops at
`start + trunc(_DurationNum * UNITS / _DurationDen)`; each next delivered sample starts at the
stop time of the one before, and the cursor stands at the stop time of the last one; when all
durations are positive the start times increase strictly; the last stop time minus the first
start time is the sum of the durations; and `PrepareOutputSample` on a frame that lacks a
duration property returns false and leaves the whole state, cursor and output checkpoint
included, as it was. -/
theorem presentation_time_cursor (env : Environment) (evs : List Event) (h : FrameHandler)
    (log : List Obs) (hev : ∀ e ∈ evs, e.isFlush = false)
    (hres : run env resetState evs = some (h, log)) :
    (deliveredOf log ≠ [] → acceptedOf log ≠ []) ∧
    (∀ a ∈ (acceptedOf log).head?, ∀ e ∈ (deliveredOf log).head?, e.2.startTime = a.2) ∧
    (∀ e ∈ deliveredOf log, ∃ num den, e.2.frame.durationNum = some num ∧
      e.2.frame.durationDen = some den ∧
      frameDuration env e.2.frame = Int.tdiv (num * env.UNITS) den ∧
      e.2.stopTime = e.2.startTime + Int.tdiv (num * env.UNITS) den) ∧
    (deliveredOf log).Chain' (fun a b => b.2.startTime = a.2.stopTime) ∧
    (∀ e ∈ (deliveredOf log).getLast?, h.nextOutputFrameStartTime = e.2.stopTime) ∧
    ((∀ e ∈ deliveredOf log, 0 < frameDuration env e.2.frame) →
      (deliveredOf log).Pairwise (fun a b => a.2.startTime < b.2.startTime)) ∧
    (∀ e0 ∈ (deliveredOf log).head?, ∀ el ∈ (deliveredOf log).getLast?,
      el.2.stopTime - e0.2.startTime =
        ((deliveredOf log).map (fun e => frameDuration env e.2.frame)).sum) ∧
    (∀ (calls : DeliveryCalls) (h0 : FrameHandler) (frameNb : Int) (data : OutputSampleData)
      (fr : VSFrameRef), fr.durationNum = none ∨ fr.durationDen = none →
      PrepareOutputSample env calls h0 frameNb data fr = (false, h0, none)) := by
  obtain ⟨-, -, ⟨ht1, ht2⟩, hsm⟩ := run_timeInv hev hres
  have hne : deliveredOf log ≠ [] → acceptedOf log ≠ [] := fun hd ha => hd (ht1 ha)
  -- the first accepted frame, when something was delivered
  have hfirst : deliveredOf log ≠ [] → ∃ a, a ∈ (acceptedOf log).head? := by
    intro hd
    cases hacc : acceptedOf log with
    | nil => exact absurd hacc (hne hd)
    | cons a rest => exact ⟨a, by simp⟩
  refine ⟨hne, ?_, ?_, ?_, ?_, ?_, ?_, ?_⟩
  · intro a ha e he
    exact chainedFrom_head (ht2 a ha).1 e he
  · intro e he
    obtain ⟨a, ha⟩ := hfirst (List.ne_nil_of_mem he)
    have hstop := chainedFrom_each (ht2 a ha).1 e he
    obtain ⟨s1, s2, -⟩ := hsm e he
    obtain ⟨num, hn⟩ := Option.isSome_iff_exists.mp s1
    obtain ⟨den, hd⟩ := Option.isSome_iff_exists.mp s2
    have hdur : frameDuration env e.2.frame = Int.tdiv (num * env.UNITS) den := by
      simp [frameDuration, hn, hd, llMulDiv]
    exact ⟨num, den, hn, hd, hdur, by rw [hstop, hdur]⟩
  · cases hd : deliveredOf log with
    | nil => exact List.chain'_nil
    | cons x rest =>
      obtain ⟨a, ha⟩ := hfirst (by rw [hd]; simp)
      rw [← hd]
      exact chainedFrom_chain (ht2 a ha).1
  · intro e he
    obtain ⟨a, ha⟩ := hfirst (by intro hn; rw [hn] at he; cases he)
    rw [(ht2 a ha).2, chainedFrom_last (ht2 a ha).1 e he]
  · intro hpos
    cases hd : deliveredOf log with
    | nil => exact List.Pairwise.nil
    | cons x rest =>
      obtain ⟨a, ha⟩ := hfirst (by rw [hd]; simp)
      rw [← hd]
      exact (chainedFrom_increasing (ht2 a ha).1 hpos).2
  · intro e0 he0 el hel
    obtain ⟨a, ha⟩ := hfirst (by intro hn; rw [hn] at he0; cases he0)
    rw [chainedFrom_last (ht2 a ha).1 el hel, chainedFrom_head (ht2 a ha).1 e0 he0]
    ring
  · intro calls h0 frameNb data fr hfr
    unfold PrepareOutputSample
    rcases hfr with hfr | hfr
    · rw [hfr]
    · rw [hfr]
      cases fr.durationNum <;> rfl

theorem presentation_time_cursor_witness :
    ∃ h log, run envW resetState scheduleC18 = some (h, log) ∧
      acceptedOf log = [(0, 10), (1, 20), (2, 30)] ∧
      (deliveredOf log).map (fun e => (e.1, e.2.startTime, e.2.stopTime)) =
        [(0, 10, 333343), (2, 333343, 733343)] ∧
      h.nextOutputFrameStartTime = 733343 ∧
      (deliveredOf log).Chain' (fun a b => b.2.startTime = a.2.stopTime) :=
  ⟨_, _, rfl, rfl, rfl, rfl,
    (presentation_time_cursor envW scheduleC18 _ _ (by decide) rfl).2.2.2.1⟩

/-- In a session without a flush the discontinuity flag of a delivered sample is set exactly
when the sample has output index 0. -/
theorem discontinuity_iff_index_zero {env : Environment} {evs : List Event} {h : FrameHandler}
    {log : List Obs} (hev : ∀ e ∈ evs, e.isFlush = false)
    (hres : run env resetState evs = some (h, log)) :
    ∀ e ∈ deliveredOf log, e.2.discontinuity = true ↔ e.1 = 0 := by
  obtain ⟨-, -, -, hsm⟩ := run_timeInv hev hres
  intro e he
  rw [(hsm e he).2.2]
  simp

/-- C19 (the code departs from the claim): `PrepareOutputSample` sets the discontinuity flag
only for output index 0. When the frame of output 0 lacks its duration properties the worker
skips it, the first sample delivered downstream is the one of output 1, and it does not carry
the flag: no sample of the session does. -/
theorem discontinuity_lost_when_first_output_skipped :
    ∃ h log s, run envW resetState scheduleC19 = some (h, log) ∧
      processedOf log = [0, 1] ∧ deliveredOf log = [(1, s)] ∧ s.discontinuity = false :=
  ⟨_, _, _, rfl, rfl, rfl, rfl⟩

/-- With an empty source table a submission whose start time is not positive returns
`S_FALSE` and leaves the handler as it was. -/
theorem AddInputSample_empty_table {env : Environment} {h : FrameHandler} (sample : MediaSample)
    (hN : 0 < env.NUM_SRC_FRAMES_PER_PROCESSING) (he : h.sourceFrames = [])
    (ht : inputSampleStartTime env h sample ≤ 0) :
    AddInputSample env h sample = .returned .S_FALSE h [] := by
  have hw : addInputSampleWait env h = true := by
    unfold addInputSampleWait
    split
    · rfl
    · rw [he]
      simp [hN]
  have hl : lastSampleStartTime h = 0 := by simp [lastSampleStartTime, he]
  unfold AddInputSample
  rw [hw]
  simp only [Bool.not_true, Bool.false_eq_true, if_false]
  split
  · rfl
  · simp only [hl]
    rw [if_pos ht]

/-- With both tables empty and the next source index 0, a call that is not the submission of
a timed sample keeps them so; a submission is rejected, every other call is silent. -/
theorem step_empty {env : Environment} {h h' : FrameHandler} {e : Event} {obs : List Obs}
    (hN : 0 < env.NUM_SRC_FRAMES_PER_PROCESSING)
    (hi : h.sourceFrames = [] ∧ h.outputSamples = [] ∧ h.nextSourceFrameNb = 0)
    (he : e.isTimedSample = false) (hres : step env h e = some (h', obs)) :
    (h'.sourceFrames = [] ∧ h'.outputSamples = [] ∧ h'.nextSourceFrameNb = 0) ∧
      obs = if e.isSubmission then [Obs.rejected] else [] := by
  obtain ⟨h1, h2, h3⟩ := hi
  cases e with
  | addInputSample sample =>
    have hnone : sample.time = none := by
      simp only [Event.isTimedSample] at he
      cases ht : sample.time with
      | none => rfl
      | some t => rw [ht] at he; cases he
    have ht : inputSampleStartTime env h sample ≤ 0 := by
      simp [inputSampleStartTime, hnone, h3]
    simp only [step, AddInputSample_empty_table sample hN h1 ht] at hres
    cases hres
    exact ⟨⟨h1, h2, h3⟩, rfl⟩
  | vpsGetFrameCallback f n =>
    simp only [step] at hres
    split at hres
    · cases hres
    · rename_i hr hcb
      cases hres
      unfold VpsGetFrameCallback at hcb
      split at hcb
      · cases hcb
        exact ⟨⟨h1, h2, h3⟩, rfl⟩
      · split at hcb
        · cases hcb
          exact ⟨⟨h1, by simp [h2, OrdMap.erase], h3⟩, rfl⟩
        · rw [h2] at hcb
          simp [OrdMap.find] at hcb
  | worker calls =>
    simp only [step] at hres
    cases hl : h.isWorkerLatched <;> cases hf : h.isFlushing <;> cases hs : h.isStopping <;>
      simp only [WorkerProc, hl, hf, hs, h2, OrdMap.find, Bool.false_eq_true, if_false,
        if_true, Option.some.injEq, Prod.mk.injEq] at hres <;>
      obtain ⟨rfl, rfl⟩ := hres <;>
      exact ⟨⟨h1, by first | exact h2 | rfl, h3⟩, rfl⟩
  | beginFlush =>
    simp only [step, BeginFlush] at hres
    split at hres
    · cases hres
      exact ⟨⟨h1, h2, h3⟩, rfl⟩
    · rename_i hr hb
      cases hres
      split at hb
      · cases hb
      · cases hb
        exact ⟨⟨h1, h2, h3⟩, rfl⟩
  | endFlush =>
    simp only [step, EndFlush] at hres
    split at hres
    · cases hres
      exact ⟨⟨h1, h2, h3⟩, rfl⟩
    · rename_i hr hb
      cases hres
      split at hb
      · cases hb
      · split at hb
        · cases hb
        · cases hb
          exact ⟨⟨rfl, rfl, rfl⟩, rfl⟩

/-- A schedule without submissions of timed samples keeps both tables empty and the next
source index at 0; its log is one rejection for each submission. -/
theorem run_empty {env : Environment} (hN : 0 < env.NUM_SRC_FRAMES_PER_PROCESSING) :
    ∀ (evs : List Event) (h h' : FrameHandler) (log : List Obs),
      (h.sourceFrames = [] ∧ h.outputSamples = [] ∧ h.nextSourceFrameNb = 0) →
      (∀ e ∈ evs, e.isTimedSample = false) → run env h evs = some (h', log) →
      (h'.sourceFrames = [] ∧ h'.outputSamples = [] ∧ h'.nextSourceFrameNb = 0) ∧
        log = (evs.filter Event.isSubmission).map (fun _ => Obs.rejected) := by
  intro evs
  induction evs with
  | nil =>
    intro h h' log hi _ hres
    simp only [run, Option.some.injEq, Prod.mk.injEq] at hres
    obtain ⟨rfl, rfl⟩ := hres
    exact ⟨hi, rfl⟩
  | cons e es ih =>
    intro h h' log hi hev hres
    simp only [run] at hres
    split at hres
    · cases hres
    · rename_i h1 o1 hs
      split at hres
      · cases hres
      · rename_i h2 o2 hr
        cases hres
        obtain ⟨hi1, ho1⟩ := step_empty hN hi (hev e (List.mem_cons_self _ _)) hs
        obtain ⟨hi2, ho2⟩ := ih h1 _ _ hi1 (fun x hx => hev x (List.mem_cons_of_mem _ hx)) hr
        refine ⟨hi2, ?_⟩
        rw [ho1, ho2]
        cases hsub : e.isSubmission <;> simp [List.filter, hsub]

/-- C23: with a positive `NUM_SRC_FRAMES_PER_PROCESSING`, when the source table is empty the
last start time is 0 and a submission whose start time is `<= 0` returns `S_FALSE` with the
handler, its next source index included, as it was; a sample without a start time gets the
start time `nextSourceFrameNb * sourceAvgFrameDuration`, which is 0 at index 0; and every
schedule from the reset state whose submissions are all untimed, whatever completions, worker
passes and flush calls lie in between, rejects each of them and ends with the next source index
0 and an empty source table. -/
theorem zero_start_time_on_empty_table (env : Environment)
    (hN : 0 < env.NUM_SRC_FRAMES_PER_PROCESSING) :
    (∀ (h : FrameHandler) (sample : MediaSample), h.sourceFrames = [] →
      lastSampleStartTime h = 0 ∧
      (inputSampleStartTime env h sample ≤ 0 →
        AddInputSample env h sample = .returned .S_FALSE h [])) ∧
    (∀ (h : FrameHandler) (sample : MediaSample), sample.time = none →
      inputSampleStartTime env h sample = h.nextSourceFrameNb * env.sourceAvgFrameDuration ∧
      (h.nextSourceFrameNb = 0 → inputSampleStartTime env h sample = 0)) ∧
    (∀ (evs : List Event) (h : FrameHandler) (log : List Obs),
      (∀ e ∈ evs, e.isTimedSample = false) → run env resetState evs = some (h, log) →
      h.nextSourceFrameNb = 0 ∧ h.sourceFrames = [] ∧
      log = (evs.filter Event.isSubmission).map (fun _ => Obs.rejected)) := by
  refine ⟨?_, ?_, ?_⟩
  · intro h sample he
    exact ⟨by simp [lastSampleStartTime, he],
      fun ht => AddInputSample_empty_table sample hN he ht⟩
  · intro h sample hs
    have h1 : inputSampleStartTime env h sample =
        h.nextSourceFrameNb * env.sourceAvgFrameDuration := by
      simp [inputSampleStartTime, hs]
    exact ⟨h1, fun h0 => by rw [h1, h0, zero_mul]⟩
  · intro evs h log hev hres
    obtain ⟨⟨a, -, c⟩, d⟩ := run_empty hN evs resetState h log ⟨rfl, rfl, rfl⟩ hev hres
    exact ⟨c, a, d⟩

theorem zero_start_time_on_empty_table_witness :
    (0 : Int) < envW.NUM_SRC_FRAMES_PER_PROCESSING ∧
    AddInputSample envW resetState sampleUntimed = .returned .S_FALSE resetState [] ∧
    ∃ h log, run envW resetState scheduleC23 = some (h, log) ∧
      log = [.rejected, .rejected, .rejected, .rejected] ∧
      (h.nextSourceFrameNb = 0 ∧ h.sourceFrames = [] ∧
        log = (scheduleC23.filter Event.isSubmission).map (fun _ => Obs.rejected)) :=
  ⟨by decide, rfl, _, _, rfl, rfl,
    (zero_start_time_on_empty_table envW (by decide)).2.2 scheduleC23 _ _ (by decide) rfl⟩

theorem dispatchCount_succ (env : Environment) {k : Int} (hk : 0 ≤ k) :
    dispatchCount env (k + 1) =
      llMulDiv k env.sourceAvgFrameDuration env.scriptAvgFrameDuration 0 + 1 := by
  unfold dispatchCount
  rw [if_neg (by omega)]
  congr 2
  omega

theorem dispatchCount_mono (env : Environment) (ha : 0 < env.sourceAvgFrameDuration)
    (hb : 0 < env.scriptAvgFrameDuration) {k k' : Int} (hkk : k ≤ k') :
    dispatchCount env k ≤ dispatchCount env k' := by
  have h0 : llMulDiv 0 env.sourceAvgFrameDuration env.scriptAvgFrameDuration 0 = 0 := by
    simp [llMulDiv]
  unfold dispatchCount
  split
  · split
    · exact le_refl _
    · have := llMulDiv_mono 0 (k' - 1) (le_refl 0) (by omega) (le_of_lt ha) hb
      omega
  · rw [if_neg (by omega)]
    have := llMulDiv_mono (k - 1) (k' - 1) (by omega) (by omega) (le_of_lt ha) hb
    omega

/-- The range requested by the submission with source index `k >= 1`, in the words of the
claim: the `n` with `floor((k - 1) * a / b) < n <= floor(k * a / b)`. -/
theorem mem_dispatch_range (env : Environment) (hb : 0 < env.scriptAvgFrameDuration)
    (ha : 0 < env.sourceAvgFrameDuration) {k : Int} (hk : 1 ≤ k) (n : Int) :
    n ∈ intRange (dispatchCount env k) (dispatchCount env (k + 1)) ↔
      (k - 1) * env.sourceAvgFrameDuration / env.scriptAvgFrameDuration < n ∧
      n ≤ k * env.sourceAvgFrameDuration / env.scriptAvgFrameDuration := by
  have h1 : dispatchCount env k =
      (k - 1) * env.sourceAvgFrameDuration / env.scriptAvgFrameDuration + 1 := by
    have := dispatchCount_succ env (show 0 ≤ k - 1 by omega)
    rw [show k - 1 + 1 = k by omega] at this
    rw [this, llMulDiv_eq_ediv (by omega) (le_of_lt ha) (le_of_lt hb)]
  have h2 : dispatchCount env (k + 1) =
      k * env.sourceAvgFrameDuration / env.scriptAvgFrameDuration + 1 := by
    rw [dispatchCount_succ env (by omega),
      llMulDiv_eq_ediv (by omega) (le_of_lt ha) (le_of_lt hb)]
  rw [mem_intRange, h1, h2]
  omega

theorem dispatch_range_zero (env : Environment) :
    intRange (dispatchCount env 0) (dispatchCount env (0 + 1)) = [0] := by
  have h0 : llMulDiv 0 env.sourceAvgFrameDuration env.scriptAvgFrameDuration 0 = 0 := by
    simp [llMulDiv]
  rw [dispatchCount_succ env (le_refl 0), h0]
  simp [dispatchCount, intRange, List.range_succ]

/-- What an accepted submission requests in a state whose next output index is
`dispatchCount` of its next source index. -/
theorem AddInputSample_dispatch {env : Environment} (ha : 0 < env.sourceAvgFrameDuration)
    (hb : 0 < env.scriptAvgFrameDuration) {h h' : FrameHandler} {sample : MediaSample}
    {reqs : List Int} (hi : Inv h)
    (hp : h.nextOutputFrameNb = dispatchCount env h.nextSourceFrameNb)
    (hr : AddInputSample env h sample = .returned .S_OK h' reqs) :
    reqs = intRange (dispatchCount env h.nextSourceFrameNb)
        (dispatchCount env (h.nextSourceFrameNb + 1)) ∧
      h'.outputSamples =
        h.outputSamples ++ newSlots h.nextSourceFrameNb sample.sideData reqs := by
  obtain ⟨-, -, -, -, -, hreq, hout, hno, hns, -, -, -, -, -⟩ :=
    AddInputSample_accepted hr hi.outKeys_lt hi.srcKeys_lt
  have hge : 0 ≤ h.nextSourceFrameNb := le_trans hi.srcLo hi.srcHi
  have hmono := dispatchCount_mono env ha hb (show h.nextSourceFrameNb ≤
    h.nextSourceFrameNb + 1 by omega)
  refine ⟨?_, hout⟩
  rw [hreq, hp, ← dispatchCount_succ env hge, max_eq_right hmono]

theorem step_dispatchInv (env : Environment) (ha : 0 < env.sourceAvgFrameDuration)
    (hb : 0 < env.scriptAvgFrameDuration) (h : FrameHandler) (log : List Obs) (e : Event)
    (h' : FrameHandler) (obs : List Obs) (hi : Inv h) (hp : DispatchInv env h log)
    (he : e.isFlush = false) (hres : step env h e = some (h', obs)) :
    DispatchInv env h' (log ++ obs) := by
  refine ⟨step_dispatchCount env ha hb h log e h' obs hi hp.1 he hres, ?_⟩
  intro k t reqs hmem
  rcases List.mem_append.mp hmem with hm | hm
  · exact hp.2 k t reqs hm
  · rcases step_cases hi he hres with ⟨rfl, -⟩ | ⟨rfl, -⟩ |
      ⟨sample, reqs', rfl, hr⟩ | ⟨calls, K, S, d, rfl, -⟩
    · cases hm
    · simp at hm
    · simp only [List.mem_singleton, Obs.accepted.injEq] at hm
      obtain ⟨rfl, -, rfl⟩ := hm
      exact ⟨le_trans hi.srcLo hi.srcHi, (AddInputSample_dispatch ha hb hi hp.1 hr).1⟩
    · simp at hm

theorem source_mono_in_key {l : List (Int × OutputSampleData)}
    (hk : (OrdMap.keys l).Pairwise (· < ·))
    (hm : l.Pairwise (fun a b => a.2.sourceFrameNb ≤ b.2.sourceFrameNb)) :
    ∀ e ∈ l, ∀ e' ∈ l, e.1 ≤ e'.1 → e.2.sourceFrameNb ≤ e'.2.sourceFrameNb := by
  induction l with
  | nil => simp
  | cons x rest ih =>
    simp only [OrdMap.keys, List.map_cons, List.pairwise_cons, List.mem_map,
      forall_exists_index, and_imp, forall_apply_eq_imp_iff₂] at hk
    rw [List.pairwise_cons] at hm
    intro e he e' he' hle
    rcases List.mem_cons.mp he with rfl | h1
    · rcases List.mem_cons.mp he' with rfl | h2
      · exact le_refl _
      · exact hm.1 e' h2
    · rcases List.mem_cons.mp he' with rfl | h2
      · have := hk.1 e h1
        omega
      · exact ih hk.2 hm.2 e h1 e' h2 hle

/-- C22: for positive durations `a` (source) and `b` (script), in every schedule without a
flush from the reset state the accepted submission with source index `k` requested exactly
the output indices `n` with `floor((k - 1) * a / b) < n <= floor(k * a / b)`, each once and in
increasing order, and for `k = 0` exactly index 0; an accepted submission appends one new slot
for each index it requests, referring to its own source index; after `N >= 1` accepted
submissions the next output index is `floor((N - 1) * a / b) + 1`; the source index of a slot
is non-decreasing in the output index, among the buffered slots and among all requests of the
log; and when `a < b` the submission with source index 1 requests nothing. -/
theorem per_submission_dispatch (env : Environment) (evs : List Event) (h : FrameHandler)
    (log : List Obs) (ha : 0 < env.sourceAvgFrameDuration)
    (hb : 0 < env.scriptAvgFrameDuration) (hev : ∀ e ∈ evs, e.isFlush = false)
    (hres : run env resetState evs = some (h, log)) :
    (∀ k t reqs, Obs.accepted k t reqs ∈ log →
      0 ≤ k ∧ reqs.Pairwise (· < ·) ∧ (k = 0 → reqs = [0]) ∧
      (1 ≤ k → ∀ n, n ∈ reqs ↔
        (k - 1) * env.sourceAvgFrameDuration / env.scriptAvgFrameDuration < n ∧
        n ≤ k * env.sourceAvgFrameDuration / env.scriptAvgFrameDuration) ∧
      (k = 1 → env.sourceAvgFrameDuration < env.scriptAvgFrameDuration → reqs = [])) ∧
    (∀ sample h' reqs, AddInputSample env h sample = .returned .S_OK h' reqs →
      h'.outputSamples =
        h.outputSamples ++ newSlots h.nextSourceFrameNb sample.sideData reqs ∧
      (h.nextSourceFrameNb = 0 → reqs = [0]) ∧
      (1 ≤ h.nextSourceFrameNb → ∀ n, n ∈ reqs ↔
        (h.nextSourceFrameNb - 1) * env.sourceAvgFrameDuration / env.scriptAvgFrameDuration
          < n ∧
        n ≤ h.nextSourceFrameNb * env.sourceAvgFrameDuration / env.scriptAvgFrameDuration)) ∧
    ((acceptedOf log).length : Int) = h.nextSourceFrameNb ∧
    (1 ≤ h.nextSourceFrameNb → h.nextOutputFrameNb =
      (h.nextSourceFrameNb - 1) * env.sourceAvgFrameDuration / env.scriptAvgFrameDuration
        + 1) ∧
    (∀ e ∈ h.outputSamples, ∀ e' ∈ h.outputSamples, e.1 ≤ e'.1 →
      e.2.sourceFrameNb ≤ e'.2.sourceFrameNb) ∧
    (∀ k t reqs k' t' reqs', Obs.accepted k t reqs ∈ log → Obs.accepted k' t' reqs' ∈ log →
      ∀ n ∈ reqs, ∀ n' ∈ reqs', n ≤ n' → k ≤ k') := by
  obtain ⟨hi, hp, hlog⟩ := run_preserves env (DispatchInv env) (step_dispatchInv env ha hb)
    evs resetState [] h log Inv_resetState
    ⟨by simp [resetState, dispatchCount], by simp⟩ hev hres
  rw [List.nil_append] at hlog
  have hl := (run_inv hev hres).2
  refine ⟨?_, ?_, acceptedOf_length hi hl, ?_, ?_, ?_⟩
  · intro k t reqs hm
    obtain ⟨hk, hr⟩ := hlog k t reqs hm
    refine ⟨hk, by rw [hr]; exact intRange_pairwise _ _, ?_, ?_, ?_⟩
    · intro h0
      rw [hr, h0]
      exact dispatch_range_zero env
    · intro h1 n
      rw [hr]
      exact mem_dispatch_range env hb ha h1 n
    · intro h1 hlt
      have hmem := mem_dispatch_range env hb ha (show (1 : Int) ≤ k by omega)
      rw [← hr] at hmem
      apply List.eq_nil_iff_forall_not_mem.mpr
      intro n hn
      have := (hmem n).mp hn
      rw [h1] at this
      have e1 : (1 - 1) * env.sourceAvgFrameDuration / env.scriptAvgFrameDuration = 0 := by
        simp
      have e2 : 1 * env.sourceAvgFrameDuration / env.scriptAvgFrameDuration = 0 := by
        rw [one_mul]
        exact Int.ediv_eq_zero_of_lt (le_of_lt ha) hlt
      rw [e1, e2] at this
      omega
  · intro sample h' reqs hr
    obtain ⟨h1, h2⟩ := AddInputSample_dispatch ha hb hi hp hr
    refine ⟨h2, ?_, ?_⟩
    · intro h0
      rw [h1, h0]
      exact dispatch_range_zero env
    · intro hk n
      rw [h1]
      exact mem_dispatch_range env hb ha hk n
  · intro hN
    rw [hp]
    have := dispatchCount_succ env (show 0 ≤ h.nextSourceFrameNb - 1 by omega)
    rw [show h.nextSourceFrameNb - 1 + 1 = h.nextSourceFrameNb by omega] at this
    rw [this, llMulDiv_eq_ediv (by omega) (le_of_lt ha) (le_of_lt hb)]
  · refine source_mono_in_key ?_ hi.slotMono
    rw [hi.outKeys]
    exact intRange_pairwise _ _
  · intro k t reqs k' t' reqs' hm hm' n hn n' hn' hle
    obtain ⟨hk, hr⟩ := hlog k t reqs hm
    obtain ⟨hk', hr'⟩ := hlog k' t' reqs' hm'
    rw [hr, mem_intRange] at hn
    rw [hr', mem_intRange] at hn'
    by_contra hc
    have := dispatchCount_mono env ha hb (show k' + 1 ≤ k by omega)
    omega

theorem per_submission_dispatch_witness :
    ∃ h log, run env21 resetState scheduleC2 = some (h, log) ∧
      log = [.accepted 0 10 [0], .accepted 1 20 [1, 2], .accepted 2 30 [3, 4]] ∧
      h.nextOutputFrameNb = 5 ∧
      (∃ h2 log2, run env12 resetState scheduleC2 = some (h2, log2) ∧
        log2 = [.accepted 0 10 [0], .accepted 1 20 [], .accepted 2 30 [1]]) ∧
      (∀ k t reqs k' t' reqs', Obs.accepted k t reqs ∈ log → Obs.accepted k' t' reqs' ∈ log →
        ∀ n ∈ reqs, ∀ n' ∈ reqs', n ≤ n' → k ≤ k') :=
  ⟨_, _, rfl, rfl, rfl, ⟨_, _, rfl, rfl⟩,
    (per_submission_dispatch env21 scheduleC2 _ _ (by decide) (by decide) (by decide)
      rfl).2.2.2.2.2⟩

namespace OrdMap

/-- In a map with distinct keys `modify` changes the entry of the key and no other. -/
theorem modify_mem_cases {α : Type} {k : Int} {f : α → α} {m : List (Int × α)}
    (hk : (keys m).Nodup) {e : Int × α} (h : e ∈ modify k f m) :
    (e.1 = k ∧ ∃ v, (k, v) ∈ m ∧ e.2 = f v) ∨ (e.1 ≠ k ∧ e ∈ m) := by
  induction m with
  | nil => simp [modify] at h
  | cons e1 rest ih =>
    obtain ⟨k', v'⟩ := e1
    simp only [keys, List.map_cons, List.nodup_cons] at hk
    by_cases hkk : k' = k
    · simp only [modify, hkk, if_true, List.mem_cons] at h
      rcases h with h | h
      · left
        subst hkk
        exact ⟨by simp [h], v', List.mem_cons_self _ _, by simp [h]⟩
      · right
        refine ⟨?_, List.mem_cons_of_mem _ h⟩
        intro hek
        apply hk.1
        rw [hkk, ← hek]
        exact List.mem_map_of_mem _ h
    · simp only [modify, hkk, if_false, List.mem_cons] at h
      rcases h with h | h
      · right
        exact ⟨by simp [h, hkk], by simp [h]⟩
      · rcases ih hk.2 h with ⟨h1, v, h2, h3⟩ | ⟨h1, h2⟩
        · exact Or.inl ⟨h1, v, List.mem_cons_of_mem _ h2, h3⟩
        · exact Or.inr ⟨h1, List.mem_cons_of_mem _ h2⟩

end OrdMap

theorem Inv.outKeys_nodup {h : FrameHandler} (hi : Inv h) :
    (OrdMap.keys h.outputSamples).Nodup := by
  rw [hi.outKeys]
  exact (intRange_pairwise _ _).imp (fun hab => ne_of_lt hab)

theorem Inv.outKeys_ge {h : FrameHandler} (hi : Inv h) :
    ∀ e ∈ h.outputSamples, h.nextDeliveryFrameNb ≤ e.1 := by
  intro e he
  have : e.1 ∈ OrdMap.keys h.outputSamples := List.mem_map_of_mem _ he
  rw [hi.outKeys, mem_intRange] at this
  exact this.1

theorem AttachInv_resetState : AttachInv resetState (fun _ => none) [] :=
  ⟨fun e he => (by cases he), fun _ _ => rfl, fun e he => (by cases he)⟩

/-- A sample that `PrepareOutputSample` leaves carries the frame it was called with and the
side data of the slot. -/
theorem PrepareOutputSample_sample (env : Environment) (calls : DeliveryCalls)
    (h : FrameHandler) (frameNb : Int) (data : OutputSampleData) (fr : VSFrameRef)
    (s : OutputMediaSample)
    (hs : (PrepareOutputSample env calls h frameNb data fr).2.2 = some s) :
    s.frame = fr ∧ s.hdrSideData = data.hdrSideData := by
  unfold PrepareOutputSample at hs
  split at hs
  · simp only at hs
    split_ifs at hs
    all_goals (simp only [Option.some.injEq] at hs; subst hs; exact ⟨rfl, rfl⟩)
  · cases hs

/-- The sample a worker pass delivers carries the frame and the side data of the slot of the
next delivery index. -/
theorem WorkerProc_processed_frame {env : Environment} {calls : DeliveryCalls}
    {h h' : FrameHandler} {K S : Int} {d : Option OutputMediaSample}
    (hres : WorkerProc env calls h = .processed h' K S d) :
    ∀ s, d = some s →
      ∃ data, OrdMap.find h.nextDeliveryFrameNb h.outputSamples = some data ∧
        data.frame = some s.frame ∧ s.hdrSideData = data.hdrSideData := by
  unfold WorkerProc at hres
  split at hres
  · split at hres
    · cases hres
    · split at hres <;> cases hres
  split at hres
  · cases hres
  split at hres
  · cases hres
  · rename_i data hfind
    split at hres
    · cases hres
    · rename_i fr hfr
      injection hres with h1 h2 h3 h4
      intro s hs
      rw [hs] at h4
      refine ⟨data, hfind, ?_⟩
      cases hb : (PrepareOutputSample env calls
        { h with nextOutputSourceFrameNb := data.sourceFrameNb }
        h.nextDeliveryFrameNb data fr).1
      · rw [hb] at h4
        simp only [Bool.false_eq_true, if_false] at h4
        cases h4
      · rw [hb] at h4
        simp only [if_true] at h4
        obtain ⟨e1, e2⟩ := PrepareOutputSample_sample env calls _ _ data fr s h4
        rw [e1]
        exact ⟨hfr, e2⟩

/-- When every call into the host pipeline succeeds and the frame carries both duration
properties, `PrepareOutputSample` succeeds and leaves a sample. -/
theorem PrepareOutputSample_succeeds (env : Environment) (calls : DeliveryCalls)
    (h : FrameHandler) (frameNb : Int) (data : OutputSampleData) (fr : VSFrameRef)
    (h1 : calls.getDeliveryBufferOk = true) (h2 : calls.setTimeOk = true)
    (h3 : calls.setDiscontinuityOk = true) (h4 : calls.getPointerOk = true)
    (hn : fr.durationNum.isSome = true) (hd : fr.durationDen.isSome = true) :
    (PrepareOutputSample env calls h frameNb data fr).1 = true ∧
      ((PrepareOutputSample env calls h frameNb data fr).2.2).isSome = true := by
  obtain ⟨n, hn⟩ := Option.isSome_iff_exists.mp hn
  obtain ⟨d, hd⟩ := Option.isSome_iff_exists.mp hd
  simp [PrepareOutputSample, hn, hd, h1, h2, h3, h4]

/-- The indices of the delivered samples are among the processed indices, in the same
order. -/
theorem deliveredOf_sublist (log : List Obs) :
    ((deliveredOf log).map Prod.fst).Sublist (processedOf log) := by
  induction log with
  | nil => exact List.Sublist.slnil
  | cons o rest ih =>
    cases o with
    | rejected => simpa [deliveredOf, processedOf] using ih
    | accepted k t r => simpa [deliveredOf, processedOf] using ih
    | processed k s d =>
      cases d with
      | none => simpa [deliveredOf, processedOf] using List.Sublist.cons k ih
      | some x => simpa [deliveredOf, processedOf] using List.Sublist.cons₂ k ih

/-- Every call other than a flush call keeps `AttachInv`. -/
theorem step_attach {env : Environment} {h h' : FrameHandler} {g : Int → Option VSFrameRef}
    {log obs : List Obs} {e : Event} (hi : Inv h) (ha : AttachInv h g log)
    (he : e.isFlush = false) (hres : step env h e = some (h', obs)) :
    AttachInv h' (attach g e) (log ++ obs) := by
  cases e with
  | addInputSample sample =>
    show AttachInv h' g (log ++ obs)
    simp only [step] at hres
    split at hres
    · cases hres
      simpa using ha
    · rename_i h1 reqs hr
      cases hres
      obtain ⟨-, hsc⟩ := AddInputSample_rejected hr
      refine ⟨?_, ?_, ?_⟩
      · intro e he
        rw [hsc.outputSamples] at he
        exact ha.slots e he
      · intro n hn
        rw [hsc.nextOutputFrameNb] at hn
        exact ha.fresh n hn
      · intro e he
        rw [deliveredOf_append] at he
        simp only [deliveredOf, List.append_nil] at he
        rw [hsc.nextDeliveryFrameNb]
        exact ha.delivered e he
    · rename_i h1 reqs hr
      cases hres
      obtain ⟨-, -, -, -, -, hreqs, hout, hno, -, -, hnd, -⟩ :=
        AddInputSample_accepted hr hi.outKeys_lt hi.srcKeys_lt
      refine ⟨?_, ?_, ?_⟩
      · intro e he
        rw [hout, List.mem_append] at he
        rcases he with he | he
        · exact ha.slots e he
        · simp only [newSlots, List.mem_map] at he
          obtain ⟨n, hn, rfl⟩ := he
          rw [hreqs, mem_intRange] at hn
          exact (ha.fresh n hn.1).symm
      · intro n hn
        rw [hno] at hn
        exact ha.fresh n (le_trans (le_max_left _ _) hn)
      · intro e he
        rw [deliveredOf_append] at he
        simp only [deliveredOf, List.append_nil] at he
        rw [hnd]
        exact ha.delivered e he
  | vpsGetFrameCallback f n =>
    simp only [step] at hres
    split at hres
    · cases hres
    · rename_i h1 hr
      cases hres
      cases f with
      | none =>
        show AttachInv h' g (log ++ [])
        simp only [VpsGetFrameCallback, Option.some.injEq] at hr
        subst hr
        simpa using ha
      | some fr =>
        show AttachInv h' (fun k => if k = n then some fr else g k) (log ++ [])
        simp only [VpsGetFrameCallback, hi.notFlushing, Bool.false_eq_true, if_false] at hr
        split at hr
        · cases hr
        · rename_i d0 hfind
          simp only [Option.some.injEq] at hr
          subst hr
          have hn := hi.outKeys_ge _ (OrdMap.find_mem hfind)
          have hn2 := hi.outKeys_lt _ (OrdMap.find_mem hfind)
          simp only at hn hn2
          refine ⟨?_, ?_, ?_⟩
          · intro e he
            rcases OrdMap.modify_mem_cases hi.outKeys_nodup he with
              ⟨h1, v, -, h3⟩ | ⟨h1, h2⟩
            · simp only [h1, if_true, h3]
            · simp only [h1, if_false]
              exact ha.slots e h2
          · intro k hk
            have hkn : k ≠ n := by
              intro hkn
              subst hkn
              exact absurd hn2 (not_lt.mpr hk)
            simp only [hkn, if_false]
            exact ha.fresh k hk
          · intro e he
            simp only [List.append_nil] at he
            obtain ⟨h1, h2⟩ := ha.delivered e he
            refine ⟨h1, ?_⟩
            have hkn : e.1 ≠ n := by
              intro hkn
              rw [hkn] at h1
              exact absurd h1 (not_lt.mpr hn)
            simp only [hkn, if_false]
            exact h2
  | worker calls =>
    show AttachInv h' g (log ++ obs)
    simp only [step] at hres
    rcases WorkerProc_cases env calls hi with hw | ⟨h1, K, S, d, hw⟩
    · rw [hw] at hres
      cases hres
      simpa using ha
    · rw [hw] at hres
      cases hres
      obtain ⟨hK, ⟨data, rest, hcons, -, -, hrest⟩, -, hnd, -, -, hno, -⟩ :=
        WorkerProc_processed hi hw
      refine ⟨?_, ?_, ?_⟩
      · intro e he
        rw [hrest] at he
        exact ha.slots e (by rw [hcons]; exact List.mem_cons_of_mem _ he)
      · intro n hn
        rw [hno] at hn
        exact ha.fresh n hn
      · intro e he
        rw [deliveredOf_append, List.mem_append] at he
        rw [hnd]
        rcases he with he | he
        · obtain ⟨h1, h2⟩ := ha.delivered e he
          exact ⟨by omega, h2⟩
        · cases d with
          | none => simp [deliveredOf] at he
          | some s =>
            simp only [deliveredOf, List.mem_singleton] at he
            subst he
            obtain ⟨data2, hfind, hfr, -⟩ := WorkerProc_processed_frame hw s rfl
            refine ⟨by simp, ?_⟩
            have := ha.slots _ (OrdMap.find_mem hfind)
            simp only at this
            rw [← hK] at this
            rw [← this, hfr]
  | beginFlush => cases he
  | endFlush => cases he

/-- Induction along a schedule without flush calls for `AttachInv`. -/
theorem run_attach (env : Environment) :
    ∀ (evs : List Event) (h : FrameHandler) (g : Int → Option VSFrameRef) (log : List Obs)
      (h' : FrameHandler) (obs : List Obs), Inv h → AttachInv h g log →
      (∀ e ∈ evs, e.isFlush = false) → run env h evs = some (h', obs) →
      Inv h' ∧ AttachInv h' (evs.foldl attach g) (log ++ obs) := by
  intro evs
  induction evs with
  | nil =>
    intro h g log h' obs hi ha _ hres
    simp only [run, Option.some.injEq, Prod.mk.injEq] at hres
    obtain ⟨rfl, rfl⟩ := hres
    simpa using ⟨hi, ha⟩
  | cons e es ih =>
    intro h g log h' obs hi ha hev hres
    simp only [run] at hres
    split at hres
    · cases hres
    · rename_i h1 o1 hs
      split at hres
      · cases hres
      · rename_i h2 o2 hr
        cases hres
        have he := hev e (List.mem_cons_self _ _)
        have := ih h1 (attach g e) (log ++ o1) _ _ (step_inv hi he hs) (step_attach hi ha he hs)
          (fun x hx => hev x (List.mem_cons_of_mem _ hx)) hr
        simpa [List.foldl_cons, List.append_assoc] using this

/-- C5: along every schedule of submissions, completions (in whatever order the callback
attaches frames) and worker passes from the reset state (no flush),
(1) the output indices the worker hands to `PrepareOutputSample` are
0, 1, ..., nextDeliveryFrameNb - 1 in this order: none skipped, repeated or out of order;
(2) every sample delivered under an index carries the frame that the callback attached to
that very index, and the samples leave in increasing order of their indices;
(3) the next worker pass waits as long as the callback has not attached a frame to the next
delivery index, whatever other indices are complete;
(4) once that frame is attached, the next pass takes the slot of the next delivery index and
no other: it hands this index, the slot's source index and the attached frame to
`PrepareOutputSample`, removes the slot, advances the delivery index by one, delivers no
sample but one with this frame and the slot's side data, and does deliver it when the calls
into the host pipeline succeed and the frame carries its duration. -/
theorem delivery_in_index_order (env : Environment) (evs : List Event) (h : FrameHandler)
    (log : List Obs) (hev : ∀ e ∈ evs, e.isFlush = false)
    (hres : run env resetState evs = some (h, log)) :
    processedOf log = intRange 0 h.nextDeliveryFrameNb ∧
    (∀ e ∈ deliveredOf log, completedFrame evs e.1 = some e.2.frame) ∧
    ((deliveredOf log).map Prod.fst).Pairwise (· < ·) ∧
    (∀ calls, completedFrame evs h.nextDeliveryFrameNb = none →
      WorkerProc env calls h = .blocked) ∧
    (∀ calls fr, completedFrame evs h.nextDeliveryFrameNb = some fr →
      ∃ data h' d, OrdMap.find h.nextDeliveryFrameNb h.outputSamples = some data ∧
        data.frame = some fr ∧
        WorkerProc env calls h = .processed h' h.nextDeliveryFrameNb data.sourceFrameNb d ∧
        d = (if (PrepareOutputSample env calls
                  { h with nextOutputSourceFrameNb := data.sourceFrameNb }
                  h.nextDeliveryFrameNb data fr).1
              then (PrepareOutputSample env calls
                  { h with nextOutputSourceFrameNb := data.sourceFrameNb }
                  h.nextDeliveryFrameNb data fr).2.2
              else none) ∧
        h'.nextDeliveryFrameNb = h.nextDeliveryFrameNb + 1 ∧
        OrdMap.find h.nextDeliveryFrameNb h'.outputSamples = none ∧
        (∀ s, d = some s → s.frame = fr ∧ s.hdrSideData = data.hdrSideData) ∧
        (calls.getDeliveryBufferOk = true → calls.setTimeOk = true →
          calls.setDiscontinuityOk = true → calls.getPointerOk = true →
          fr.durationNum.isSome = true → fr.durationDen.isSome = true →
          ∃ s, d = some s ∧ s.frame = fr)) := by
  obtain ⟨-, hl⟩ := run_inv hev hres
  have hat := run_attach env evs resetState (fun _ => none) [] h log Inv_resetState
    AttachInv_resetState hev hres
  simp only [List.nil_append] at hat
  obtain ⟨hi, ha⟩ := hat
  have hslot : ∀ fr, completedFrame evs h.nextDeliveryFrameNb = some fr →
      ∃ data, OrdMap.find h.nextDeliveryFrameNb h.outputSamples = some data ∧
        data.frame = some fr := by
    intro fr hfr
    have hlt : h.nextDeliveryFrameNb < h.nextOutputFrameNb := by
      by_contra hge
      have := ha.fresh h.nextDeliveryFrameNb (not_lt.mp hge)
      rw [completedFrame] at hfr
      rw [this] at hfr
      cases hfr
    have hmem : h.nextDeliveryFrameNb ∈ OrdMap.keys h.outputSamples := by
      rw [hi.outKeys, mem_intRange]
      exact ⟨le_refl _, hlt⟩
    rw [← OrdMap.find_isSome_iff] at hmem
    obtain ⟨data, hdata⟩ := Option.isSome_iff_exists.mp hmem
    refine ⟨data, hdata, ?_⟩
    have := ha.slots _ (OrdMap.find_mem hdata)
    simp only at this
    rw [this]
    exact hfr
  have hord : ((deliveredOf log).map Prod.fst).Pairwise (· < ·) := by
    have hp : (processedOf log).Pairwise (· < ·) := by
      rw [hl.processed]
      exact intRange_pairwise _ _
    exact hp.sublist (deliveredOf_sublist log)
  refine ⟨hl.processed, fun e he => (ha.delivered e he).2, hord, ?_, ?_⟩
  · intro calls hnone
    unfold WorkerProc
    rw [hi.notLatched, hi.notFlushing]
    simp only [Bool.false_eq_true, if_false]
    split
    · rfl
    · rename_i data hfind
      have := ha.slots _ (OrdMap.find_mem hfind)
      simp only at this
      rw [show evs.foldl attach (fun _ => none) = completedFrame evs from rfl, hnone] at this
      rw [this]
  · intro calls fr hfr
    obtain ⟨data, hfind, hdfr⟩ := hslot fr hfr
    have hw := WorkerProc_ready env calls hi.notLatched hi.notFlushing hfind hdfr
    obtain ⟨-, ⟨data2, rest, hcons, -, -, hrest⟩, -, hnd, -⟩ := WorkerProc_processed hi hw
    refine ⟨data, _, _, hfind, hdfr, hw, rfl, hnd, ?_, ?_, ?_⟩
    · rw [hrest]
      have hnot : h.nextDeliveryFrameNb ∉ OrdMap.keys rest := by
        have := hi.outKeys_nodup
        rw [hcons] at this
        simp only [OrdMap.keys, List.map_cons, List.nodup_cons] at this
        exact this.1
      rw [← OrdMap.find_isSome_iff] at hnot
      simpa using hnot
    · intro s hs
      obtain ⟨data3, hf3, hfr3, hh3⟩ := WorkerProc_processed_frame hw s hs
      rw [hfind] at hf3
      cases hf3
      rw [hdfr] at hfr3
      cases hfr3
      exact ⟨rfl, hh3⟩
    · intro c1 c2 c3 c4 hn hd
      obtain ⟨hb, hsome⟩ := PrepareOutputSample_succeeds env calls
        { h with nextOutputSourceFrameNb := data.sourceFrameNb } h.nextDeliveryFrameNb data fr
        c1 c2 c3 c4 hn hd
      obtain ⟨s, hs⟩ := Option.isSome_iff_exists.mp hsome
      refine ⟨s, by rw [hb, if_pos rfl, hs], ?_⟩
      obtain ⟨data3, hf3, hfr3, -⟩ :=
        WorkerProc_processed_frame hw s (by rw [hb, if_pos rfl, hs])
      rw [hfind] at hf3
      cases hf3
      rw [hdfr] at hfr3
      cases hfr3
      rfl

theorem delivery_in_index_order_witness :
    ∃ h log, run envW resetState scheduleC5 = some (h, log) ∧
      (deliveredOf log).map (fun e => (e.1, e.2.frame.payload)) = [(0, 100), (1, 101), (2, 102)] ∧
      h.nextDeliveryFrameNb = 3 ∧
      (run envW resetState (scheduleC5.take 5)).map (fun r => processedOf r.2) = some [] ∧
      processedOf log = intRange 0 h.nextDeliveryFrameNb ∧
      (∀ e ∈ deliveredOf log, completedFrame scheduleC5 e.1 = some e.2.frame) ∧
      ((deliveredOf log).map Prod.fst).Pairwise (· < ·) := by
  refine ⟨_, _, rfl, rfl, rfl, rfl, ?_⟩
  have := delivery_in_index_order envW scheduleC5 _ _ (by decide) rfl
  exact ⟨this.1, this.2.1, this.2.2.1⟩

end SynthFilter

/-!
# Properties of the converter
-/

namespace AvsFilter

theorem copyRow_other (dst src : Memory) (dstAddr srcAddr : Nat → Int) (n : Nat) (a : Int)
    (h : ∀ x, x < n → dstAddr x ≠ a) : copyRow dst src dstAddr srcAddr n a = dst a := by
  induction n with
  | zero => rfl
  | succ n ih =>
    simp only [copyRow]
    rw [Function.update_noteq (fun e => h n (Nat.lt_succ_self n) e.symm)]
    exact ih (fun x hx => h x (Nat.lt_succ_of_lt hx))

theorem copyRow_get (dst src : Memory) (dstAddr srcAddr : Nat → Int) (n : Nat)
    (hinj : ∀ x x', x < n → x' < n → dstAddr x = dstAddr x' → x = x') (x : Nat) (hx : x < n) :
    copyRow dst src dstAddr srcAddr n (dstAddr x) = src (srcAddr x) := by
  induction n with
  | zero => omega
  | succ n ih =>
    simp only [copyRow]
    by_cases hxn : x = n
    · subst hxn
      rw [Function.update_same]
    · have hlt : x < n := by omega
      have hne : dstAddr x ≠ dstAddr n := by
        intro e
        have := hinj x n hx (Nat.lt_succ_self n) e
        omega
      rw [Function.update_noteq hne]
      exact ih (fun a b ha hb => hinj a b (Nat.lt_succ_of_lt ha) (Nat.lt_succ_of_lt hb)) hlt

theorem copyRows_other (dst src : Memory) (dstAddr srcAddr : Nat → Nat → Int) (cols rows : Nat)
    (a : Int) (h : ∀ y x, y < rows → x < cols → dstAddr y x ≠ a) :
    copyRows dst src dstAddr srcAddr cols rows a = dst a := by
  induction rows with
  | zero => rfl
  | succ n ih =>
    simp only [copyRows]
    rw [copyRow_other _ _ _ _ _ _ (fun x hx => h n x (Nat.lt_succ_self n) hx)]
    exact ih (fun y x hy hx => h y x (Nat.lt_succ_of_lt hy) hx)

theorem copyRows_get (dst src : Memory) (dstAddr srcAddr : Nat → Nat → Int) (cols rows : Nat)
    (hinj : ∀ y x y' x', y < rows → x < cols → y' < rows → x' < cols →
      dstAddr y x = dstAddr y' x' → y = y' ∧ x = x')
    (y x : Nat) (hy : y < rows) (hx : x < cols) :
    copyRows dst src dstAddr srcAddr cols rows (dstAddr y x) = src (srcAddr y x) := by
  induction rows with
  | zero => omega
  | succ n ih =>
    simp only [copyRows]
    by_cases hyn : y = n
    · subst hyn
      exact copyRow_get _ _ _ _ _
        (fun a b ha hb e => (hinj y a y b (Nat.lt_succ_self y) ha (Nat.lt_succ_self y) hb e).2)
        x hx
    · have hlt : y < n := by omega
      rw [copyRow_other]
      · exact ih (fun a b c d ha hb hc hd e =>
          hinj a b c d (Nat.lt_succ_of_lt ha) hb (Nat.lt_succ_of_lt hc) hd e) hlt
      · intro x' hx' e
        have := (hinj n x' y x (Nat.lt_succ_self n) hx' hy hx e).1
        omega

/-- Two block copies with the same destination addresses give the same memory when the bytes
they read agree. -/
theorem copyRows_congr (dst src1 src2 : Memory) (dstAddr srcAddr1 srcAddr2 : Nat → Nat → Int)
    (cols rows : Nat)
    (h : ∀ y x, y < rows → x < cols → src1 (srcAddr1 y x) = src2 (srcAddr2 y x)) :
    copyRows dst src1 dstAddr srcAddr1 cols rows = copyRows dst src2 dstAddr srcAddr2 cols rows := by
  induction rows with
  | zero => rfl
  | succ n ih =>
    simp only [copyRows]
    rw [ih (fun y x hy hx => h y x (Nat.lt_succ_of_lt hy) hx)]
    have hrow : ∀ (d : Memory) (m : Nat), m ≤ cols →
        copyRow d src1 (dstAddr n) (srcAddr1 n) m = copyRow d src2 (dstAddr n) (srcAddr2 n) m := by
      intro d m
      induction m with
      | zero => intro _; rfl
      | succ m ihm =>
        intro hm
        simp only [copyRow]
        rw [ihm (by omega), h n m (Nat.lt_succ_self n) (by omega)]
    exact hrow _ cols (le_refl _)

/-- Rows laid out at a positive pitch no shorter than the row do not overlap. -/
theorem affine_inj (p : Int) (y y' x x' : Int) (hx : 0 ≤ x) (hxp : x < p) (hx' : 0 ≤ x')
    (hxp' : x' < p) (h : y * p + x = y' * p + x') : y = y' ∧ x = x' := by
  have hp : 0 < p := by omega
  have h1 : (y * p + x) / p = y := by
    rw [add_comm, Int.add_mul_ediv_right _ _ (ne_of_gt hp), Int.ediv_eq_zero_of_lt hx hxp]
    simp
  have h2 : (y' * p + x') / p = y' := by
    rw [add_comm, Int.add_mul_ediv_right _ _ (ne_of_gt hp), Int.ediv_eq_zero_of_lt hx' hxp']
    simp
  have hy : y = y' := by rw [← h1, ← h2, h]
  subst hy
  exact ⟨rfl, by omega⟩

theorem affine_inj_abs (p : Int) (y y' x x' : Int) (hx : 0 ≤ x) (hxp : x < |p|) (hx' : 0 ≤ x')
    (hxp' : x' < |p|) (h : y * p + x = y' * p + x') : y = y' ∧ x = x' := by
  by_cases hp : 0 ≤ p
  · rw [abs_of_nonneg hp] at hxp hxp'
    exact affine_inj p y y' x x' hx hxp hx' hxp' h
  · have hneg : p < 0 := by omega
    rw [abs_of_neg hneg] at hxp hxp'
    have h' : (-y) * (-p) + x = (-y') * (-p) + x' := by
      rw [neg_mul_neg, neg_mul_neg]; exact h
    have := affine_inj (-p) (-y) (-y') x x' hx hxp hx' hxp' h'
    exact ⟨by omega, this.2⟩

theorem BitBlt_some (dst : Memory) (dstp dst_pitch : Int) (src : Memory) (srcp src_pitch : Int)
    (row_size height : Int) (hr : 0 ≤ row_size) (hh : 0 ≤ height) :
    BitBlt dst dstp dst_pitch src srcp src_pitch row_size height =
      some (copyRows dst src (fun y x => dstp + y * dst_pitch + x)
        (fun y x => srcp + y * src_pitch + x) row_size.toNat height.toNat) := by
  unfold BitBlt
  rw [if_neg (by omega)]

theorem BitBlt_extent {dst : Memory} {dstp dst_pitch : Int} {src : Memory}
    {srcp src_pitch row_size height : Int} {m : Memory}
    (hm : BitBlt dst dstp dst_pitch src srcp src_pitch row_size height = some m) :
    0 ≤ row_size ∧ 0 ≤ height := by
  unfold BitBlt at hm
  split at hm
  · cases hm
  · omega

/-- A byte inside the copied block holds the source byte of the same row and column, provided
the destination rows do not overlap. -/
theorem BitBlt_get {dst : Memory} {dstp dst_pitch : Int} {src : Memory}
    {srcp src_pitch row_size height : Int} {m : Memory}
    (hm : BitBlt dst dstp dst_pitch src srcp src_pitch row_size height = some m)
    (hp : row_size ≤ |dst_pitch|) (y x : Int) (hy0 : 0 ≤ y) (hy : y < height) (hx0 : 0 ≤ x)
    (hx : x < row_size) :
    m (dstp + y * dst_pitch + x) = src (srcp + y * src_pitch + x) := by
  obtain ⟨hr, hh⟩ := BitBlt_extent hm
  rw [BitBlt_some _ _ _ _ _ _ _ _ hr hh] at hm
  injection hm with hm
  subst hm
  have key := copyRows_get dst src (fun (y x : Nat) => dstp + (y : Int) * dst_pitch + (x : Int))
    (fun (y x : Nat) => srcp + (y : Int) * src_pitch + (x : Int)) row_size.toNat height.toNat
    (by
      intro a b c d _ hb _ hd e
      simp only at e
      have e' : (a : Int) * dst_pitch + (b : Int) = (c : Int) * dst_pitch + (d : Int) := by
        omega
      have := affine_inj_abs dst_pitch a c b d (by omega) (by omega) (by omega) (by omega) e'
      omega)
    y.toNat x.toNat (by omega) (by omega)
  simp only [Int.toNat_of_nonneg hy0, Int.toNat_of_nonneg hx0] at key
  exact key

/-- A byte outside the copied block is left as it was. -/
theorem BitBlt_other {dst : Memory} {dstp dst_pitch : Int} {src : Memory}
    {srcp src_pitch row_size height : Int} {m : Memory}
    (hm : BitBlt dst dstp dst_pitch src srcp src_pitch row_size height = some m) (a : Int)
    (ha : ∀ y x : Int, 0 ≤ y → y < height → 0 ≤ x → x < row_size →
      dstp + y * dst_pitch + x ≠ a) : m a = dst a := by
  obtain ⟨hr, hh⟩ := BitBlt_extent hm
  rw [BitBlt_some _ _ _ _ _ _ _ _ hr hh] at hm
  injection hm with hm
  subst hm
  apply copyRows_other
  intro y x hy hx
  exact ha y x (by omega) (by omega) (by omega) (by omega)

/-- Two `BitBlt` calls with the same destination give the same result when the bytes they
read agree. -/
theorem BitBlt_congr (dst : Memory) (dstp dst_pitch : Int) (src1 src2 : Memory)
    (srcp1 sp1 srcp2 sp2 row_size height : Int)
    (h : ∀ y x : Int, 0 ≤ y → y < height → 0 ≤ x → x < row_size →
      src1 (srcp1 + y * sp1 + x) = src2 (srcp2 + y * sp2 + x)) :
    BitBlt dst dstp dst_pitch src1 srcp1 sp1 row_size height =
      BitBlt dst dstp dst_pitch src2 srcp2 sp2 row_size height := by
  unfold BitBlt
  split
  · rfl
  · congr 1
    apply copyRows_congr
    intro y x hy hx
    exact h y x (by omega) (by omega) (by omega) (by omega)

theorem hostStride_withHeight (format : VideoFormat) (k : Int) :
    hostStride (format.withHeight k) = hostStride format := rfl

theorem CopyFromInputChroma_withHeight (format : VideoFormat) (k : Int) (src : Memory)
    (dst : Slices) (strides : Strides) (s rowSize height P : Int) :
    CopyFromInputChroma (format.withHeight k) src dst strides s rowSize height P =
      CopyFromInputChroma format src dst strides s rowSize height P := rfl

theorem CopyToOutputChroma_withHeight (format : VideoFormat) (k : Int) (src : Slices)
    (strides : Strides) (dst : Memory) (s rowSize height P : Int) :
    CopyToOutputChroma (format.withHeight k) src strides dst s rowSize height P =
      CopyToOutputChroma format src strides dst s rowSize height P := rfl

theorem topDown_neg (format : VideoFormat) (h : Int) (hc : format.bmi.biCompression = BI_RGB)
    (hh : 0 < h) : topDown (format.withHeight (-h)) = true := by
  simp [topDown, VideoFormat.withHeight, hc, hh]

theorem topDown_pos (format : VideoFormat) (h : Int) (hh : 0 < h) :
    topDown (format.withHeight h) = false := by
  simp only [topDown, VideoFormat.withHeight, Bool.and_eq_false_imp, decide_eq_true_eq,
    decide_eq_false_iff_not]
  intro _
  omega

/-- The chroma part of `CopyFromInput` reads the host buffer at and beyond the primary plane
only. -/
theorem CopyFromInputChroma_congr (format : VideoFormat) (src1 src2 : Memory) (dst : Slices)
    (strides : Strides) (s rowSize height P : Int) (hs : 0 ≤ s) (hP : 0 ≤ P)
    (h : ∀ a, P ≤ a → src1 a = src2 a) :
    CopyFromInputChroma format src1 dst strides s rowSize height P =
      CopyFromInputChroma format src2 dst strides s rowSize height P := by
  have hs2 : 0 ≤ Int.tdiv s 2 := Int.tdiv_nonneg hs (by decide)
  have hP4 : 0 ≤ Int.tdiv P 4 := Int.tdiv_nonneg hP (by decide)
  have hblt : ∀ (d : Memory) (p b : Int), P ≤ b →
      BitBlt d 0 p src1 b (Int.tdiv s 2) (Int.tdiv rowSize 2) (Int.tdiv height 2) =
      BitBlt d 0 p src2 b (Int.tdiv s 2) (Int.tdiv rowSize 2) (Int.tdiv height 2) := by
    intro d p b hb
    apply BitBlt_congr
    intro y x hy _ hx _
    apply h
    have : 0 ≤ y * Int.tdiv s 2 := mul_nonneg hy hs2
    omega
  unfold CopyFromInputChroma
  simp only
  split
  · rfl
  · split
    · rw [hblt dst.U _ _ (by split <;> omega), hblt dst.V _ _ (by split <;> omega)]
    · unfold Deinterleave
      simp only
      rw [copyRows_congr dst.U src1 src2, copyRows_congr dst.V src1 src2]
      · intro y x _ _
        apply h
        have : 0 ≤ (y : Int) * s := mul_nonneg (by omega) hs
        omega
      · intro y x _ _
        apply h
        have : 0 ≤ (y : Int) * s := mul_nonneg (by omega) hs
        omega

theorem reverseRows_beyond (s h : Int) (B : Memory) (a : Int) (ha : s * h ≤ a) :
    reverseRows s h B a = B a := by
  unfold reverseRows
  rw [if_neg (by omega)]

theorem reverseRows_row (s h : Int) (B : Memory) (y x : Int) (hy0 : 0 ≤ y) (hy : y < h)
    (hx0 : 0 ≤ x) (hx : x < s) :
    reverseRows s h B (y * s + x) = B ((h - 1 - y) * s + x) := by
  have hs : 0 < s := by omega
  have h1 : (y * s + x) / s = y := by
    rw [add_comm, Int.add_mul_ediv_right _ _ (ne_of_gt hs), Int.ediv_eq_zero_of_lt hx0 hx]
    simp
  have h2 : (y * s + x) % s = x := by
    rw [add_comm, Int.add_mul_emod_self, Int.emod_eq_of_lt hx0 hx]
  have h3 : 0 ≤ y * s := mul_nonneg hy0 (le_of_lt hs)
  have h4 : y * s + x < s * h := by
    have : (y + 1) * s ≤ h * s := Int.mul_le_mul_of_nonneg_right (by omega) (le_of_lt hs)
    linarith
  unfold reverseRows
  rw [if_pos ⟨by omega, h4⟩, h1, h2]

/-- With a frame of at least `h` rows, a top-down bitmap fills the frame as the bottom-up
bitmap with reversed rows does. -/
theorem CopyFromInput_topDown_eq (format : VideoFormat) (h : Int) (B : Memory) (dst : Slices)
    (strides : Strides) (dstRowSize dstHeight : Int)
    (hc : format.bmi.biCompression = BI_RGB) (hh : 0 < h) (hd : h ≤ dstHeight) :
    CopyFromInput (format.withHeight (-h)) B dst strides dstRowSize dstHeight =
      CopyFromInput (format.withHeight h) (reverseRows (hostStride format) h B) dst strides
        dstRowSize dstHeight := by
  have habs1 : |(format.withHeight (-h)).bmi.biHeight| = h := by
    simp [VideoFormat.withHeight, abs_of_pos hh]
  have habs2 : |(format.withHeight h).bmi.biHeight| = h := by
    simp [VideoFormat.withHeight, abs_of_pos hh]
  unfold CopyFromInput
  simp only [hostStride_withHeight, topDown_neg format h hc hh, topDown_pos format h hh, habs1,
    habs2, min_eq_left hd, if_true, Bool.false_eq_true, if_false,
    CopyFromInputChroma_withHeight]
  by_cases hs : 0 ≤ hostStride format
  · rw [BitBlt_congr dst.Y 0 strides.Y B (reverseRows (hostStride format) h B)
      (hostStride format * h - hostStride format) (-hostStride format) 0 (hostStride format)]
    · split
      · rfl
      · apply CopyFromInputChroma_congr _ _ _ _ _ _ _ _ _ hs (mul_nonneg hs (le_of_lt hh))
        intro a ha
        rw [reverseRows_beyond _ _ _ _ ha]
    · intro y x hy0 hy hx0 hx
      have hxs : x < hostStride format := lt_of_lt_of_le hx (min_le_left _ _)
      rw [zero_add, reverseRows_row _ _ _ _ _ hy0 hy hx0 hxs]
      congr 1
      ring
  · have hneg : min (hostStride format) dstRowSize < 0 := by
      have := min_le_left (hostStride format) dstRowSize
      omega
    simp [BitBlt, hneg]

theorem primaryOffset_lt (format : VideoFormat) (height y x : Int) (hy0 : 0 ≤ y)
    (hy : y < height) (hx0 : 0 ≤ x) (hx : x < hostStride format) :
    0 ≤ primaryOffset format height y x ∧
      primaryOffset format height y x < hostStride format * height := by
  have hs : 0 < hostStride format := by omega
  have h1 : 0 ≤ y * hostStride format := mul_nonneg hy0 (le_of_lt hs)
  have h2 : (y + 1) * hostStride format ≤ height * hostStride format :=
    Int.mul_le_mul_of_nonneg_right (by omega) (le_of_lt hs)
  unfold primaryOffset
  split
  · constructor <;> linarith
  · constructor <;> linarith

/-- The chroma part of `CopyToOutput` writes at and beyond the end of the primary plane only. -/
theorem CopyToOutputChroma_below {format : VideoFormat} {src : Slices} {strides : Strides}
    {d0 : Memory} {s rowSize height P : Int} {m : Memory}
    (hm : CopyToOutputChroma format src strides d0 s rowSize height P = some m)
    (hs : 0 ≤ s) (hP : 0 ≤ P) (a : Int) (ha : a < P) : m a = d0 a := by
  have hs2 : 0 ≤ Int.tdiv s 2 := Int.tdiv_nonneg hs (by decide)
  have hP4 : 0 ≤ Int.tdiv P 4 := Int.tdiv_nonneg hP (by decide)
  unfold CopyToOutputChroma at hm
  simp only at hm
  split at hm
  · injection hm with hm; rw [hm]
  · split at hm
    · split at hm
      · cases hm
      · rename_i d1 h1
        rw [BitBlt_other hm a, BitBlt_other h1 a]
        · intro y x hy _ hx _
          have : 0 ≤ y * Int.tdiv s 2 := mul_nonneg hy hs2
          split <;> omega
        · intro y x hy _ hx _
          have : 0 ≤ y * Int.tdiv s 2 := mul_nonneg hy hs2
          split <;> omega
    · injection hm with hm
      subst hm
      unfold Interleave
      rw [copyRows_other, copyRows_other]
      · intro y x _ _
        have : 0 ≤ (y : Int) * s := mul_nonneg (by omega) hs
        omega
      · intro y x _ _
        have : 0 ≤ (y : Int) * s := mul_nonneg (by omega) hs
        omega

theorem CopyToOutputChroma_some (format : VideoFormat) (src : Slices) (strides : Strides)
    (d0 : Memory) (s rowSize height P : Int) (hr : 0 ≤ rowSize) (hh : 0 ≤ height) :
    ∃ m, CopyToOutputChroma format src strides d0 s rowSize height P = some m := by
  have hr2 : 0 ≤ Int.tdiv rowSize 2 := Int.tdiv_nonneg hr (by decide)
  have hh2 : 0 ≤ Int.tdiv height 2 := Int.tdiv_nonneg hh (by decide)
  unfold CopyToOutputChroma
  simp only
  split
  · exact ⟨_, rfl⟩
  · split
    · simp only [BitBlt_some _ _ _ _ _ _ _ _ hr2 hh2]
      exact ⟨_, rfl⟩
    · exact ⟨_, rfl⟩

/-- `CopyToOutput` goes through when no extent is negative. -/
theorem CopyToOutput_some (format : VideoFormat) (src : Slices) (strides : Strides)
    (out0 : Memory) (srcRowSize srcHeight : Int) (hs : 0 ≤ hostStride format)
    (hr : 0 ≤ srcRowSize) (hh : 0 ≤ srcHeight) :
    ∃ out, CopyToOutput format src strides out0 srcRowSize srcHeight = some out := by
  have h1 : 0 ≤ min (hostStride format) srcRowSize := le_min hs hr
  have h2 : 0 ≤ min |format.bmi.biHeight| srcHeight := le_min (abs_nonneg _) hh
  unfold CopyToOutput
  simp only
  rw [BitBlt_some _ _ _ _ _ _ _ _ h1 h2]
  exact CopyToOutputChroma_some _ _ _ _ _ _ _ _ h1 h2

/-- After `CopyToOutput` every byte of the primary plane within the copied extent is the
byte of the frame's first plane at the same row and column. -/
theorem CopyToOutput_primary {format : VideoFormat} {src : Slices} {strides : Strides}
    {out0 : Memory} {srcRowSize srcHeight : Int} {out : Memory}
    (hm : CopyToOutput format src strides out0 srcRowSize srcHeight = some out)
    (y x : Int) (hy0 : 0 ≤ y) (hy : y < min |format.bmi.biHeight| srcHeight) (hx0 : 0 ≤ x)
    (hx : x < min (hostStride format) srcRowSize) :
    out (primaryOffset format (min |format.bmi.biHeight| srcHeight) y x)
      = src.Y (0 + y * strides.Y + x) := by
  have hxs : x < hostStride format := lt_of_lt_of_le hx (min_le_left _ _)
  have hs : 0 ≤ hostStride format := by omega
  have hP : 0 ≤ hostStride format * min |format.bmi.biHeight| srcHeight :=
    mul_nonneg hs (by omega)
  obtain ⟨h1, h2⟩ := primaryOffset_lt format _ y x hy0 hy hx0 hxs
  unfold CopyToOutput at hm
  simp only at hm
  split at hm
  · cases hm
  · rename_i d0 hd0
    rw [CopyToOutputChroma_below hm hs hP _ h2]
    unfold primaryOffset
    split
    · rename_i ht
      simp only [ht, if_true] at hd0
      exact BitBlt_get hd0 (by rw [abs_neg, abs_of_nonneg hs]; exact min_le_left _ _)
        y x hy0 hy hx0 hx
    · rename_i ht
      simp only [ht, Bool.false_eq_true, if_false] at hd0
      exact BitBlt_get hd0 (by rw [abs_of_nonneg hs]; exact min_le_left _ _)
        y x hy0 hy hx0 hx

theorem CopyFromInputChroma_Y {format : VideoFormat} {src : Memory} {dst : Slices}
    {strides : Strides} {s rowSize height P : Int} {fr : Slices}
    (hm : CopyFromInputChroma format src dst strides s rowSize height P = some fr) :
    fr.Y = dst.Y := by
  unfold CopyFromInputChroma at hm
  simp only at hm
  split at hm
  · injection hm with hm; rw [hm]
  · split at hm
    · split at hm
      · cases hm
      · split at hm
        · cases hm
        · injection hm with hm; rw [← hm]
    · injection hm with hm; rw [← hm]

theorem CopyFromInputChroma_some (format : VideoFormat) (src : Memory) (dst : Slices)
    (strides : Strides) (s rowSize height P : Int) (hr : 0 ≤ rowSize) (hh : 0 ≤ height) :
    ∃ fr, CopyFromInputChroma format src dst strides s rowSize height P = some fr := by
  have hr2 : 0 ≤ Int.tdiv rowSize 2 := Int.tdiv_nonneg hr (by decide)
  have hh2 : 0 ≤ Int.tdiv height 2 := Int.tdiv_nonneg hh (by decide)
  unfold CopyFromInputChroma
  simp only
  split
  · exact ⟨_, rfl⟩
  · split
    · simp only [BitBlt_some _ _ _ _ _ _ _ _ hr2 hh2]
      exact ⟨_, rfl⟩
    · exact ⟨_, rfl⟩

/-- `CopyFromInput` goes through when no extent is negative. -/
theorem CopyFromInput_some (format : VideoFormat) (src : Memory) (dst : Slices)
    (strides : Strides) (dstRowSize dstHeight : Int) (hs : 0 ≤ hostStride format)
    (hr : 0 ≤ dstRowSize) (hh : 0 ≤ dstHeight) :
    ∃ fr, CopyFromInput format src dst strides dstRowSize dstHeight = some fr := by
  have h1 : 0 ≤ min (hostStride format) dstRowSize := le_min hs hr
  have h2 : 0 ≤ min |format.bmi.biHeight| dstHeight := le_min (abs_nonneg _) hh
  unfold CopyFromInput
  simp only
  rw [BitBlt_some _ _ _ _ _ _ _ _ h1 h2]
  exact CopyFromInputChroma_some _ _ _ _ _ _ _ _ h1 h2

/-- After `CopyFromInput` every byte of the frame's first plane within the copied extent is
the byte of the host buffer at the same row and column of the primary plane. -/
theorem CopyFromInput_primary {format : VideoFormat} {src : Memory} {dst : Slices}
    {strides : Strides} {dstRowSize dstHeight : Int} {fr : Slices}
    (hm : CopyFromInput format src dst strides dstRowSize dstHeight = some fr)
    (hp : min (hostStride format) dstRowSize ≤ |strides.Y|)
    (y x : Int) (hy0 : 0 ≤ y) (hy : y < min |format.bmi.biHeight| dstHeight) (hx0 : 0 ≤ x)
    (hx : x < min (hostStride format) dstRowSize) :
    fr.Y (0 + y * strides.Y + x)
      = src (primaryOffset format (min |format.bmi.biHeight| dstHeight) y x) := by
  unfold CopyFromInput at hm
  simp only at hm
  split at hm
  · cases hm
  · rename_i d0 hd0
    rw [CopyFromInputChroma_Y hm]
    simp only
    rw [BitBlt_get hd0 hp y x hy0 hy hx0 hx]
    unfold primaryOffset
    split <;> rfl

/-- After `CopyFromInput` for a format with separate chroma planes, the bytes of the frame's
second and third plane within the copied extent are the bytes of the host buffer's chroma
planes, the second host plane first for YV12. -/
theorem CopyFromInput_planar {format : VideoFormat} {src : Memory} {dst : Slices}
    {strides : Strides} {dstRowSize dstHeight : Int} {fr : Slices}
    (hm : CopyFromInput format src dst strides dstRowSize dstHeight = some fr)
    (hi : (FORMATS format.name).avsType.interleaved = false)
    (hsep : separateChroma (FORMATS format.name).mediaSubtype = true)
    (hpU : Int.tdiv (min (hostStride format) dstRowSize) 2 ≤ |strides.U|)
    (hpV : Int.tdiv (min (hostStride format) dstRowSize) 2 ≤ |strides.V|)
    (y x : Int) (hy0 : 0 ≤ y) (hy : y < Int.tdiv (min |format.bmi.biHeight| dstHeight) 2)
    (hx0 : 0 ≤ x) (hx : x < Int.tdiv (min (hostStride format) dstRowSize) 2) :
    fr.U (0 + y * strides.U + x)
      = src ((if (FORMATS format.name).mediaSubtype = .MEDIASUBTYPE_YV12 then
            hostStride format * min |format.bmi.biHeight| dstHeight
              + Int.tdiv (hostStride format * min |format.bmi.biHeight| dstHeight) 4
          else hostStride format * min |format.bmi.biHeight| dstHeight)
        + y * Int.tdiv (hostStride format) 2 + x) ∧
    fr.V (0 + y * strides.V + x)
      = src ((if (FORMATS format.name).mediaSubtype = .MEDIASUBTYPE_YV12 then
            hostStride format * min |format.bmi.biHeight| dstHeight
          else hostStride format * min |format.bmi.biHeight| dstHeight
            + Int.tdiv (hostStride format * min |format.bmi.biHeight| dstHeight) 4)
        + y * Int.tdiv (hostStride format) 2 + x) := by
  unfold CopyFromInput at hm
  simp only at hm
  split at hm
  · cases hm
  · unfold CopyFromInputChroma at hm
    simp only [hi, hsep, Bool.false_eq_true, if_false, if_true] at hm
    split at hm
    · cases hm
    · rename_i dU hdU
      split at hm
      · cases hm
      · rename_i dV hdV
        injection hm with hm
        subst hm
        exact ⟨BitBlt_get hdU hpU y x hy0 hy hx0 hx, BitBlt_get hdV hpV y x hy0 hy hx0 hx⟩

theorem tdiv_two_mono {a b : Int} (ha : 0 ≤ a) (hab : a ≤ b) : Int.tdiv a 2 ≤ Int.tdiv b 2 := by
  rw [Int.tdiv_eq_ediv ha (by decide), Int.tdiv_eq_ediv (le_trans ha hab) (by decide)]
  omega

theorem tdiv_two_nonpos {a : Int} (ha : a ≤ 0) : Int.tdiv a 2 ≤ 0 := by
  have h1 : Int.tdiv a 2 = -Int.tdiv (-a) 2 := by
    rw [Int.neg_tdiv, neg_neg]
  have h2 : 0 ≤ Int.tdiv (-a) 2 := Int.tdiv_nonneg (by omega) (by decide)
  omega

/-- Two planes of half the rows and half the row size fit into the quarter of the primary
plane each. -/
theorem quarter_bound (s H : Int) (hs : 0 ≤ s) (hH : 0 ≤ H) :
    Int.tdiv H 2 * Int.tdiv s 2 ≤ Int.tdiv (s * H) 4 := by
  rw [Int.tdiv_eq_ediv hH (by decide), Int.tdiv_eq_ediv hs (by decide),
    Int.tdiv_eq_ediv (mul_nonneg hs hH) (by decide)]
  rw [Int.le_ediv_iff_mul_le (by decide)]
  have h1 : 2 * (H / 2) ≤ H := by omega
  have h2 : 2 * (s / 2) ≤ s := by omega
  have h3 : 0 ≤ 2 * (s / 2) := by omega
  have := mul_le_mul h1 h2 h3 hH
  linarith

theorem block_bound (p rows y x : Int) (hy0 : 0 ≤ y) (hy : y < rows) (hx0 : 0 ≤ x)
    (hx : x < p) : 0 ≤ y * p + x ∧ y * p + x < rows * p := by
  have hp : 0 ≤ p := by omega
  have h1 : 0 ≤ y * p := mul_nonneg hy0 hp
  have h2 : (y + 1) * p ≤ rows * p := Int.mul_le_mul_of_nonneg_right (by omega) hp
  constructor <;> linarith

/-- After `CopyToOutput` for a format with separate chroma planes, the bytes of the host
buffer's chroma planes within the copied extent are the bytes of the frame's second and third
plane, the third plane first for YV12. -/
theorem CopyToOutput_planar {format : VideoFormat} {src : Slices} {strides : Strides}
    {out0 : Memory} {srcRowSize srcHeight : Int} {out : Memory}
    (hm : CopyToOutput format src strides out0 srcRowSize srcHeight = some out)
    (hi : (FORMATS format.name).avsType.interleaved = false)
    (hsep : separateChroma (FORMATS format.name).mediaSubtype = true)
    (hs : 0 ≤ hostStride format)
    (y x : Int) (hy0 : 0 ≤ y) (hy : y < Int.tdiv (min |format.bmi.biHeight| srcHeight) 2)
    (hx0 : 0 ≤ x) (hx : x < Int.tdiv (min (hostStride format) srcRowSize) 2) :
    out ((if (FORMATS format.name).mediaSubtype = .MEDIASUBTYPE_YV12 then
            hostStride format * min |format.bmi.biHeight| srcHeight
              + Int.tdiv (hostStride format * min |format.bmi.biHeight| srcHeight) 4
          else hostStride format * min |format.bmi.biHeight| srcHeight)
        + y * Int.tdiv (hostStride format) 2 + x) = src.U (0 + y * strides.U + x) ∧
    out ((if (FORMATS format.name).mediaSubtype = .MEDIASUBTYPE_YV12 then
            hostStride format * min |format.bmi.biHeight| srcHeight
          else hostStride format * min |format.bmi.biHeight| srcHeight
            + Int.tdiv (hostStride format * min |format.bmi.biHeight| srcHeight) 4)
        + y * Int.tdiv (hostStride format) 2 + x) = src.V (0 + y * strides.V + x) := by
  have hH : 0 ≤ min |format.bmi.biHeight| srcHeight := by
    have : 0 ≤ Int.tdiv (min |format.bmi.biHeight| srcHeight) 2 := by omega
    by_contra hneg
    have h1 : min |format.bmi.biHeight| srcHeight < 0 := by omega
    have := tdiv_two_nonpos (le_of_lt h1)
    omega
  have hR : 0 ≤ min (hostStride format) srcRowSize := by
    by_contra hneg
    have h1 : min (hostStride format) srcRowSize < 0 := by omega
    have := tdiv_two_nonpos (le_of_lt h1)
    omega
  have hs2 : Int.tdiv (min (hostStride format) srcRowSize) 2 ≤ Int.tdiv (hostStride format) 2 :=
    tdiv_two_mono hR (min_le_left _ _)
  have hs2' : 0 ≤ Int.tdiv (hostStride format) 2 := Int.tdiv_nonneg hs (by decide)
  have hq := quarter_bound (hostStride format) _ hs hH
  have hpitch : Int.tdiv (min (hostStride format) srcRowSize) 2
      ≤ |Int.tdiv (hostStride format) 2| := by
    rw [abs_of_nonneg hs2']; exact hs2
  have hb := block_bound (Int.tdiv (hostStride format) 2) _ y x hy0 hy hx0 (by omega)
  unfold CopyToOutput at hm
  simp only at hm
  split at hm
  · cases hm
  · unfold CopyToOutputChroma at hm
    simp only [hi, hsep, Bool.false_eq_true, if_false, if_true] at hm
    split at hm
    · cases hm
    · rename_i d1 hd1
      constructor
      · rw [BitBlt_other hm, BitBlt_get hd1 hpitch y x hy0 hy hx0 hx]
        intro y' x' hy0' hy' hx0' hx'
        have hb' := block_bound (Int.tdiv (hostStride format) 2) _ y' x' hy0' hy' hx0'
          (by omega)
        split <;> omega
      · exact BitBlt_get hm hpitch y x hy0 hy hx0 hx

theorem templateComponentSize_cases (format : VideoFormat) :
    templateComponentSize format = 1 ∨ templateComponentSize format = 2 := by
  unfold templateComponentSize
  split
  · exact Or.inl rfl
  · exact Or.inr rfl

/-- The planes `Deinterleave` fills hold the even and the odd components of each row. -/
theorem Deinterleave_get (c : Nat) (src : Memory) (srcp srcStride : Int)
    (dst1 dst2 : Memory) (dstStride : Int) (rowSize height : Int)
    (hp : ((c * (rowSize.toNat / (2 * c)) : Nat) : Int) ≤ |dstStride|)
    (y x : Nat) (hy : y < height.toNat) (hx : x < c * (rowSize.toNat / (2 * c))) :
    (Deinterleave c src srcp srcStride dst1 dst2 dstStride rowSize height).1
        ((y : Int) * dstStride + (x : Int))
      = src (srcp + (y : Int) * srcStride + ((2 * c * (x / c) + x % c : Nat) : Int)) ∧
    (Deinterleave c src srcp srcStride dst1 dst2 dstStride rowSize height).2
        ((y : Int) * dstStride + (x : Int))
      = src (srcp + (y : Int) * srcStride + ((2 * c * (x / c) + c + x % c : Nat) : Int)) := by
  have hinj : ∀ (a b a' b' : Nat), a < height.toNat → b < c * (rowSize.toNat / (2 * c)) →
      a' < height.toNat → b' < c * (rowSize.toNat / (2 * c)) →
      (a : Int) * dstStride + (b : Int) = (a' : Int) * dstStride + (b' : Int) →
      a = a' ∧ b = b' := by
    intro a b a' b' _ hb _ hb' e
    have := affine_inj_abs dstStride a a' b b' (by omega) (by omega) (by omega) (by omega) e
    omega
  unfold Deinterleave
  simp only
  constructor
  · exact copyRows_get dst1 src (fun (y x : Nat) => (y : Int) * dstStride + (x : Int)) _ _ _
      hinj y x hy hx
  · exact copyRows_get dst2 src (fun (y x : Nat) => (y : Int) * dstStride + (x : Int)) _ _ _
      hinj y x hy hx

/-- The rows `Interleave` writes hold the components of the first plane at the even and those
of the second plane at the odd positions. -/
theorem Interleave_get (c : Nat) (hc : c = 1 ∨ c = 2) (src1 src2 : Memory) (srcStride : Int)
    (dst : Memory) (dstp dstStride : Int) (rowSize height : Int)
    (hp : ((2 * c * (rowSize.toNat / c) : Nat) : Int) ≤ dstStride)
    (y x : Nat) (hy : y < height.toNat) (hx : x < c * (rowSize.toNat / c)) :
    Interleave c src1 src2 srcStride dst dstp dstStride rowSize height
        (dstp + (y : Int) * dstStride + ((2 * c * (x / c) + x % c : Nat) : Int))
      = src1 ((y : Int) * srcStride + (x : Int)) ∧
    Interleave c src1 src2 srcStride dst dstp dstStride rowSize height
        (dstp + (y : Int) * dstStride + ((2 * c * (x / c) + c + x % c : Nat) : Int))
      = src2 ((y : Int) * srcStride + (x : Int)) := by
  have hrow : ∀ (a a' : Nat) (w w' : Nat), w < 2 * c * (rowSize.toNat / c) →
      w' < 2 * c * (rowSize.toNat / c) →
      dstp + (a : Int) * dstStride + (w : Int) = dstp + (a' : Int) * dstStride + (w' : Int) →
      a = a' ∧ w = w' := by
    intro a a' w w' hw hw' e
    have e' : (a : Int) * dstStride + (w : Int) = (a' : Int) * dstStride + (w' : Int) := by
      omega
    have := affine_inj dstStride a a' w w' (by omega) (by omega) (by omega) (by omega) e'
    omega
  unfold Interleave
  rcases hc with rfl | rfl
  · simp only [Nat.mul_one, Nat.div_one, Nat.mod_one, Nat.add_zero, Nat.one_mul] at hx hrow ⊢
    constructor
    · rw [copyRows_other]
      · exact copyRows_get dst src1
          (fun (y x : Nat) => dstp + (y : Int) * dstStride + ((2 * x : Nat) : Int))
          (fun (y x : Nat) => (y : Int) * srcStride + (x : Int)) _ _
          (by
            intro a b a' b' _ hb _ hb' e
            have := hrow a a' (2 * b) (2 * b') (by omega) (by omega) e
            omega) y x hy hx
      · intro y' x' _ hx' e
        have := hrow y' y (2 * x' + 1) (2 * x) (by omega) (by omega) e
        omega
    · exact copyRows_get _ src2
        (fun (y x : Nat) => dstp + (y : Int) * dstStride + ((2 * x + 1 : Nat) : Int))
        (fun (y x : Nat) => (y : Int) * srcStride + (x : Int)) _ _
        (by
          intro a b a' b' _ hb _ hb' e
          have := hrow a a' (2 * b + 1) (2 * b' + 1) (by omega) (by omega) e
          omega) y x hy hx
  · constructor
    · rw [copyRows_other]
      · exact copyRows_get dst src1
          (fun (y x : Nat) => dstp + (y : Int) * dstStride
            + ((2 * 2 * (x / 2) + x % 2 : Nat) : Int))
          (fun (y x : Nat) => (y : Int) * srcStride + (x : Int)) _ _
          (by
            intro a b a' b' _ hb _ hb' e
            have := hrow a a' (2 * 2 * (b / 2) + b % 2) (2 * 2 * (b' / 2) + b' % 2)
              (by omega) (by omega) e
            omega) y x hy hx
      · intro y' x' _ hx' e
        have := hrow y' y (2 * 2 * (x' / 2) + 2 + x' % 2) (2 * 2 * (x / 2) + x % 2)
          (by omega) (by omega) e
        omega
    · exact copyRows_get _ src2
        (fun (y x : Nat) => dstp + (y : Int) * dstStride
          + ((2 * 2 * (x / 2) + 2 + x % 2 : Nat) : Int))
        (fun (y x : Nat) => (y : Int) * srcStride + (x : Int)) _ _
        (by
          intro a b a' b' _ hb _ hb' e
          have := hrow a a' (2 * 2 * (b / 2) + 2 + b % 2) (2 * 2 * (b' / 2) + 2 + b' % 2)
            (by omega) (by omega) e
          omega) y x hy hx

theorem CopyFromInput_packed {format : VideoFormat} {src : Memory} {dst : Slices}
    {strides : Strides} {dstRowSize dstHeight : Int} {fr : Slices}
    (hm : CopyFromInput format src dst strides dstRowSize dstHeight = some fr)
    (hi : (FORMATS format.name).avsType.interleaved = false)
    (hsep : separateChroma (FORMATS format.name).mediaSubtype = false) :
    fr.U = (Deinterleave (templateComponentSize format) src
      (hostStride format * min |format.bmi.biHeight| dstHeight) (hostStride format)
      dst.U dst.V strides.U (min (hostStride format) dstRowSize)
      (Int.tdiv (min |format.bmi.biHeight| dstHeight) 2)).1 ∧
    fr.V = (Deinterleave (templateComponentSize format) src
      (hostStride format * min |format.bmi.biHeight| dstHeight) (hostStride format)
      dst.U dst.V strides.U (min (hostStride format) dstRowSize)
      (Int.tdiv (min |format.bmi.biHeight| dstHeight) 2)).2 := by
  unfold CopyFromInput at hm
  simp only at hm
  split at hm
  · cases hm
  · unfold CopyFromInputChroma at hm
    simp only [hi, hsep, Bool.false_eq_true, if_false] at hm
    injection hm with hm
    subst hm
    exact ⟨rfl, rfl⟩

theorem CopyToOutput_packed {format : VideoFormat} {src : Slices} {strides : Strides}
    {out0 : Memory} {srcRowSize srcHeight : Int} {out : Memory}
    (hm : CopyToOutput format src strides out0 srcRowSize srcHeight = some out)
    (hi : (FORMATS format.name).avsType.interleaved = false)
    (hsep : separateChroma (FORMATS format.name).mediaSubtype = false) :
    ∃ d0, out = Interleave (templateComponentSize format) src.U src.V strides.U d0
      (hostStride format * min |format.bmi.biHeight| srcHeight) (hostStride format)
      (Int.tdiv (min (hostStride format) srcRowSize) 2)
      (Int.tdiv (min |format.bmi.biHeight| srcHeight) 2) := by
  unfold CopyToOutput at hm
  simp only at hm
  split at hm
  · cases hm
  · rename_i d0 _
    unfold CopyToOutputChroma at hm
    simp only [hi, hsep, Bool.false_eq_true, if_false] at hm
    injection hm with hm
    exact ⟨d0, hm.symm⟩

/-- Round trip on the interleaved chroma plane, for either component width. -/
theorem packed_round_trip (c : Nat) (hc : c = 1 ∨ c = 2) (buf d0 fU0 fV0 : Memory)
    (P s pU H2 : Int) (hs : 0 ≤ s) (hU : s / 2 ≤ pU)
    (y x : Int) (hy0 : 0 ≤ y) (hy : y < H2) (hx0 : 0 ≤ x)
    (hx : x < 2 * (c : Int) * (s / (2 * (c : Int)))) :
    Interleave c (Deinterleave c buf P s fU0 fV0 pU s H2).1
        (Deinterleave c buf P s fU0 fV0 pU s H2).2 pU d0 P s (Int.tdiv s 2) H2
        (P + y * s + x) = buf (P + y * s + x) := by
  have e2 : Int.tdiv s 2 = s / 2 := Int.tdiv_eq_ediv hs (by decide)
  have hyn : ((y.toNat : Nat) : Int) = y := Int.toNat_of_nonneg hy0
  have hxn : ((x.toNat : Nat) : Int) = x := Int.toNat_of_nonneg hx0
  have hpU : 0 ≤ pU := by omega
  rcases hc with rfl | rfl
  · -- 8-bit components
    have hI := Interleave_get 1 (Or.inl rfl) (Deinterleave 1 buf P s fU0 fV0 pU s H2).1
      (Deinterleave 1 buf P s fU0 fV0 pU s H2).2 pU d0 P s (Int.tdiv s 2) H2
      (by rw [e2]; omega) y.toNat (x.toNat / 2) (by omega) (by rw [e2]; omega)
    have hD := Deinterleave_get 1 buf P s fU0 fV0 pU s H2
      (by rw [abs_of_nonneg hpU]; omega) y.toNat (x.toNat / 2) (by omega) (by omega)
    rw [hyn] at hI hD
    by_cases hpar : x.toNat % 2 = 0
    · have ea : ((2 * 1 * (x.toNat / 2 / 1) + x.toNat / 2 % 1 : Nat) : Int) = x := by omega
      rw [ea] at hI hD
      rw [hI.1, hD.1]
    · have ea : ((2 * 1 * (x.toNat / 2 / 1) + 1 + x.toNat / 2 % 1 : Nat) : Int) = x := by omega
      rw [ea] at hI hD
      rw [hI.2, hD.2]
  · -- 16-bit components
    by_cases hpar : x.toNat % 4 < 2
    · have hI := Interleave_get 2 (Or.inr rfl) (Deinterleave 2 buf P s fU0 fV0 pU s H2).1
        (Deinterleave 2 buf P s fU0 fV0 pU s H2).2 pU d0 P s (Int.tdiv s 2) H2
        (by rw [e2]; omega) y.toNat (2 * (x.toNat / 4) + x.toNat % 4) (by omega)
        (by rw [e2]; omega)
      have hD := Deinterleave_get 2 buf P s fU0 fV0 pU s H2
        (by rw [abs_of_nonneg hpU]; omega) y.toNat (2 * (x.toNat / 4) + x.toNat % 4)
        (by omega) (by omega)
      rw [hyn] at hI hD
      have ea : ((2 * 2 * ((2 * (x.toNat / 4) + x.toNat % 4) / 2)
          + (2 * (x.toNat / 4) + x.toNat % 4) % 2 : Nat) : Int) = x := by omega
      rw [ea] at hI hD
      rw [hI.1, hD.1]
    · have hI := Interleave_get 2 (Or.inr rfl) (Deinterleave 2 buf P s fU0 fV0 pU s H2).1
        (Deinterleave 2 buf P s fU0 fV0 pU s H2).2 pU d0 P s (Int.tdiv s 2) H2
        (by rw [e2]; omega) y.toNat (2 * (x.toNat / 4) + (x.toNat % 4 - 2)) (by omega)
        (by rw [e2]; omega)
      have hD := Deinterleave_get 2 buf P s fU0 fV0 pU s H2
        (by rw [abs_of_nonneg hpU]; omega) y.toNat (2 * (x.toNat / 4) + (x.toNat % 4 - 2))
        (by omega) (by omega)
      rw [hyn] at hI hD
      have ea : ((2 * 2 * ((2 * (x.toNat / 4) + (x.toNat % 4 - 2)) / 2) + 2
          + (2 * (x.toNat / 4) + (x.toNat % 4 - 2)) % 2 : Nat) : Int) = x := by omega
      rw [ea] at hI hD
      rw [hI.2, hD.2]

/-- C9: for every format of the catalog, every host buffer and every engine frame sized as
declared (row size `hostStride`, `|biHeight|` rows, pitches not below the row sizes of the
planes the format has),
`CopyFromInput` followed by `CopyToOutput` goes through and writes a host buffer that agrees
with the original on every byte inside the declared extents of each plane: the primary plane
(bottom-up or top-down), the two separate chroma planes (in either order), and the
interleaved chroma plane through `Deinterleave` and `Interleave`. -/
theorem converter_round_trip (format : VideoFormat) (buf out0 : Memory) (frame0 : Slices)
    (strides : Strides) (hs : 0 ≤ hostStride format) (hY : hostStride format ≤ strides.Y)
    (hU : (FORMATS format.name).avsType.interleaved = false →
      hostStride format / 2 ≤ strides.U)
    (hV : (FORMATS format.name).avsType.interleaved = false →
      hostStride format / 2 ≤ strides.V) :
    ∃ frame out,
      CopyFromInput format buf frame0 strides (hostStride format) |format.bmi.biHeight|
        = some frame ∧
      CopyToOutput format frame strides out0 (hostStride format) |format.bmi.biHeight|
        = some out ∧
      ∀ a, inDeclaredExtent format a → out a = buf a := by
  have hH : 0 ≤ |format.bmi.biHeight| := abs_nonneg _
  obtain ⟨fr, hfr⟩ := CopyFromInput_some format buf frame0 strides (hostStride format)
    |format.bmi.biHeight| hs hs hH
  obtain ⟨out, hout⟩ := CopyToOutput_some format fr strides out0 (hostStride format)
    |format.bmi.biHeight| hs hs hH
  have e2 : Int.tdiv (hostStride format) 2 = hostStride format / 2 :=
    Int.tdiv_eq_ediv hs (by decide)
  have eH : Int.tdiv |format.bmi.biHeight| 2 = |format.bmi.biHeight| / 2 :=
    Int.tdiv_eq_ediv hH (by decide)
  have eP : Int.tdiv (hostStride format * |format.bmi.biHeight|) 4
      = hostStride format * |format.bmi.biHeight| / 4 :=
    Int.tdiv_eq_ediv (mul_nonneg hs hH) (by decide)
  have hs2 : 0 ≤ hostStride format / 2 := by omega
  refine ⟨fr, out, hfr, hout, ?_⟩
  intro a ha
  rcases ha with ⟨y, x, hy0, hy, hx0, hx, rfl⟩ | ⟨hi, hsep, y, x, hy0, hy, hx0, hx, ha⟩ |
    ⟨hi, hsep, y, x, hy0, hy, hx0, hx, rfl⟩
  · -- primary plane
    have hp1 := CopyToOutput_primary hout
    have hp2 := CopyFromInput_primary hfr
      (by rw [min_self, abs_of_nonneg (le_trans hs hY)]; exact hY)
    simp only [min_self] at hp1 hp2
    by_cases ht : topDown format = true
    · have e : primaryOffset format |format.bmi.biHeight| (|format.bmi.biHeight| - 1 - y) x
          = y * hostStride format + x := by
        unfold primaryOffset
        rw [if_pos ht]
        ring
      rw [← e, hp1 _ x (by omega) (by omega) hx0 hx, hp2 _ x (by omega) (by omega) hx0 hx]
    · have e : primaryOffset format |format.bmi.biHeight| y x = y * hostStride format + x := by
        unfold primaryOffset
        rw [if_neg ht]
        ring
      rw [← e, hp1 y x hy0 hy hx0 hx, hp2 y x hy0 hy hx0 hx]
  · -- separate chroma planes
    have q1 := CopyToOutput_planar hout hi hsep hs y x hy0
      (by rw [min_self, eH]; exact hy) hx0 (by rw [min_self, e2]; exact hx)
    have q2 := CopyFromInput_planar hfr hi hsep
      (by rw [min_self, e2, abs_of_nonneg (le_trans hs2 (hU hi))]; exact hU hi)
      (by rw [min_self, e2, abs_of_nonneg (le_trans hs2 (hV hi))]; exact hV hi) y x hy0
      (by rw [min_self, eH]; exact hy) hx0 (by rw [min_self, e2]; exact hx)
    simp only [min_self, e2, eP] at q1 q2
    by_cases hyv : (FORMATS format.name).mediaSubtype = .MEDIASUBTYPE_YV12
    · simp only [hyv, if_true] at q1 q2
      rcases ha with rfl | rfl
      · rw [q1.2, q2.2]
      · rw [q1.1, q2.1]
    · simp only [hyv, if_false] at q1 q2
      rcases ha with rfl | rfl
      · rw [q1.1, q2.1]
      · rw [q1.2, q2.2]
  · -- interleaved chroma plane
    obtain ⟨d0, hd0⟩ := CopyToOutput_packed hout hi hsep
    obtain ⟨hfU, hfV⟩ := CopyFromInput_packed hfr hi hsep
    simp only [min_self] at hd0 hfU hfV
    rw [hd0, hfU, hfV]
    exact packed_round_trip _ (templateComponentSize_cases format) buf d0 frame0.U frame0.V _ _
      _ _ hs (hU hi) y x hy0 (by rw [eH]; exact hy) hx0 hx

/-- C10, as the code has it: for a format with `biCompression == BI_RGB`, a height `h > 0` and
an engine frame of at least `h` rows, `CopyFromInput` with declared height `-h` goes through
and fills the frame exactly as `CopyFromInput` with declared height `+h` does from the buffer
with its `h` rows reversed; and `CopyToOutput` with declared height `-h` writes, in row
`h - 1 - y`, what `CopyToOutput` with declared height `+h` writes in row `y`, namely row `y`
of the frame. -/
theorem row_order_reversal (format : VideoFormat) (h : Int) (B : Memory)
    (frame0 frame : Slices) (strides : Strides) (out0 out1 : Memory)
    (frameRowSize frameHeight : Int) (hc : format.bmi.biCompression = BI_RGB) (hh : 0 < h)
    (hd : h ≤ frameHeight) (hs : 0 ≤ hostStride format) (hr : 0 ≤ frameRowSize) :
    (∃ fr, CopyFromInput (format.withHeight (-h)) B frame0 strides frameRowSize frameHeight
          = some fr ∧
        CopyFromInput (format.withHeight h) (reverseRows (hostStride format) h B) frame0
          strides frameRowSize frameHeight = some fr) ∧
    (∃ outNeg outPos,
        CopyToOutput (format.withHeight (-h)) frame strides out0 frameRowSize frameHeight
          = some outNeg ∧
        CopyToOutput (format.withHeight h) frame strides out1 frameRowSize frameHeight
          = some outPos ∧
        ∀ y x : Int, 0 ≤ y → y < h → 0 ≤ x → x < min (hostStride format) frameRowSize →
          outNeg ((h - 1 - y) * hostStride format + x) = outPos (y * hostStride format + x) ∧
          outPos (y * hostStride format + x) = frame.Y (y * strides.Y + x)) := by
  have hfh : 0 ≤ frameHeight := by omega
  have habs1 : |(format.withHeight (-h)).bmi.biHeight| = h := by
    simp [VideoFormat.withHeight, abs_of_pos hh]
  have habs2 : |(format.withHeight h).bmi.biHeight| = h := by
    simp [VideoFormat.withHeight, abs_of_pos hh]
  constructor
  · obtain ⟨fr, hfr⟩ := CopyFromInput_some (format.withHeight (-h)) B frame0 strides
      frameRowSize frameHeight hs hr hfh
    refine ⟨fr, hfr, ?_⟩
    rw [← CopyFromInput_topDown_eq format h B frame0 strides frameRowSize frameHeight hc hh hd]
    exact hfr
  · obtain ⟨outNeg, hneg⟩ := CopyToOutput_some (format.withHeight (-h)) frame strides out0
      frameRowSize frameHeight hs hr hfh
    obtain ⟨outPos, hpos⟩ := CopyToOutput_some (format.withHeight h) frame strides out1
      frameRowSize frameHeight hs hr hfh
    refine ⟨outNeg, outPos, hneg, hpos, ?_⟩
    intro y x hy0 hy hx0 hx
    have p1 := CopyToOutput_primary hneg y x hy0 (by rw [habs1, min_eq_left hd]; exact hy) hx0 hx
    have p2 := CopyToOutput_primary hpos y x hy0 (by rw [habs2, min_eq_left hd]; exact hy) hx0 hx
    rw [habs1, min_eq_left hd] at p1
    rw [habs2, min_eq_left hd] at p2
    have e1 : primaryOffset (format.withHeight (-h)) h y x
        = (h - 1 - y) * hostStride format + x := by
      unfold primaryOffset
      rw [if_pos (topDown_neg format h hc hh), hostStride_withHeight]
      ring
    have e2 : primaryOffset (format.withHeight h) h y x = y * hostStride format + x := by
      unfold primaryOffset
      rw [topDown_pos format h hh, hostStride_withHeight]
      simp
    rw [e1] at p1
    rw [e2] at p2
    rw [zero_add] at p1 p2
    exact ⟨by rw [p1, p2], p2⟩

theorem row_order_reversal_witness :
    (∃ fr, CopyFromInput (rgbW.withHeight (-2)) bufW zeroSlices stridesRgbW 3 2 = some fr ∧
        CopyFromInput (rgbW.withHeight 2) (reverseRows (hostStride rgbW) 2 bufW) zeroSlices
          stridesRgbW 3 2 = some fr) ∧
    (∃ outNeg outPos,
        CopyToOutput (rgbW.withHeight (-2)) frameRgbW stridesRgbW zeroMem 3 2 = some outNeg ∧
        CopyToOutput (rgbW.withHeight 2) frameRgbW stridesRgbW zeroMem 3 2 = some outPos ∧
        ∀ y x : Int, 0 ≤ y → y < 2 → 0 ≤ x → x < min (hostStride rgbW) 3 →
          outNeg ((2 - 1 - y) * hostStride rgbW + x) = outPos (y * hostStride rgbW + x) ∧
          outPos (y * hostStride rgbW + x) = frameRgbW.Y (y * stridesRgbW.Y + x)) :=
  row_order_reversal rgbW 2 bufW zeroSlices frameRgbW stridesRgbW zeroMem zeroMem 3 2 rfl
    (by decide) (by decide) (by decide) (by decide)

/-- C10 as stated fails when the engine frame has fewer rows than declared. With two
declared rows and a frame of one row, `CopyFromInput` with declared height `-2` copies the
first row of the buffer, while with declared height `+2` on the buffer with its two rows
reversed it copies the second row; and `CopyToOutput` writes the frame row into the first row
of the buffer under either declared height, not into reversed places. -/
theorem row_order_short_frame :
    (CopyFromInput (rgbW.withHeight (-2)) bufW zeroSlices stridesRgbW 3 1).map
        (fun fr => [fr.Y 0, fr.Y 1, fr.Y 2]) = some [1, 2, 3] ∧
    (CopyFromInput (rgbW.withHeight 2) (reverseRows (hostStride rgbW) 2 bufW) zeroSlices
        stridesRgbW 3 1).map (fun fr => [fr.Y 0, fr.Y 1, fr.Y 2]) = some [4, 5, 6] ∧
    (CopyToOutput (rgbW.withHeight (-2)) frameRgbW stridesRgbW zeroMem 3 1).map
        (fun out => [out 0, out 1, out 2, out 3, out 4, out 5]) = some [1, 2, 3, 0, 0, 0] ∧
    (CopyToOutput (rgbW.withHeight 2) frameRgbW stridesRgbW zeroMem 3 1).map
        (fun out => [out 0, out 1, out 2, out 3, out 4, out 5]) = some [1, 2, 3, 0, 0, 0] ∧
    (CopyToOutput (rgbW.withHeight 2) frameRgbW stridesRgbW zeroMem 3 1).map
        (fun out => [reverseRows 3 2 out 0, reverseRows 3 2 out 1, reverseRows 3 2 out 2,
          reverseRows 3 2 out 3, reverseRows 3 2 out 4, reverseRows 3 2 out 5])
      = some [0, 0, 0, 1, 2, 3] :=
  ⟨rfl, rfl, rfl, rfl, rfl⟩

theorem converter_round_trip_witness :
    (∃ frame out,
      CopyFromInput yv12W bufW zeroSlices stridesW (hostStride yv12W) |yv12W.bmi.biHeight|
        = some frame ∧
      CopyToOutput yv12W frame stridesW zeroMem (hostStride yv12W) |yv12W.bmi.biHeight|
        = some out ∧
      ∀ a, inDeclaredExtent yv12W a → out a = bufW a) ∧
    inDeclaredExtent yv12W 5 ∧ inDeclaredExtent yv12W 17 ∧ inDeclaredExtent yv12W 23 ∧
    (∃ frame out,
      CopyFromInput nv12W bufW zeroSlices stridesW (hostStride nv12W) |nv12W.bmi.biHeight|
        = some frame ∧
      CopyToOutput nv12W frame stridesW zeroMem (hostStride nv12W) |nv12W.bmi.biHeight|
        = some out ∧
      ∀ a, inDeclaredExtent nv12W a → out a = bufW a) ∧
    inDeclaredExtent nv12W 23 ∧
    (∃ frame out,
      CopyFromInput (rgbW.withHeight (-2)) bufW zeroSlices stridesRgbW
        (hostStride (rgbW.withHeight (-2))) |(rgbW.withHeight (-2)).bmi.biHeight| = some frame ∧
      CopyToOutput (rgbW.withHeight (-2)) frame stridesRgbW zeroMem
        (hostStride (rgbW.withHeight (-2))) |(rgbW.withHeight (-2)).bmi.biHeight| = some out ∧
      ∀ a, inDeclaredExtent (rgbW.withHeight (-2)) a → out a = bufW a) ∧
    inDeclaredExtent (rgbW.withHeight (-2)) 4 :=
  ⟨converter_round_trip yv12W bufW zeroMem zeroSlices stridesW (by decide) (by decide)
      (fun _ => by decide) (fun _ => by decide),
    Or.inl ⟨1, 1, by decide, by decide, by decide, by decide, by decide⟩,
    Or.inr (Or.inl ⟨rfl, rfl, 0, 1, by decide, by decide, by decide, by decide,
      Or.inl (by decide)⟩),
    Or.inr (Or.inl ⟨rfl, rfl, 1, 1, by decide, by decide, by decide, by decide,
      Or.inr (by decide)⟩),
    converter_round_trip nv12W bufW zeroMem zeroSlices stridesW (by decide) (by decide)
      (fun _ => by decide) (fun _ => by decide),
    Or.inr (Or.inr ⟨rfl, rfl, 1, 3, by decide, by decide, by decide, by decide, by decide⟩),
    converter_round_trip (rgbW.withHeight (-2)) bufW zeroMem zeroSlices stridesRgbW (by decide)
      (by decide) (fun h => by cases h) (fun h => by cases h),
    Or.inl ⟨1, 1, by decide, by decide, by decide, by decide, by decide⟩⟩

/-- The primary plane and the chroma planes of a copy of `height` rows lie below the declared
image size. -/
theorem image_bounds (s Habs height : Int) (hs : 0 ≤ s) (hh0 : 0 ≤ height)
    (hh : height ≤ Habs) :
    0 ≤ s * height ∧ s * height ≤ s * Habs ∧
    s * height + 2 * Int.tdiv (s * height) 4 ≤ s * Habs * 3 / 2 ∧
    s * height + Int.tdiv height 2 * s ≤ s * Habs * 3 / 2 := by
  have hP : 0 ≤ s * height := mul_nonneg hs hh0
  have hPQ : s * height ≤ s * Habs := Int.mul_le_mul_of_nonneg_left hh hs
  rw [Int.tdiv_eq_ediv hP (by decide), Int.tdiv_eq_ediv hh0 (by decide)]
  have h1 : 2 * (height / 2) ≤ height := by omega
  have h2 : 2 * (height / 2) * s ≤ height * s := Int.mul_le_mul_of_nonneg_right h1 hs
  have h3 : height * s = s * height := mul_comm _ _
  have h4 : 2 * (height / 2) * s = 2 * (height / 2 * s) := by ring
  refine ⟨hP, hPQ, ?_, ?_⟩
  · omega
  · omega

theorem declaredImageSize_ge (format : VideoFormat) (hs : 0 ≤ hostStride format) :
    hostStride format * |format.bmi.biHeight| ≤ declaredImageSize format := by
  have : 0 ≤ hostStride format * |format.bmi.biHeight| := mul_nonneg hs (abs_nonneg _)
  unfold declaredImageSize
  split
  · exact le_refl _
  · omega

/-- The chroma part of `CopyFromInput` reads the host buffer below `B` only, for every bound
`B` above the chroma planes. -/
theorem CopyFromInputChroma_reads (format : VideoFormat) (src1 src2 : Memory) (dst : Slices)
    (strides : Strides) (s rowSize height P B : Int) (hs : 0 ≤ s) (hP : P = s * height)
    (hh : 0 ≤ height) (hr : rowSize ≤ s)
    (hB : (FORMATS format.name).avsType.interleaved = false →
      P + 2 * Int.tdiv P 4 ≤ B ∧ P + Int.tdiv height 2 * s ≤ B)
    (h : ∀ a, 0 ≤ a → a < B → src1 a = src2 a) :
    CopyFromInputChroma format src1 dst strides s rowSize height P =
      CopyFromInputChroma format src2 dst strides s rowSize height P := by
  have hP0 : 0 ≤ P := by rw [hP]; exact mul_nonneg hs hh
  have hs2 : 0 ≤ Int.tdiv s 2 := Int.tdiv_nonneg hs (by decide)
  have hP4 : 0 ≤ Int.tdiv P 4 := Int.tdiv_nonneg hP0 (by decide)
  have hq := quarter_bound s height hs hh
  rw [← hP] at hq
  unfold CopyFromInputChroma
  simp only
  split
  · rfl
  · rename_i hni
    have hni2 : (FORMATS format.name).avsType.interleaved = false := by simpa using hni
    obtain ⟨hB1, hB2⟩ := hB hni2
    have hblt : ∀ (d : Memory) (p b : Int), P ≤ b → b ≤ P + Int.tdiv P 4 →
        BitBlt d 0 p src1 b (Int.tdiv s 2) (Int.tdiv rowSize 2) (Int.tdiv height 2) =
        BitBlt d 0 p src2 b (Int.tdiv s 2) (Int.tdiv rowSize 2) (Int.tdiv height 2) := by
      intro d p b hb1 hb2
      apply BitBlt_congr
      intro y x hy0 hy hx0 hx
      have hx2 : x < Int.tdiv s 2 := by
        by_cases hr0 : 0 ≤ rowSize
        · have := tdiv_two_mono hr0 hr
          omega
        · have := tdiv_two_nonpos (show rowSize ≤ 0 by omega)
          omega
      obtain ⟨b1, b2⟩ := block_bound (Int.tdiv s 2) (Int.tdiv height 2) y x hy0 hy hx0 hx2
      apply h <;> omega
    split
    · rw [hblt dst.U _ _ (by split <;> omega) (by split <;> omega),
        hblt dst.V _ _ (by split <;> omega) (by split <;> omega)]
    · unfold Deinterleave
      simp only
      have hrow : ∀ (y x : Nat), y < (Int.tdiv height 2).toNat →
          x < templateComponentSize format *
            (rowSize.toNat / (2 * templateComponentSize format)) →
          0 ≤ P + (y : Int) * s ∧
          P + (y : Int) * s + ((2 * templateComponentSize format *
            (x / templateComponentSize format) + templateComponentSize format +
              x % templateComponentSize format : Nat) : Int) < B ∧
          P + (y : Int) * s + ((2 * templateComponentSize format *
            (x / templateComponentSize format) +
              x % templateComponentSize format : Nat) : Int) < B := by
        intro y x hy hx
        have hy1 : ((y : Int) + 1) * s ≤ Int.tdiv height 2 * s :=
          Int.mul_le_mul_of_nonneg_right (by omega) hs
        have hy2 : 0 ≤ (y : Int) * s := mul_nonneg (by omega) hs
        have hy3 : ((y : Int) + 1) * s = (y : Int) * s + s := by ring
        rcases templateComponentSize_cases format with hc | hc
        · rw [hc] at hx ⊢
          refine ⟨?_, ?_, ?_⟩ <;> omega
        · rw [hc] at hx ⊢
          refine ⟨?_, ?_, ?_⟩ <;> omega
      rw [copyRows_congr dst.U src1 src2, copyRows_congr dst.V src1 src2]
      · intro y x hy hx
        obtain ⟨b1, b2, b3⟩ := hrow y x hy hx
        apply h
        · omega
        · exact b2
      · intro y x hy hx
        obtain ⟨b1, b2, b3⟩ := hrow y x hy hx
        apply h
        · omega
        · exact b3

/-- `CopyFromInput` reads the host buffer at offsets from 0 up to the declared image size
only: two buffers that agree there give the same frame. -/
theorem CopyFromInput_reads (format : VideoFormat) (src1 src2 : Memory) (dst : Slices)
    (strides : Strides) (dstRowSize dstHeight : Int)
    (h : ∀ a, 0 ≤ a → a < declaredImageSize format → src1 a = src2 a) :
    CopyFromInput format src1 dst strides dstRowSize dstHeight =
      CopyFromInput format src2 dst strides dstRowSize dstHeight := by
  have hprim : ∀ y x : Int, 0 ≤ y → y < min |format.bmi.biHeight| dstHeight → 0 ≤ x →
      x < min (hostStride format) dstRowSize →
      src1 (primaryOffset format (min |format.bmi.biHeight| dstHeight) y x) =
        src2 (primaryOffset format (min |format.bmi.biHeight| dstHeight) y x) := by
    intro y x hy0 hy hx0 hx
    have hxs : x < hostStride format := lt_of_lt_of_le hx (min_le_left _ _)
    have hs : 0 ≤ hostStride format := by omega
    obtain ⟨b1, b2⟩ := primaryOffset_lt format _ y x hy0 hy hx0 hxs
    obtain ⟨-, c2, -, -⟩ := image_bounds (hostStride format) |format.bmi.biHeight|
      (min |format.bmi.biHeight| dstHeight) hs (by omega) (min_le_left _ _)
    have := declaredImageSize_ge format hs
    apply h <;> omega
  unfold CopyFromInput
  simp only
  have hb : BitBlt dst.Y 0 strides.Y src1
        (if topDown format then hostStride format * min |format.bmi.biHeight| dstHeight
          - hostStride format else 0)
        (if topDown format then -hostStride format else hostStride format)
        (min (hostStride format) dstRowSize) (min |format.bmi.biHeight| dstHeight) =
      BitBlt dst.Y 0 strides.Y src2
        (if topDown format then hostStride format * min |format.bmi.biHeight| dstHeight
          - hostStride format else 0)
        (if topDown format then -hostStride format else hostStride format)
        (min (hostStride format) dstRowSize) (min |format.bmi.biHeight| dstHeight) := by
    apply BitBlt_congr
    intro y x hy0 hy hx0 hx
    have := hprim y x hy0 hy hx0 hx
    unfold primaryOffset at this
    by_cases ht : topDown format = true
    · simp only [ht, if_true] at this ⊢
      exact this
    · have ht2 : topDown format = false := by simpa using ht
      simp only [ht2, Bool.false_eq_true, if_false] at this ⊢
      exact this
  rw [hb]
  cases hm : BitBlt dst.Y 0 strides.Y src2
        (if topDown format then hostStride format * min |format.bmi.biHeight| dstHeight
          - hostStride format else 0)
        (if topDown format then -hostStride format else hostStride format)
        (min (hostStride format) dstRowSize) (min |format.bmi.biHeight| dstHeight) with
  | none => rfl
  | some dstY =>
    simp only
    obtain ⟨hr0, hh0⟩ := BitBlt_extent hm
    have hs : 0 ≤ hostStride format := le_trans hr0 (min_le_left _ _)
    obtain ⟨-, -, c3, c4⟩ := image_bounds (hostStride format) |format.bmi.biHeight|
      (min |format.bmi.biHeight| dstHeight) hs hh0 (min_le_left _ _)
    apply CopyFromInputChroma_reads format src1 src2 _ strides _ _ _ _
      (declaredImageSize format) hs rfl hh0 (min_le_left _ _) _ h
    intro hni
    unfold declaredImageSize
    rw [hni]
    simp only [Bool.false_eq_true, if_false]
    exact ⟨c3, c4⟩

/-- The chroma part of `CopyToOutput` writes the host buffer from 0 up to `B` only, for every
bound `B` above the chroma planes. -/
theorem CopyToOutputChroma_writes {format : VideoFormat} {src : Slices} {strides : Strides}
    {d0 : Memory} {s rowSize height P B : Int} {m : Memory}
    (hm : CopyToOutputChroma format src strides d0 s rowSize height P = some m)
    (hs : 0 ≤ s) (hP : P = s * height) (hh : 0 ≤ height) (hr : rowSize ≤ s)
    (hB : (FORMATS format.name).avsType.interleaved = false →
      P + 2 * Int.tdiv P 4 ≤ B ∧ P + Int.tdiv height 2 * s ≤ B)
    (a : Int) (ha : ¬ (0 ≤ a ∧ a < B)) : m a = d0 a := by
  have hP0 : 0 ≤ P := by rw [hP]; exact mul_nonneg hs hh
  have hs2 : 0 ≤ Int.tdiv s 2 := Int.tdiv_nonneg hs (by decide)
  have hP4 : 0 ≤ Int.tdiv P 4 := Int.tdiv_nonneg hP0 (by decide)
  have hh2 : 0 ≤ Int.tdiv height 2 := Int.tdiv_nonneg hh (by decide)
  have hq := quarter_bound s height hs hh
  rw [← hP] at hq
  unfold CopyToOutputChroma at hm
  simp only at hm
  split at hm
  · injection hm with hm; rw [hm]
  · rename_i hni
    have hni2 : (FORMATS format.name).avsType.interleaved = false := by simpa using hni
    obtain ⟨hB1, hB2⟩ := hB hni2
    have hblk : ∀ (b y x : Int), P ≤ b → b ≤ P + Int.tdiv P 4 → 0 ≤ y →
        y < Int.tdiv height 2 → 0 ≤ x → x < Int.tdiv rowSize 2 →
        b + y * Int.tdiv s 2 + x ≠ a := by
      intro b y x hb1 hb2 hy0 hy hx0 hx
      have hx2 : x < Int.tdiv s 2 := by
        by_cases hr0 : 0 ≤ rowSize
        · have := tdiv_two_mono hr0 hr
          omega
        · have := tdiv_two_nonpos (show rowSize ≤ 0 by omega)
          omega
      obtain ⟨b1, b2⟩ := block_bound (Int.tdiv s 2) (Int.tdiv height 2) y x hy0 hy hx0 hx2
      omega
    split at hm
    · split at hm
      · cases hm
      · rename_i d1 h1
        rw [BitBlt_other hm a, BitBlt_other h1 a]
        · intro y x hy0 hy hx0 hx
          exact hblk _ y x (by split <;> omega) (by split <;> omega) hy0 hy hx0 hx
        · intro y x hy0 hy hx0 hx
          exact hblk _ y x (by split <;> omega) (by split <;> omega) hy0 hy hx0 hx
    · injection hm with hm
      subst hm
      have hrs : 2 * (((Int.tdiv rowSize 2).toNat : Nat) : Int) ≤ s := by
        by_cases hr0 : 0 ≤ rowSize
        · rw [Int.tdiv_eq_ediv hr0 (by decide)]
          omega
        · have := tdiv_two_nonpos (show rowSize ≤ 0 by omega)
          omega
      have hrow : ∀ (y x : Nat), y < (Int.tdiv height 2).toNat →
          x < templateComponentSize format *
            ((Int.tdiv rowSize 2).toNat / templateComponentSize format) →
          P + (y : Int) * s + ((2 * templateComponentSize format *
            (x / templateComponentSize format) + templateComponentSize format +
              x % templateComponentSize format : Nat) : Int) ≠ a ∧
          P + (y : Int) * s + ((2 * templateComponentSize format *
            (x / templateComponentSize format) +
              x % templateComponentSize format : Nat) : Int) ≠ a := by
        intro y x hy hx
        have hy1 : ((y : Int) + 1) * s ≤ Int.tdiv height 2 * s :=
          Int.mul_le_mul_of_nonneg_right (by omega) hs
        have hy2 : 0 ≤ (y : Int) * s := mul_nonneg (by omega) hs
        have hy3 : ((y : Int) + 1) * s = (y : Int) * s + s := by ring
        rcases templateComponentSize_cases format with hc | hc
        · rw [hc] at hx ⊢
          refine ⟨?_, ?_⟩ <;> omega
        · rw [hc] at hx ⊢
          refine ⟨?_, ?_⟩ <;> omega
      unfold Interleave
      rw [copyRows_other, copyRows_other]
      · intro y x hy hx
        exact (hrow y x hy hx).2
      · intro y x hy hx
        exact (hrow y x hy hx).1

/-- `CopyToOutput` writes the host buffer at offsets from 0 up to the declared image size
only. -/
theorem CopyToOutput_writes {format : VideoFormat} {src : Slices} {strides : Strides}
    {out0 : Memory} {srcRowSize srcHeight : Int} {out : Memory}
    (hm : CopyToOutput format src strides out0 srcRowSize srcHeight = some out)
    (a : Int) (ha : ¬ (0 ≤ a ∧ a < declaredImageSize format)) : out a = out0 a := by
  unfold CopyToOutput at hm
  simp only at hm
  split at hm
  · cases hm
  · rename_i d0 hd0
    obtain ⟨hr0, hh0⟩ := BitBlt_extent hd0
    have hs : 0 ≤ hostStride format := le_trans hr0 (min_le_left _ _)
    obtain ⟨-, c2, c3, c4⟩ := image_bounds (hostStride format) |format.bmi.biHeight|
      (min |format.bmi.biHeight| srcHeight) hs hh0 (min_le_left _ _)
    have hge := declaredImageSize_ge format hs
    rw [CopyToOutputChroma_writes hm hs rfl hh0 (min_le_left _ _) _ a ha]
    · apply BitBlt_other hd0 a
      intro y x hy0 hy hx0 hx
      have hxs : x < hostStride format := lt_of_lt_of_le hx (min_le_left _ _)
      obtain ⟨b1, b2⟩ := primaryOffset_lt format _ y x hy0 hy hx0 hxs
      unfold primaryOffset at b1 b2
      by_cases ht : topDown format = true
      · simp only [ht, if_true] at b1 b2 ⊢
        omega
      · have ht2 : topDown format = false := by simpa using ht
        simp only [ht2, Bool.false_eq_true, if_false] at b1 b2 ⊢
        omega
    · intro hni
      unfold declaredImageSize
      rw [hni]
      simp only [Bool.false_eq_true, if_false]
      exact ⟨c3, c4⟩

/-- `CopyFromInput` changes the first plane of the frame within the copied rows and row bytes
only. -/
theorem CopyFromInput_primary_other {format : VideoFormat} {src : Memory} {dst : Slices}
    {strides : Strides} {dstRowSize dstHeight : Int} {fr : Slices}
    (hm : CopyFromInput format src dst strides dstRowSize dstHeight = some fr) (a : Int)
    (ha : ∀ y x : Int, 0 ≤ y → y < min |format.bmi.biHeight| dstHeight → 0 ≤ x →
      x < min (hostStride format) dstRowSize → 0 + y * strides.Y + x ≠ a) :
    fr.Y a = dst.Y a := by
  unfold CopyFromInput at hm
  simp only at hm
  split at hm
  · cases hm
  · rename_i d0 hd0
    rw [CopyFromInputChroma_Y hm]
    exact BitBlt_other hd0 a ha

/-- `CopyToOutput` changes the primary plane of the host buffer within the copied rows and row
bytes only. -/
theorem CopyToOutput_primary_other {format : VideoFormat} {src : Slices} {strides : Strides}
    {out0 : Memory} {srcRowSize srcHeight : Int} {out : Memory}
    (hm : CopyToOutput format src strides out0 srcRowSize srcHeight = some out) (a : Int)
    (hlt : a < hostStride format * min |format.bmi.biHeight| srcHeight)
    (ha : ∀ y x : Int, 0 ≤ y → y < min |format.bmi.biHeight| srcHeight → 0 ≤ x →
      x < min (hostStride format) srcRowSize →
      primaryOffset format (min |format.bmi.biHeight| srcHeight) y x ≠ a) :
    out a = out0 a := by
  unfold CopyToOutput at hm
  simp only at hm
  split at hm
  · cases hm
  · rename_i d0 hd0
    obtain ⟨hr0, hh0⟩ := BitBlt_extent hd0
    have hs : 0 ≤ hostStride format := le_trans hr0 (min_le_left _ _)
    rw [CopyToOutputChroma_below hm hs (mul_nonneg hs hh0) a hlt]
    apply BitBlt_other hd0 a
    intro y x hy0 hy hx0 hx
    have := ha y x hy0 hy hx0 hx
    unfold primaryOffset at this
    by_cases ht : topDown format = true
    · simp only [ht, if_true] at this ⊢
      exact this
    · have ht2 : topDown format = false := by simpa using ht
      simp only [ht2, Bool.false_eq_true, if_false] at this ⊢
      exact this

/-- The extents of the two copies over the exact integers, for every format descriptor, frame
and host buffer, with `rowSize = min(stride, frame row size)` and
`height = min(|biHeight|, frame height)`:
`CopyFromInput` reads the host buffer at offsets from 0 up to the declared image size only
(buffers that agree there give the same frame), changes the first plane of the frame in
`height` rows of `rowSize` bytes only, and fills these from the host rows, the last row first
for a top-down bitmap; `CopyToOutput` writes the host buffer at offsets from 0 up to the
declared image size only, changes the primary plane in `height` rows of `rowSize` bytes only,
and fills these from the frame; every primary offset used lies from 0 up to the declared image
size; for separate chroma planes both copy `height / 2` rows of `rowSize / 2` bytes of each
plane, and for an interleaved chroma plane `height / 2` rows of as many whole component pairs
as `rowSize` bytes hold; and both go through when stride, frame row size and frame height are
not negative. -/
theorem copy_extents_exact (format : VideoFormat) (frame : Slices) (strides : Strides)
    (buf : Memory) (frameRowSize frameHeight : Int) :
    (∀ buf2 : Memory, (∀ a, 0 ≤ a → a < declaredImageSize format → buf a = buf2 a) →
      CopyFromInput format buf frame strides frameRowSize frameHeight =
        CopyFromInput format buf2 frame strides frameRowSize frameHeight) ∧
    (∀ fr, CopyFromInput format buf frame strides frameRowSize frameHeight = some fr →
      (∀ a, (∀ y x : Int, 0 ≤ y → y < min |format.bmi.biHeight| frameHeight → 0 ≤ x →
          x < min (hostStride format) frameRowSize → 0 + y * strides.Y + x ≠ a) →
        fr.Y a = frame.Y a) ∧
      (min (hostStride format) frameRowSize ≤ |strides.Y| →
        ∀ y x : Int, 0 ≤ y → y < min |format.bmi.biHeight| frameHeight → 0 ≤ x →
          x < min (hostStride format) frameRowSize →
          fr.Y (0 + y * strides.Y + x) =
            buf (primaryOffset format (min |format.bmi.biHeight| frameHeight) y x))) ∧
    (∀ out, CopyToOutput format frame strides buf frameRowSize frameHeight = some out →
      (∀ a, ¬ (0 ≤ a ∧ a < declaredImageSize format) → out a = buf a) ∧
      (∀ a, a < hostStride format * min |format.bmi.biHeight| frameHeight →
        (∀ y x : Int, 0 ≤ y → y < min |format.bmi.biHeight| frameHeight → 0 ≤ x →
          x < min (hostStride format) frameRowSize →
          primaryOffset format (min |format.bmi.biHeight| frameHeight) y x ≠ a) →
        out a = buf a) ∧
      (∀ y x : Int, 0 ≤ y → y < min |format.bmi.biHeight| frameHeight → 0 ≤ x →
        x < min (hostStride format) frameRowSize →
        out (primaryOffset format (min |format.bmi.biHeight| frameHeight) y x) =
          frame.Y (0 + y * strides.Y + x))) ∧
    (∀ y x : Int, 0 ≤ y → y < min |format.bmi.biHeight| frameHeight → 0 ≤ x →
      x < min (hostStride format) frameRowSize →
      0 ≤ primaryOffset format (min |format.bmi.biHeight| frameHeight) y x ∧
      primaryOffset format (min |format.bmi.biHeight| frameHeight) y x <
        declaredImageSize format) ∧
    ((FORMATS format.name).avsType.interleaved = false →
      separateChroma (FORMATS format.name).mediaSubtype = true →
      (∀ fr, CopyFromInput format buf frame strides frameRowSize frameHeight = some fr →
        Int.tdiv (min (hostStride format) frameRowSize) 2 ≤ |strides.U| →
        Int.tdiv (min (hostStride format) frameRowSize) 2 ≤ |strides.V| →
        ∀ y x : Int, 0 ≤ y → y < Int.tdiv (min |format.bmi.biHeight| frameHeight) 2 →
          0 ≤ x → x < Int.tdiv (min (hostStride format) frameRowSize) 2 →
          fr.U (0 + y * strides.U + x) =
            buf (chromaOffsetU format (min |format.bmi.biHeight| frameHeight)
              + y * Int.tdiv (hostStride format) 2 + x) ∧
          fr.V (0 + y * strides.V + x) =
            buf (chromaOffsetV format (min |format.bmi.biHeight| frameHeight)
              + y * Int.tdiv (hostStride format) 2 + x)) ∧
      (∀ out, CopyToOutput format frame strides buf frameRowSize frameHeight = some out →
        ∀ y x : Int, 0 ≤ y → y < Int.tdiv (min |format.bmi.biHeight| frameHeight) 2 →
          0 ≤ x → x < Int.tdiv (min (hostStride format) frameRowSize) 2 →
          out (chromaOffsetU format (min |format.bmi.biHeight| frameHeight)
              + y * Int.tdiv (hostStride format) 2 + x) = frame.U (0 + y * strides.U + x) ∧
          out (chromaOffsetV format (min |format.bmi.biHeight| frameHeight)
              + y * Int.tdiv (hostStride format) 2 + x) = frame.V (0 + y * strides.V + x))) ∧
    ((FORMATS format.name).avsType.interleaved = false →
      separateChroma (FORMATS format.name).mediaSubtype = false →
      (∀ fr, CopyFromInput format buf frame strides frameRowSize frameHeight = some fr →
        ((templateComponentSize format * ((min (hostStride format) frameRowSize).toNat /
          (2 * templateComponentSize format)) : Nat) : Int) ≤ |strides.U| →
        ∀ y x : Nat, y < (Int.tdiv (min |format.bmi.biHeight| frameHeight) 2).toNat →
          x < templateComponentSize format * ((min (hostStride format) frameRowSize).toNat /
            (2 * templateComponentSize format)) →
          fr.U ((y : Int) * strides.U + (x : Int)) =
            buf (hostStride format * min |format.bmi.biHeight| frameHeight
              + (y : Int) * hostStride format
              + ((2 * templateComponentSize format * (x / templateComponentSize format)
                + x % templateComponentSize format : Nat) : Int)) ∧
          fr.V ((y : Int) * strides.U + (x : Int)) =
            buf (hostStride format * min |format.bmi.biHeight| frameHeight
              + (y : Int) * hostStride format
              + ((2 * templateComponentSize format * (x / templateComponentSize format)
                + templateComponentSize format + x % templateComponentSize format : Nat)
                  : Int))) ∧
      (∀ out, CopyToOutput format frame strides buf frameRowSize frameHeight = some out →
        ∀ y x : Nat, y < (Int.tdiv (min |format.bmi.biHeight| frameHeight) 2).toNat →
          x < templateComponentSize format *
            ((Int.tdiv (min (hostStride format) frameRowSize) 2).toNat /
              templateComponentSize format) →
          out (hostStride format * min |format.bmi.biHeight| frameHeight
              + (y : Int) * hostStride format
              + ((2 * templateComponentSize format * (x / templateComponentSize format)
                + x % templateComponentSize format : Nat) : Int)) =
            frame.U ((y : Int) * strides.U + (x : Int)) ∧
          out (hostStride format * min |format.bmi.biHeight| frameHeight
              + (y : Int) * hostStride format
              + ((2 * templateComponentSize format * (x / templateComponentSize format)
                + templateComponentSize format + x % templateComponentSize format : Nat)
                  : Int)) =
            frame.V ((y : Int) * strides.U + (x : Int)))) ∧
    (0 ≤ hostStride format → 0 ≤ frameRowSize → 0 ≤ frameHeight →
      (∃ fr, CopyFromInput format buf frame strides frameRowSize frameHeight = some fr) ∧
      ∃ out, CopyToOutput format frame strides buf frameRowSize frameHeight = some out) := by
  refine ⟨?_, ?_, ?_, ?_, ?_, ?_, ?_⟩
  · intro buf2 h
    exact CopyFromInput_reads format buf buf2 frame strides frameRowSize frameHeight h
  · intro fr hm
    exact ⟨fun a ha => CopyFromInput_primary_other hm a ha,
      fun hp y x hy0 hy hx0 hx => CopyFromInput_primary hm hp y x hy0 hy hx0 hx⟩
  · intro out hm
    exact ⟨fun a ha => CopyToOutput_writes hm a ha,
      fun a hlt ha => CopyToOutput_primary_other hm a hlt ha,
      fun y x hy0 hy hx0 hx => CopyToOutput_primary hm y x hy0 hy hx0 hx⟩
  · intro y x hy0 hy hx0 hx
    have hxs : x < hostStride format := lt_of_lt_of_le hx (min_le_left _ _)
    have hs : 0 ≤ hostStride format := by omega
    obtain ⟨b1, b2⟩ := primaryOffset_lt format _ y x hy0 hy hx0 hxs
    obtain ⟨-, c2, -, -⟩ := image_bounds (hostStride format) |format.bmi.biHeight|
      (min |format.bmi.biHeight| frameHeight) hs (by omega) (min_le_left _ _)
    have := declaredImageSize_ge format hs
    constructor <;> omega
  · intro hi hsep
    refine ⟨?_, ?_⟩
    · intro fr hm hpU hpV y x hy0 hy hx0 hx
      exact CopyFromInput_planar hm hi hsep hpU hpV y x hy0 hy hx0 hx
    · intro out hm y x hy0 hy hx0 hx
      have hx1 : 0 < Int.tdiv (min (hostStride format) frameRowSize) 2 := by omega
      have hs : 0 ≤ hostStride format := by
        by_contra hneg
        have h1 : min (hostStride format) frameRowSize ≤ 0 :=
          le_trans (min_le_left _ _) (by omega)
        have := tdiv_two_nonpos h1
        omega
      exact CopyToOutput_planar hm hi hsep hs y x hy0 hy hx0 hx
  · intro hi hsep
    refine ⟨?_, ?_⟩
    · intro fr hm hp y x hy hx
      obtain ⟨hU, hV⟩ := CopyFromInput_packed hm hi hsep
      rw [hU, hV]
      exact Deinterleave_get _ buf _ _ frame.U frame.V strides.U _ _ hp y x hy hx
    · intro out hm y x hy hx
      obtain ⟨d0, hout⟩ := CopyToOutput_packed hm hi hsep
      rw [hout]
      refine Interleave_get _ (templateComponentSize_cases format) frame.U frame.V strides.U
        d0 _ _ _ _ ?_ y x hy hx
      have hpos : 0 < Int.tdiv (min (hostStride format) frameRowSize) 2 := by
        rcases templateComponentSize_cases format with hc | hc <;> rw [hc] at hx <;> omega
      have hm0 : 0 ≤ min (hostStride format) frameRowSize := by
        by_contra hneg
        have := tdiv_two_nonpos (show min (hostStride format) frameRowSize ≤ 0 by omega)
        omega
      have hle : min (hostStride format) frameRowSize ≤ hostStride format := min_le_left _ _
      rw [Int.tdiv_eq_ediv hm0 (by decide)] at hx ⊢
      rcases templateComponentSize_cases format with hc | hc <;> rw [hc] <;> omega
  · intro hs hr hh
    exact ⟨CopyFromInput_some format buf frame strides frameRowSize frameHeight hs hr hh,
      CopyToOutput_some format frame strides buf frameRowSize frameHeight hs hr hh⟩

theorem chromaOffsetU_YV12 (format : VideoFormat) (height : Int) (hn : format.name = .YV12) :
    chromaOffsetU format height = secondChromaPlane format height ∧
      chromaOffsetV format height = firstChromaPlane format height := by
  simp [chromaOffsetU, chromaOffsetV, firstChromaPlane, secondChromaPlane, hn, FORMATS]

theorem chromaOffsetU_I420 (format : VideoFormat) (height : Int)
    (hn : format.name = .I420 ∨ format.name = .IYUV) :
    chromaOffsetU format height = firstChromaPlane format height ∧
      chromaOffsetV format height = secondChromaPlane format height := by
  rcases hn with hn | hn <;>
    simp [chromaOffsetU, chromaOffsetV, firstChromaPlane, secondChromaPlane, hn, FORMATS]

theorem separate_of_name (format : VideoFormat)
    (hn : format.name = .YV12 ∨ format.name = .I420 ∨ format.name = .IYUV) :
    (FORMATS format.name).avsType.interleaved = false ∧
      separateChroma (FORMATS format.name).mediaSubtype = true := by
  rcases hn with hn | hn | hn <;>
    simp [hn, FORMATS, AvsType.interleaved, separateChroma]

/-- Converting as YV12 is converting as I420 (or IYUV) into the frame with the second and
third plane exchanged. -/
theorem CopyFromInput_YV12_swap (format : VideoFormat) (n : FormatName)
    (hn : n = .I420 ∨ n = .IYUV) (buf : Memory) (frame : Slices) (strides : Strides)
    (frameRowSize frameHeight : Int) :
    CopyFromInput (format.withName .YV12) buf frame strides frameRowSize frameHeight =
      (CopyFromInput (format.withName n) buf frame.swapUV strides.swapUV frameRowSize
        frameHeight).map Slices.swapUV := by
  have hs : hostStride (format.withName n) = hostStride (format.withName .YV12) := by
    rcases hn with rfl | rfl <;> rfl
  have ht : topDown (format.withName n) = topDown (format.withName .YV12) := rfl
  have hb : (format.withName n).bmi = (format.withName .YV12).bmi := rfl
  unfold CopyFromInput
  simp only [hs, ht, hb]
  have hY : (frame.swapUV).Y = frame.Y := rfl
  have hpY : (strides.swapUV).Y = strides.Y := rfl
  rw [hY, hpY]
  cases BitBlt frame.Y 0 strides.Y buf
      (if topDown (format.withName .YV12) then
        hostStride (format.withName .YV12) *
          min |(format.withName .YV12).bmi.biHeight| frameHeight
          - hostStride (format.withName .YV12) else 0)
      (if topDown (format.withName .YV12) then -hostStride (format.withName .YV12)
        else hostStride (format.withName .YV12))
      (min (hostStride (format.withName .YV12)) frameRowSize)
      (min |(format.withName .YV12).bmi.biHeight| frameHeight) with
  | none => rfl
  | some dstY =>
    simp only
    unfold CopyFromInputChroma
    have h1 : FORMATS (format.withName .YV12).name =
        { mediaSubtype := .MEDIASUBTYPE_YV12, avsType := .CS_YV12, bitCount := 12,
          componentsPerPixel := 1 } := rfl
    rw [h1]
    rcases hn with rfl | rfl
    · have h2 : FORMATS (format.withName .I420).name =
          { mediaSubtype := .MEDIASUBTYPE_I420, avsType := .CS_YV12, bitCount := 12,
            componentsPerPixel := 1 } := rfl
      rw [h2]
      by_cases hneg : Int.tdiv (min |(format.withName .YV12).bmi.biHeight| frameHeight) 2 < 0 ∨
          Int.tdiv (min (hostStride (format.withName .YV12)) frameRowSize) 2 < 0
      · simp [AvsType.interleaved, separateChroma, Slices.swapUV, Strides.swapUV, BitBlt, hneg]
      · simp [AvsType.interleaved, separateChroma, Slices.swapUV, Strides.swapUV, BitBlt, hneg]
    · have h2 : FORMATS (format.withName .IYUV).name =
          { mediaSubtype := .MEDIASUBTYPE_IYUV, avsType := .CS_YV12, bitCount := 12,
            componentsPerPixel := 1 } := rfl
      rw [h2]
      by_cases hneg : Int.tdiv (min |(format.withName .YV12).bmi.biHeight| frameHeight) 2 < 0 ∨
          Int.tdiv (min (hostStride (format.withName .YV12)) frameRowSize) 2 < 0
      · simp [AvsType.interleaved, separateChroma, Slices.swapUV, Strides.swapUV, BitBlt, hneg]
      · simp [AvsType.interleaved, separateChroma, Slices.swapUV, Strides.swapUV, BitBlt, hneg]

/-- C21: with `height = min(|biHeight|, frame height)`, `rowSize = min(stride, frame row
size)`, the first chroma plane at `stride * height` and the second a quarter of that size
further on, each plane of `height / 2` rows of `rowSize / 2` bytes at pitch `stride / 2`:
under YV12 `CopyFromInput` fills the frame's V plane from the first chroma plane and its U
plane from the second, byte for byte in row and column order, and `CopyToOutput` writes the V
plane to the first and the U plane to the second; under I420 and IYUV both use U for the
first and V for the second; and converting a buffer as YV12 gives the frame that converting it
as I420 or IYUV gives with U and V exchanged. -/
theorem chroma_plane_order (format : VideoFormat) (buf : Memory) (frame : Slices)
    (strides : Strides) (frameRowSize frameHeight : Int) :
    (format.name = .YV12 →
      (∀ fr, CopyFromInput format buf frame strides frameRowSize frameHeight = some fr →
        Int.tdiv (min (hostStride format) frameRowSize) 2 ≤ |strides.U| →
        Int.tdiv (min (hostStride format) frameRowSize) 2 ≤ |strides.V| →
        ∀ y x : Int, 0 ≤ y → y < Int.tdiv (min |format.bmi.biHeight| frameHeight) 2 →
          0 ≤ x → x < Int.tdiv (min (hostStride format) frameRowSize) 2 →
          fr.V (0 + y * strides.V + x) =
            buf (firstChromaPlane format (min |format.bmi.biHeight| frameHeight)
              + y * Int.tdiv (hostStride format) 2 + x) ∧
          fr.U (0 + y * strides.U + x) =
            buf (secondChromaPlane format (min |format.bmi.biHeight| frameHeight)
              + y * Int.tdiv (hostStride format) 2 + x)) ∧
      (∀ out, CopyToOutput format frame strides buf frameRowSize frameHeight = some out →
        ∀ y x : Int, 0 ≤ y → y < Int.tdiv (min |format.bmi.biHeight| frameHeight) 2 →
          0 ≤ x → x < Int.tdiv (min (hostStride format) frameRowSize) 2 →
          out (firstChromaPlane format (min |format.bmi.biHeight| frameHeight)
              + y * Int.tdiv (hostStride format) 2 + x) = frame.V (0 + y * strides.V + x) ∧
          out (secondChromaPlane format (min |format.bmi.biHeight| frameHeight)
              + y * Int.tdiv (hostStride format) 2 + x) = frame.U (0 + y * strides.U + x))) ∧
    (format.name = .I420 ∨ format.name = .IYUV →
      (∀ fr, CopyFromInput format buf frame strides frameRowSize frameHeight = some fr →
        Int.tdiv (min (hostStride format) frameRowSize) 2 ≤ |strides.U| →
        Int.tdiv (min (hostStride format) frameRowSize) 2 ≤ |strides.V| →
        ∀ y x : Int, 0 ≤ y → y < Int.tdiv (min |format.bmi.biHeight| frameHeight) 2 →
          0 ≤ x → x < Int.tdiv (min (hostStride format) frameRowSize) 2 →
          fr.U (0 + y * strides.U + x) =
            buf (firstChromaPlane format (min |format.bmi.biHeight| frameHeight)
              + y * Int.tdiv (hostStride format) 2 + x) ∧
          fr.V (0 + y * strides.V + x) =
            buf (secondChromaPlane format (min |format.bmi.biHeight| frameHeight)
              + y * Int.tdiv (hostStride format) 2 + x)) ∧
      (∀ out, CopyToOutput format frame strides buf frameRowSize frameHeight = some out →
        ∀ y x : Int, 0 ≤ y → y < Int.tdiv (min |format.bmi.biHeight| frameHeight) 2 →
          0 ≤ x → x < Int.tdiv (min (hostStride format) frameRowSize) 2 →
          out (firstChromaPlane format (min |format.bmi.biHeight| frameHeight)
              + y * Int.tdiv (hostStride format) 2 + x) = frame.U (0 + y * strides.U + x) ∧
          out (secondChromaPlane format (min |format.bmi.biHeight| frameHeight)
              + y * Int.tdiv (hostStride format) 2 + x) = frame.V (0 + y * strides.V + x))) ∧
    (∀ n : FormatName, n = .I420 ∨ n = .IYUV →
      CopyFromInput (format.withName .YV12) buf frame strides frameRowSize frameHeight =
        (CopyFromInput (format.withName n) buf frame.swapUV strides.swapUV frameRowSize
          frameHeight).map Slices.swapUV) ∧
    (∀ n : FormatName, n = .I420 ∨ n = .IYUV → frame.U = frame.V → strides.U = strides.V →
      CopyFromInput (format.withName .YV12) buf frame strides frameRowSize frameHeight =
        (CopyFromInput (format.withName n) buf frame strides frameRowSize
          frameHeight).map Slices.swapUV) := by
  have hstride : ∀ x : Int, 0 ≤ x →
      x < Int.tdiv (min (hostStride format) frameRowSize) 2 → 0 ≤ hostStride format := by
    intro x hx0 hx
    by_contra hneg
    have h1 : min (hostStride format) frameRowSize ≤ 0 :=
      le_trans (min_le_left _ _) (by omega)
    have := tdiv_two_nonpos h1
    omega
  refine ⟨?_, ?_, ?_, ?_⟩
  · intro hn
    obtain ⟨hi, hsep⟩ := separate_of_name format (Or.inl hn)
    obtain ⟨oU, oV⟩ := chromaOffsetU_YV12 format (min |format.bmi.biHeight| frameHeight) hn
    refine ⟨?_, ?_⟩
    · intro fr hm hpU hpV y x hy0 hy hx0 hx
      have := CopyFromInput_planar hm hi hsep hpU hpV y x hy0 hy hx0 hx
      rw [← oU, ← oV]
      exact ⟨this.2, this.1⟩
    · intro out hm y x hy0 hy hx0 hx
      have := CopyToOutput_planar hm hi hsep (hstride x hx0 hx) y x hy0 hy hx0 hx
      rw [← oU, ← oV]
      exact ⟨this.2, this.1⟩
  · intro hn
    obtain ⟨hi, hsep⟩ := separate_of_name format (Or.inr hn)
    obtain ⟨oU, oV⟩ := chromaOffsetU_I420 format (min |format.bmi.biHeight| frameHeight) hn
    refine ⟨?_, ?_⟩
    · intro fr hm hpU hpV y x hy0 hy hx0 hx
      have := CopyFromInput_planar hm hi hsep hpU hpV y x hy0 hy hx0 hx
      rw [← oU, ← oV]
      exact this
    · intro out hm y x hy0 hy hx0 hx
      have := CopyToOutput_planar hm hi hsep (hstride x hx0 hx) y x hy0 hy hx0 hx
      rw [← oU, ← oV]
      exact this
  · intro n hn
    exact CopyFromInput_YV12_swap format n hn buf frame strides frameRowSize frameHeight
  · intro n hn hU hp
    have h1 : frame.swapUV = frame := by
      cases frame
      simp only [Slices.swapUV] at hU ⊢
      rw [hU]
    have h2 : strides.swapUV = strides := by
      cases strides
      simp only [Strides.swapUV] at hp ⊢
      rw [hp]
    have := CopyFromInput_YV12_swap format n hn buf frame strides frameRowSize frameHeight
    rw [h1, h2] at this
    exact this

theorem chroma_plane_order_witness :
    (CopyFromInput yv12W bufW zeroSlices stridesW 4 4).map
        (fun fr => ([fr.U 0, fr.U 1, fr.U 4, fr.U 5], [fr.V 0, fr.V 1, fr.V 4, fr.V 5])) =
      some ([21, 22, 23, 24], [17, 18, 19, 20]) ∧
    (CopyFromInput i420W bufW zeroSlices stridesW 4 4).map
        (fun fr => ([fr.U 0, fr.U 1, fr.U 4, fr.U 5], [fr.V 0, fr.V 1, fr.V 4, fr.V 5])) =
      some ([17, 18, 19, 20], [21, 22, 23, 24]) ∧
    (CopyToOutput yv12W frameYuvW stridesW zeroMem 4 4).map
        (fun out => [out 15, out 16, out 19, out 20, out 23, out 24]) =
      some [7, 9, 9, 8, 8, 0] ∧
    (CopyToOutput i420W frameYuvW stridesW zeroMem 4 4).map
        (fun out => [out 15, out 16, out 19, out 20, out 23, out 24]) =
      some [7, 8, 8, 9, 9, 0] ∧
    CopyFromInput (yv12W.withName .YV12) bufW zeroSlices stridesW 4 4 =
      (CopyFromInput (yv12W.withName .I420) bufW zeroSlices stridesW 4 4).map
        Slices.swapUV :=
  ⟨by decide, by decide, by decide, by decide,
    (chroma_plane_order yv12W bufW zeroSlices stridesW 4 4).2.2.2 .I420 (Or.inl rfl) rfl rfl⟩

theorem toInt32_of_fits {x : Int} (h : fitsInt32 x) : SynthFilter.toInt32 x = x := by
  unfold fitsInt32 at h
  unfold SynthFilter.toInt32
  omega

/-- Reduction to 32 bits may be postponed to the end of a product. -/
theorem toInt32_mul_toInt32 (a c : Int) :
    SynthFilter.toInt32 (SynthFilter.toInt32 a * c) = SynthFilter.toInt32 (a * c) := by
  unfold SynthFilter.toInt32
  have h : (a + 2147483648) % 4294967296
      = a + 2147483648 - 4294967296 * ((a + 2147483648) / 4294967296) := by
    have := Int.emod_add_ediv (a + 2147483648) 4294967296
    omega
  rw [h]
  have e : (a + 2147483648 - 4294967296 * ((a + 2147483648) / 4294967296) - 2147483648) * c
      + 2147483648
      = a * c + 2147483648 + 4294967296 * (-(((a + 2147483648) / 4294967296) * c)) := by
    ring
  rw [e, Int.add_mul_emod_self_left]

theorem hostStride32_eq {format : VideoFormat} (hs : fitsInt32 (hostStride format)) :
    hostStride32 format = hostStride format := by
  unfold hostStride32
  rw [toInt32_mul_toInt32]
  exact toInt32_of_fits hs

theorem BitBlt_negative (dst : Memory) (dstp dst_pitch : Int) (src : Memory)
    (srcp src_pitch : Int) {row_size height : Int} (h : height < 0 ∨ row_size < 0) :
    BitBlt dst dstp dst_pitch src srcp src_pitch row_size height = none := by
  simp [BitBlt, h]

/-- The negated stride of a copy that goes past its first test is a value of `int`. -/
theorem neg_stride_fits {s R : Int} (hs : fitsInt32 s) (h1 : ¬ min s R < 0) :
    SynthFilter.toInt32 (-s) = -s := by
  have h2 : 0 ≤ s := le_trans (not_lt.mp h1) (min_le_left _ _)
  unfold fitsInt32 at hs
  exact toInt32_of_fits ⟨by omega, by omega⟩

/-- When the stride, `|biHeight|` and the plane size `stride * height` are values of `int`,
the 32-bit `CopyFromInput` is the copy over the exact integers, so that what is proved of
`CopyFromInput` holds of the 32-bit copy for such a format and frame. -/
theorem CopyFromInput32_eq (format : VideoFormat) (srcBuffer : Memory) (dstSlices : Slices)
    (dstStrides : Strides) (dstRowSize dstHeight : Int)
    (hs : fitsInt32 (hostStride format)) (hH : fitsInt32 |format.bmi.biHeight|)
    (hP : fitsInt32 (hostStride format * min |format.bmi.biHeight| dstHeight)) :
    CopyFromInput32 format srcBuffer dstSlices dstStrides dstRowSize dstHeight =
      CopyFromInput format srcBuffer dstSlices dstStrides dstRowSize dstHeight := by
  unfold CopyFromInput32 CopyFromInput
  simp only [hostStride32_eq hs, toInt32_of_fits hH, toInt32_of_fits hP]
  by_cases hneg : min (hostStride format) dstRowSize < 0
  · rw [BitBlt_negative _ _ _ _ _ _ (Or.inr hneg), BitBlt_negative _ _ _ _ _ _ (Or.inr hneg)]
  · rw [neg_stride_fits hs hneg]

/-- When the stride, `|biHeight|` and the plane size `stride * height` are values of `int`,
the 32-bit `CopyToOutput` is the copy over the exact integers, so that what is proved of
`CopyToOutput` holds of the 32-bit copy for such a format and frame. -/
theorem CopyToOutput32_eq (format : VideoFormat) (srcSlices : Slices) (srcStrides : Strides)
    (dstBuffer : Memory) (srcRowSize srcHeight : Int)
    (hs : fitsInt32 (hostStride format)) (hH : fitsInt32 |format.bmi.biHeight|)
    (hP : fitsInt32 (hostStride format * min |format.bmi.biHeight| srcHeight)) :
    CopyToOutput32 format srcSlices srcStrides dstBuffer srcRowSize srcHeight =
      CopyToOutput format srcSlices srcStrides dstBuffer srcRowSize srcHeight := by
  unfold CopyToOutput32 CopyToOutput
  simp only [hostStride32_eq hs, toInt32_of_fits hH, toInt32_of_fits hP]
  by_cases hneg : min (hostStride format) srcRowSize < 0
  · rw [BitBlt_negative _ _ _ _ _ _ (Or.inr hneg), BitBlt_negative _ _ _ _ _ _ (Or.inr hneg)]
  · rw [neg_stride_fits hs hneg]

/-- C20 (counterexample): for YV12 of 2^30 by 2 pixels the row size 2^30 is a value of `int`
but the plane size 2^31 is reduced to -2^31, so the chroma planes are taken 2^31 bytes below
the start of the host buffer: two buffers that agree at every offset from 0 on give different
frames, and `CopyToOutput` stores a chroma byte at offset -2^31. For RGB32 of 2^30 pixels a
row the row size 2^32 is reduced to 0, so no byte of a frame row of 4 bytes is copied, where
min(declared stride, frame row size) is 4. For a top-down RGB24 bitmap whose `biHeight` is
the least `int`, `abs` leaves a negative height and the first `BitBlt` fails, where
min(|biHeight|, frame height) is 2 rows. -/
theorem copy_wraps_outside_image :
    (hostStride32 yv12Wide = 1073741824 ∧ declaredImageSize yv12Wide = 3221225472 ∧
      ¬ fitsInt32 (hostStride yv12Wide * min |yv12Wide.bmi.biHeight| 2) ∧
      SynthFilter.toInt32 (hostStride32 yv12Wide * min |yv12Wide.bmi.biHeight| 2)
        = -2147483648 ∧
      (∀ a, 0 ≤ a → bufBelow a = zeroMem a) ∧
      (CopyFromInput32 yv12Wide bufBelow zeroSlices stridesW 4 2).map (fun fr => fr.V 0)
        = some 5 ∧
      (CopyFromInput32 yv12Wide zeroMem zeroSlices stridesW 4 2).map (fun fr => fr.V 0)
        = some 0 ∧
      (CopyToOutput32 yv12Wide frameYuvW stridesW zeroMem 4 2).map
        (fun out => out (-2147483648)) = some 9 ∧
      zeroMem (-2147483648) = 0) ∧
    (hostStride rgb32Wide = 4294967296 ∧ ¬ fitsInt32 (hostStride rgb32Wide) ∧
      hostStride32 rgb32Wide = 0 ∧ min (hostStride rgb32Wide) 4 = 4 ∧
      (CopyFromInput32 rgb32Wide bufW zeroSlices stridesRgbW 4 1).map (fun fr => fr.Y 0)
        = some 0 ∧
      bufW 0 = 1) ∧
    (¬ fitsInt32 |rgbLeast.bmi.biHeight| ∧ min |rgbLeast.bmi.biHeight| 2 = 2 ∧
      (CopyFromInput32 rgbLeast bufW zeroSlices stridesRgbW 3 2).isSome = false ∧
      (CopyToOutput32 rgbLeast frameRgbW stridesRgbW zeroMem 3 2).isSome = false) := by
  refine ⟨⟨by decide, by decide, ?_, by decide, ?_, by decide, by decide, by decide,
    by decide⟩, ⟨by decide, ?_, by decide, by decide, by decide, by decide⟩,
    ⟨?_, by decide, by decide, by decide⟩⟩
  · intro h
    exact absurd h.2 (by decide)
  · intro a ha
    simp [bufBelow, zeroMem, not_lt.mpr ha]
  · intro h
    exact absurd h.2 (by decide)
  · intro h
    exact absurd h.2 (by decide)

/-- C20 (amended): for every format descriptor, frame and host buffer, with
`rowSize = min(stride, frame row size)` and `height = min(|biHeight|, frame height)`, such
that the stride, `|biHeight|` and the plane size `stride * height` are values of the 32-bit
`int`: the stride the machine computes is the declared one; `CopyFromInput` reads the host buffer at
offsets from 0 up to the declared image size only (buffers that agree there give the same
frame), changes the first plane of the frame in `height` rows of `rowSize` bytes only, and
fills these from the host rows, the last row first for a top-down bitmap; `CopyToOutput`
writes the host buffer at offsets from 0 up to the declared image size only, changes the
primary plane in `height` rows of `rowSize` bytes only, and fills these from the frame; every
primary offset used lies from 0 up to the declared image size; for separate chroma planes both
copy `height / 2` rows of `rowSize / 2` bytes of each plane, and for an interleaved chroma
plane `height / 2` rows of as many whole component pairs as `rowSize` bytes hold; and both go
through when stride, frame row size and frame height are not negative. -/
theorem copy_extents_within_image (format : VideoFormat) (frame : Slices) (strides : Strides)
    (buf : Memory) (frameRowSize frameHeight : Int)
    (hs : fitsInt32 (hostStride format)) (hH : fitsInt32 |format.bmi.biHeight|)
    (hP : fitsInt32 (hostStride format * min |format.bmi.biHeight| frameHeight)) :
    hostStride32 format = hostStride format ∧
    (∀ buf2 : Memory, (∀ a, 0 ≤ a → a < declaredImageSize format → buf a = buf2 a) →
      CopyFromInput32 format buf frame strides frameRowSize frameHeight =
        CopyFromInput32 format buf2 frame strides frameRowSize frameHeight) ∧
    (∀ fr, CopyFromInput32 format buf frame strides frameRowSize frameHeight = some fr →
      (∀ a, (∀ y x : Int, 0 ≤ y → y < min |format.bmi.biHeight| frameHeight → 0 ≤ x →
          x < min (hostStride format) frameRowSize → 0 + y * strides.Y + x ≠ a) →
        fr.Y a = frame.Y a) ∧
      (min (hostStride format) frameRowSize ≤ |strides.Y| →
        ∀ y x : Int, 0 ≤ y → y < min |format.bmi.biHeight| frameHeight → 0 ≤ x →
          x < min (hostStride format) frameRowSize →
          fr.Y (0 + y * strides.Y + x) =
            buf (primaryOffset format (min |format.bmi.biHeight| frameHeight) y x))) ∧
    (∀ out, CopyToOutput32 format frame strides buf frameRowSize frameHeight = some out →
      (∀ a, ¬ (0 ≤ a ∧ a < declaredImageSize format) → out a = buf a) ∧
      (∀ a, a < hostStride format * min |format.bmi.biHeight| frameHeight →
        (∀ y x : Int, 0 ≤ y → y < min |format.bmi.biHeight| frameHeight → 0 ≤ x →
          x < min (hostStride format) frameRowSize →
          primaryOffset format (min |format.bmi.biHeight| frameHeight) y x ≠ a) →
        out a = buf a) ∧
      (∀ y x : Int, 0 ≤ y → y < min |format.bmi.biHeight| frameHeight → 0 ≤ x →
        x < min (hostStride format) frameRowSize →
        out (primaryOffset format (min |format.bmi.biHeight| frameHeight) y x) =
          frame.Y (0 + y * strides.Y + x))) ∧
    (∀ y x : Int, 0 ≤ y → y < min |format.bmi.biHeight| frameHeight → 0 ≤ x →
      x < min (hostStride format) frameRowSize →
      0 ≤ primaryOffset format (min |format.bmi.biHeight| frameHeight) y x ∧
      primaryOffset format (min |format.bmi.biHeight| frameHeight) y x <
        declaredImageSize format) ∧
    ((FORMATS format.name).avsType.interleaved = false →
      separateChroma (FORMATS format.name).mediaSubtype = true →
      (∀ fr, CopyFromInput32 format buf frame strides frameRowSize frameHeight = some fr →
        Int.tdiv (min (hostStride format) frameRowSize) 2 ≤ |strides.U| →
        Int.tdiv (min (hostStride format) frameRowSize) 2 ≤ |strides.V| →
        ∀ y x : Int, 0 ≤ y → y < Int.tdiv (min |format.bmi.biHeight| frameHeight) 2 →
          0 ≤ x → x < Int.tdiv (min (hostStride format) frameRowSize) 2 →
          fr.U (0 + y * strides.U + x) =
            buf (chromaOffsetU format (min |format.bmi.biHeight| frameHeight)
              + y * Int.tdiv (hostStride format) 2 + x) ∧
          fr.V (0 + y * strides.V + x) =
            buf (chromaOffsetV format (min |format.bmi.biHeight| frameHeight)
              + y * Int.tdiv (hostStride format) 2 + x)) ∧
      (∀ out, CopyToOutput32 format frame strides buf frameRowSize frameHeight = some out →
        ∀ y x : Int, 0 ≤ y → y < Int.tdiv (min |format.bmi.biHeight| frameHeight) 2 →
          0 ≤ x → x < Int.tdiv (min (hostStride format) frameRowSize) 2 →
          out (chromaOffsetU format (min |format.bmi.biHeight| frameHeight)
              + y * Int.tdiv (hostStride format) 2 + x) = frame.U (0 + y * strides.U + x) ∧
          out (chromaOffsetV format (min |format.bmi.biHeight| frameHeight)
              + y * Int.tdiv (hostStride format) 2 + x) = frame.V (0 + y * strides.V + x))) ∧
    ((FORMATS format.name).avsType.interleaved = false →
      separateChroma (FORMATS format.name).mediaSubtype = false →
      (∀ fr, CopyFromInput32 format buf frame strides frameRowSize frameHeight = some fr →
        ((templateComponentSize format * ((min (hostStride format) frameRowSize).toNat /
          (2 * templateComponentSize format)) : Nat) : Int) ≤ |strides.U| →
        ∀ y x : Nat, y < (Int.tdiv (min |format.bmi.biHeight| frameHeight) 2).toNat →
          x < templateComponentSize format * ((min (hostStride format) frameRowSize).toNat /
            (2 * templateComponentSize format)) →
          fr.U ((y : Int) * strides.U + (x : Int)) =
            buf (hostStride format * min |format.bmi.biHeight| frameHeight
              + (y : Int) * hostStride format
              + ((2 * templateComponentSize format * (x / templateComponentSize format)
                + x % templateComponentSize format : Nat) : Int)) ∧
          fr.V ((y : Int) * strides.U + (x : Int)) =
            buf (hostStride format * min |format.bmi.biHeight| frameHeight
              + (y : Int) * hostStride format
              + ((2 * templateComponentSize format * (x / templateComponentSize format)
                + templateComponentSize format + x % templateComponentSize format : Nat)
                  : Int))) ∧
      (∀ out, CopyToOutput32 format frame strides buf frameRowSize frameHeight = some out →
        ∀ y x : Nat, y < (Int.tdiv (min |format.bmi.biHeight| frameHeight) 2).toNat →
          x < templateComponentSize format *
            ((Int.tdiv (min (hostStride format) frameRowSize) 2).toNat /
              templateComponentSize format) →
          out (hostStride format * min |format.bmi.biHeight| frameHeight
              + (y : Int) * hostStride format
              + ((2 * templateComponentSize format * (x / templateComponentSize format)
                + x % templateComponentSize format : Nat) : Int)) =
            frame.U ((y : Int) * strides.U + (x : Int)) ∧
          out (hostStride format * min |format.bmi.biHeight| frameHeight
              + (y : Int) * hostStride format
              + ((2 * templateComponentSize format * (x / templateComponentSize format)
                + templateComponentSize format + x % templateComponentSize format : Nat)
                  : Int)) =
            frame.V ((y : Int) * strides.U + (x : Int)))) ∧
    (0 ≤ hostStride format → 0 ≤ frameRowSize → 0 ≤ frameHeight →
      (∃ fr, CopyFromInput32 format buf frame strides frameRowSize frameHeight = some fr) ∧
      ∃ out, CopyToOutput32 format frame strides buf frameRowSize frameHeight = some out) := by
  have e1 : ∀ b f, CopyFromInput32 format b f strides frameRowSize frameHeight =
      CopyFromInput format b f strides frameRowSize frameHeight :=
    fun b f => CopyFromInput32_eq format b f strides frameRowSize frameHeight hs hH hP
  have e2 : CopyToOutput32 format frame strides buf frameRowSize frameHeight =
      CopyToOutput format frame strides buf frameRowSize frameHeight :=
    CopyToOutput32_eq format frame strides buf frameRowSize frameHeight hs hH hP
  simp only [e1, e2]
  exact ⟨hostStride32_eq hs,
    copy_extents_exact format frame strides buf frameRowSize frameHeight⟩

/-- YV12 of four by four pixels with a frame of two rows of three bytes: less than the
declared four rows of four bytes. -/
theorem copy_extents_within_image_witness :
    fitsInt32 (hostStride yv12W) ∧ fitsInt32 |yv12W.bmi.biHeight| ∧
    fitsInt32 (hostStride yv12W * min |yv12W.bmi.biHeight| 2) ∧
    declaredImageSize yv12W = 24 ∧
    (∃ fr, CopyFromInput32 yv12W bufW zeroSlices stridesW 3 2 = some fr) ∧
    (∃ out, CopyToOutput32 yv12W frameRgbW stridesW zeroMem 3 2 = some out ∧
      [out 0, out 1, out 2, out 3, out 4, out 5, out 6, out 7, out 8, out 9, out 10] =
        [1, 2, 3, 0, 9, 10, 11, 0, 0, 0, 0] ∧
      ∀ a, ¬ (0 ≤ a ∧ a < declaredImageSize yv12W) → out a = zeroMem a) := by
  have f1 : fitsInt32 (hostStride yv12W) := ⟨by decide, by decide⟩
  have f2 : fitsInt32 |yv12W.bmi.biHeight| := ⟨by decide, by decide⟩
  have f3 : fitsInt32 (hostStride yv12W * min |yv12W.bmi.biHeight| 2) :=
    ⟨by decide, by decide⟩
  have h := copy_extents_within_image yv12W frameRgbW stridesW zeroMem 3 2 f1 f2 f3
  have h2 := copy_extents_within_image yv12W zeroSlices stridesW bufW 3 2 f1 f2 f3
  refine ⟨f1, f2, f3, by decide,
    (h2.2.2.2.2.2.2.2 (by decide) (by decide) (by decide)).1, ?_⟩
  refine ⟨_, rfl, ?_, ?_⟩
  · decide
  · exact (h.2.2.2.1 _ rfl).1

end AvsFilter
